import Mathlib

/-!
# Grenade plugin: embedding of `grenade.cpp`

The plugin's functions are embedded as pure functions over an explicit world
state.  Floating point numbers (`float`, `double`) are read as elements of an
ordered field `F` (exact arithmetic); the C math library is a parameter
`Libm F`, so that every definition below is executable, for instance over `ℚ`.
Statements that depend on what `sqrtf`, `sinf`, `cosf`, `asin` and `atan2`
compute are made for the real functions (`Libm.IsReal`).

Where a property of the exact reading fails for the compiled code, the lines
concerned are embedded a second time with every operation rounded
(`binary32`), and the failing run is evaluated there.
-/

set_option autoImplicit false

namespace Grenade

/-! ## Data model -/

/-- Three coordinates, a `float[3]` of the source. -/
structure Vec3 (F : Type) where
  x : F
  y : F
  z : F
deriving DecidableEq, Repr

/-- The functions of the C math library used by the plugin, and `M_PI`. -/
structure Libm (F : Type) where
  sqrt : F → F
  sin : F → F
  cos : F → F
  asin : F → F
  atan2 : F → F → F
  pi : F

/-- The math library computes the real functions: `atan2 y x` is the argument
of the complex number `x + y i`, a value in `(-π, π]`, with `atan2 0 0 = 0`. -/
def Libm.IsReal (m : Libm ℝ) : Prop :=
  m.sqrt = Real.sqrt ∧ m.sin = Real.sin ∧ m.cos = Real.cos ∧ m.asin = Real.arcsin ∧
    m.atan2 = (fun y x => Complex.arg ⟨x, y⟩) ∧ m.pi = Real.pi

/-- A flag type of the host (`FlagType *`), named by its abbreviation. -/
abbrev FlagType := String

/-- The host's `ServerPlayer` identity (the `Event` handler compares `killerID` with 253). -/
def ServerPlayer : Int := 253

/-- Conversion of an `int` to the host's `PlayerId`, an unsigned 8-bit integer. -/
def toPlayerId (id : Int) : Int := id % 256

/-- The `shot` part of a `FiringInfo`. -/
structure ShotUpdate (F : Type) where
  player : Int
  pos : Vec3 F
  vel : Vec3 F
  id : Int
  dt : F
  team : Int
deriving DecidableEq, Repr

/-- The spawn record that `sendShot` packs and broadcasts as `MsgShotBegin`. -/
structure FiringInfo (F : Type) where
  timeSent : F
  flagType : FlagType
  lifetime : F
  shot : ShotUpdate F
deriving DecidableEq, Repr

/-- The `struct DelayedShot` of the source. -/
structure DelayedShot (F : Type) where
  flag : Option String
  lifetime : F
  team : Int
  pos : Vec3 F
  tilt : F
  dir : F
  speed : F
  delay : F
  owner : Int
deriving DecidableEq, Repr

/-- The `lastKnownState` of a player record. -/
structure PlayerState (F : Type) where
  velocity : Vec3 F
  rotation : F

/-- The part of `bz_BasePlayerRecord` that the plugin reads. -/
structure bz_BasePlayerRecord (F : Type) where
  lastKnownState : PlayerState F

/-- The part of `bz_ShotFiredEventData_V1` that `fireGrenade` reads. -/
structure bz_ShotFiredEventData_V1 (F : Type) where
  playerID : Int
  pos : Vec3 F
  vel : Vec3 F

/-- What the host answers during one event: the flag map, the team conversion,
the player registry, the configuration store and the clock. -/
structure Env (F : Type) where
  flagMap : String → Option FlagType
  convertTeam : Int → Int
  bz_getPlayerByIndex : Int → Option (bz_BasePlayerRecord F)
  bz_getPlayerTeam : Int → Int
  bz_getBZDBDouble : String → F
  bz_getBZDBBool : String → Bool
  currentTime : F

/-- The mutable state: the static counter `i` of `getShotID`, the messages
broadcast so far (oldest first), the vector `delayedShots`, and the static
`prevTime` of `updateDelayedShotQueue` (`none` before its first run). -/
structure World (F : Type) where
  shotCounter : Int
  broadcast : List (FiringInfo F)
  delayedShots : List (DelayedShot F)
  prevTime : Option F

variable {F : Type} [LinearOrderedField F]

/-! ## Emitter -/

/-- The velocity that `sendShot` writes into `firingInfo.shot.vel`. -/
def sendShot.vel (m : Libm F) (tilt dir speed : F) : Vec3 F :=
  let tiltFactor := m.cos tilt
  ⟨speed * tiltFactor * m.cos dir, speed * tiltFactor * m.sin dir, speed * m.sin tilt⟩

/-- The function `sendShot`: it fills a `FiringInfo`, broadcasts it and returns the shot id. -/
def sendShot (m : Libm F) (env : Env F) (f : FlagType) (lifetime : F) (t : Int) (p : Vec3 F)
    (tilt dir : F) (shotId : Int) (speed : F) (w : World F) : Int × World F :=
  let firingInfo : FiringInfo F :=
    { timeSent := env.currentTime
      flagType := f
      lifetime := lifetime
      shot :=
        { player := ServerPlayer
          pos := p
          vel := sendShot.vel m tilt dir speed
          id := shotId
          dt := 0
          team := t } }
  (shotId, { w with broadcast := w.broadcast ++ [firingInfo] })

/-- The function `getShotID`: `++i; i &= 255; return 256 * player + i`. -/
def getShotID (player : Int) (w : World F) : Int × World F :=
  let i := (w.shotCounter + 1) % 256
  (256 * player + i, { w with shotCounter := i })

/-- The function `fireShot` (tilt, direction and speed given); a null `p` or `flag` is `none`. -/
def fireShot (m : Libm F) (env : Env F) (flag : Option String) (lifetime : F) (id : Int) (t : Int)
    (p : Option (Vec3 F)) (tilt dir speed : F) (w : World F) : Int × World F :=
  match p, flag with
  | some p, some flag =>
    match env.flagMap flag with
    | none => (-1, w)
    | some type =>
      let (shotId, w1) := getShotID (toPlayerId id) w
      sendShot m env type lifetime (env.convertTeam t) p tilt dir shotId speed w1
  | _, _ => (-1, w)

/-- The overload of `fireShot` that takes a velocity vector `v`. -/
def fireShotV (m : Libm F) (env : Env F) (flag : Option String) (lifetime : F) (id : Int) (t : Int)
    (p : Option (Vec3 F)) (v : Vec3 F) (w : World F) : Int × World F :=
  let speed := m.sqrt (v.x ^ 2 + v.y ^ 2 + v.z ^ 2)
  let tilt := m.asin (v.z / speed)
  let dir := m.atan2 v.y v.x
  fireShot m env flag lifetime id t p tilt dir speed w

/-- The function `getKiller`: the owner part of a shot id (C division truncates), or
`ServerPlayer` when the registry has no such player. -/
def getKiller (env : Env F) (shotID : Int) : Int :=
  let killer := shotID.tdiv 256
  match env.bz_getPlayerByIndex killer with
  | none => ServerPlayer
  | some _ => killer

/-! ## Delayed shots -/

/-- The function `fireDelayedShot` (tilt, direction and speed given).  The constructor of
`DelayedShot` reads `p[0..2]`, so `p` is an array here. -/
def fireDelayedShot (m : Libm F) (env : Env F) (flag : Option String) (lifetime : F) (id : Int)
    (t : Int) (p : Vec3 F) (tilt dir speed delay : F) (w : World F) : World F :=
  let id := toPlayerId id
  let w1 := if delay ≤ 0 then (fireShot m env flag lifetime id t (some p) tilt dir speed w).2 else w
  let s : DelayedShot F := ⟨flag, lifetime, t, p, tilt, dir, speed, delay, id⟩
  { w1 with delayedShots := w1.delayedShots ++ [s] }

/-- The overload of `fireDelayedShot` that takes a velocity vector `v`. -/
def fireDelayedShotV (m : Libm F) (env : Env F) (flag : Option String) (lifetime : F) (id : Int)
    (t : Int) (p : Vec3 F) (v : Vec3 F) (delay : F) (w : World F) : World F :=
  let speed := m.sqrt (v.x ^ 2 + v.y ^ 2 + v.z ^ 2)
  let tilt := m.asin (v.z / speed)
  let dir := m.atan2 v.y v.x
  fireDelayedShot m env flag lifetime id t p tilt dir speed delay w

/-- The loop of `updateDelayedShotQueue` over the entries from the iterator on:
it returns the entries that stay, and the world after the shots fired. -/
def updateDelayedShotQueue.loop (m : Libm F) (env : Env F) (dt : F) :
    List (DelayedShot F) → World F → List (DelayedShot F) × World F
  | [], w => ([], w)
  | it :: rest, w =>
    let it : DelayedShot F := { it with delay := it.delay - dt }
    if it.delay ≤ 0 then
      let w1 := (fireShot m env it.flag it.lifetime it.owner it.team (some it.pos)
        it.tilt it.dir it.speed w).2
      updateDelayedShotQueue.loop m env dt rest w1
    else
      let r := updateDelayedShotQueue.loop m env dt rest w
      (it :: r.1, r.2)

/-- The function `updateDelayedShotQueue`; `prevTime` is initialised by the first run. -/
def updateDelayedShotQueue (m : Libm F) (env : Env F) (w : World F) : World F :=
  let prevTime := w.prevTime.getD env.currentTime
  let curTime := env.currentTime
  let dt := max 0 (curTime - prevTime)
  let r := updateDelayedShotQueue.loop m env dt w.delayedShots { w with prevTime := some curTime }
  { r.2 with delayedShots := r.1 }

/-! ## The fire handler -/

/-- The forward speed `speed` of `fireGrenade` (after the two `if`s). -/
def fireGrenade.speed (m : Libm F) (b : bz_BasePlayerRecord F) : F :=
  let speed := m.sqrt (b.lastKnownState.velocity.x ^ 2 + b.lastKnownState.velocity.y ^ 2)
  let veldir := m.atan2 b.lastKnownState.velocity.y b.lastKnownState.velocity.x
  let diff := b.lastKnownState.rotation - veldir
  let diff := m.atan2 (m.sin diff) (m.cos diff)
  let speed := if |diff| > m.pi / 2 then speed * -1 else speed
  if speed < 0 then 0 else speed

/-- The local `diff` of `fireGrenade` after its second assignment: the angle from the
velocity direction to the facing direction, wrapped by `atan2f (sinf diff, cosf diff)`. -/
def fireGrenade.diff (m : Libm F) (b : bz_BasePlayerRecord F) : F :=
  let veldir := m.atan2 b.lastKnownState.velocity.y b.lastKnownState.velocity.x
  let diff := b.lastKnownState.rotation - veldir
  m.atan2 (m.sin diff) (m.cos diff)

/-- The local `range` of `fireGrenade`, for a forward speed `speed`. -/
def fireGrenade.range (env : Env F) (speed : F) : F :=
  let minRange := env.bz_getBZDBDouble "_grenadeMinRange"
  let maxRange := env.bz_getBZDBDouble "_grenadeMaxRange"
  minRange + (maxRange - minRange) * speed / env.bz_getBZDBDouble "_tankSpeed"

/-- The local `shotVel` of `fireGrenade`. -/
def fireGrenade.shotVel (m : Libm F) (env : Env F) (d : bz_ShotFiredEventData_V1 F)
    (b : bz_BasePlayerRecord F) : Vec3 F :=
  let lifetime := env.bz_getBZDBDouble "_grenadeTriggerTime"
  let range := fireGrenade.range env (fireGrenade.speed m b)
  let sp := m.sqrt (d.vel.x ^ 2 + d.vel.y ^ 2)
  ⟨d.vel.x / sp * range / lifetime,
   d.vel.y / sp * range / lifetime,
   (if env.bz_getBZDBBool "_grenadeUseVerticalVelocity" then 1 else 0) * b.lastKnownState.velocity.z⟩

/-- The local `collisionTime` of `fireGrenade` after the four wall tests, for a
shot that starts at `pos` with velocity `shotVel`. -/
def fireGrenade.collisionTime (env : Env F) (pos shotVel : Vec3 F) : F :=
  let lifetime := env.bz_getBZDBDouble "_grenadeTriggerTime"
  let collisionTime := lifetime
  let wallPos := env.bz_getBZDBDouble "_worldSize" / 2
  let collisionTimeTemp := (wallPos - pos.x) / shotVel.x
  let collisionTime :=
    if collisionTimeTemp > 0 ∧ collisionTimeTemp < collisionTime then collisionTimeTemp
    else collisionTime
  let collisionTimeTemp := (-wallPos - pos.x) / shotVel.x
  let collisionTime :=
    if collisionTimeTemp > 0 ∧ collisionTimeTemp < collisionTime then collisionTimeTemp
    else collisionTime
  let collisionTimeTemp := (wallPos - pos.y) / shotVel.y
  let collisionTime :=
    if collisionTimeTemp > 0 ∧ collisionTimeTemp < collisionTime then collisionTimeTemp
    else collisionTime
  let collisionTimeTemp := (-wallPos - pos.y) / shotVel.y
  let collisionTime :=
    if collisionTimeTemp > 0 ∧ collisionTimeTemp < collisionTime then collisionTimeTemp
    else collisionTime
  collisionTime

/-- The local `groundCollisionTime` of `fireGrenade`. -/
def fireGrenade.groundCollisionTime (pos shotVel : Vec3 F) : F :=
  -pos.z / shotVel.z

/-- The condition of the bounce branch of `fireGrenade`. -/
def fireGrenade.bounces (env : Env F) (pos shotVel : Vec3 F) : Prop :=
  fireGrenade.groundCollisionTime pos shotVel > 0 ∧
    fireGrenade.groundCollisionTime pos shotVel < fireGrenade.collisionTime env pos shotVel

/-- The bounce condition is decidable, as the comparisons of `F` are. -/
instance fireGrenade.bounces.decidable (env : Env F) (pos shotVel : Vec3 F) :
    Decidable (fireGrenade.bounces env pos shotVel) := by
  unfold fireGrenade.bounces
  exact inferInstance

/-- The local `groundpos` of the bounce branch. -/
def fireGrenade.groundpos (pos shotVel : Vec3 F) : Vec3 F :=
  let groundCollisionTime := fireGrenade.groundCollisionTime pos shotVel
  ⟨pos.x + shotVel.x * groundCollisionTime,
   pos.y + shotVel.y * groundCollisionTime,
   pos.z + shotVel.z * groundCollisionTime⟩

/-- The local `bouncevel` of the bounce branch. -/
def fireGrenade.bouncevel (shotVel : Vec3 F) : Vec3 F :=
  ⟨shotVel.x, shotVel.y, -shotVel.z⟩

/-- The local `explodePos` of `fireGrenade`, in either branch. -/
def fireGrenade.explodePos (env : Env F) (pos shotVel : Vec3 F) : Vec3 F :=
  let collisionTime := fireGrenade.collisionTime env pos shotVel
  let groundCollisionTime := fireGrenade.groundCollisionTime pos shotVel
  if fireGrenade.bounces env pos shotVel then
    ⟨pos.x + shotVel.x * collisionTime,
     pos.y + shotVel.y * collisionTime,
     (fireGrenade.groundpos pos shotVel).z +
       (fireGrenade.bouncevel shotVel).z * (collisionTime - groundCollisionTime)⟩
  else
    ⟨pos.x + shotVel.x * collisionTime,
     pos.y + shotVel.y * collisionTime,
     pos.z + shotVel.z * collisionTime⟩

/-- The function `fireGrenade`; the result is `none` when the registry has no record for
the firing player (the source dereferences the record unchecked). -/
def fireGrenade (m : Libm F) (env : Env F) (d : bz_ShotFiredEventData_V1 F) (w : World F) :
    Option (World F) :=
  match env.bz_getPlayerByIndex d.playerID with
  | none => none
  | some b =>
    let duration := env.bz_getBZDBDouble "_grenadeShockDuration"
    let shotVel := fireGrenade.shotVel m env d b
    let collisionTime := fireGrenade.collisionTime env d.pos shotVel
    let w1 := (fireShotV m env (some "PZ") collisionTime d.playerID
      (env.bz_getPlayerTeam d.playerID) (some d.pos) shotVel w).2
    let explodePos := fireGrenade.explodePos env d.pos shotVel
    let groundCollisionTime := fireGrenade.groundCollisionTime d.pos shotVel
    if fireGrenade.bounces env d.pos shotVel then
      let groundpos := fireGrenade.groundpos d.pos shotVel
      let bouncevel := fireGrenade.bouncevel shotVel
      let w2 := fireDelayedShotV m env (some "PZ") (collisionTime - groundCollisionTime)
        d.playerID (env.bz_getPlayerTeam d.playerID) groundpos bouncevel groundCollisionTime w1
      some (fireDelayedShot m env (some "SW") duration d.playerID
        (env.bz_getPlayerTeam d.playerID) explodePos 0 0 (env.bz_getBZDBDouble "_shotSpeed")
        collisionTime w2)
    else
      some (fireDelayedShot m env (some "SW") (duration / env.bz_getBZDBDouble "_shockAdLife")
        d.playerID (env.bz_getPlayerTeam d.playerID) explodePos 0 0
        (env.bz_getBZDBDouble "_shotSpeed") collisionTime w1)

/-! ## Binary32 rounding -/

/-- The integer nearest to `q`, the even one of the two when `q` lies halfway
between two integers. -/
def roundNearestEven (q : ℚ) : ℤ :=
  if q - ⌊q⌋ < 1 / 2 then ⌊q⌋
  else if 1 / 2 < q - ⌊q⌋ then ⌊q⌋ + 1
  else if ⌊q⌋ % 2 = 0 then ⌊q⌋
  else ⌊q⌋ + 1

/-- The binary32 number (the C type `float`) nearest to `x`, ties going to the even
significand: 24 significant bits, the exponent of the leading bit at least -126.
Overflow is left out: the values rounded below are far from the largest float. -/
def binary32 (x : ℚ) : ℚ :=
  if x = 0 then 0
  else
    let e := max (Int.log 2 |x|) (-126)
    roundNearestEven (x / 2 ^ (e - 23)) * 2 ^ (e - 23)

/-! ## The fire handler with rounded operations

Lines 166-213 of `fireGrenade` once more, with a function `fl` applied to the
result of every conversion to `float` and of every `float` operation, each
operation rounding on its own.  With the identity for `fl` these are the
definitions above; with `binary32` for `fl` they are the values the compiled
code computes.  A division by zero is 0 here and an infinity or a NaN in the
source; neither passes a test `t > 0 && t < collisionTime`, so the branches agree. -/

/-- The local `collisionTime` of `fireGrenade` after the four wall tests, every
operation rounded by `fl`. -/
def fireGrenade.collisionTimeFl (fl : F → F) (env : Env F) (pos shotVel : Vec3 F) : F :=
  let lifetime := fl (env.bz_getBZDBDouble "_grenadeTriggerTime")
  let collisionTime := lifetime
  let wallPos := fl (fl (env.bz_getBZDBDouble "_worldSize") / 2)
  let collisionTimeTemp := fl (fl (wallPos - pos.x) / shotVel.x)
  let collisionTime :=
    if collisionTimeTemp > 0 ∧ collisionTimeTemp < collisionTime then collisionTimeTemp
    else collisionTime
  let collisionTimeTemp := fl (fl (-wallPos - pos.x) / shotVel.x)
  let collisionTime :=
    if collisionTimeTemp > 0 ∧ collisionTimeTemp < collisionTime then collisionTimeTemp
    else collisionTime
  let collisionTimeTemp := fl (fl (wallPos - pos.y) / shotVel.y)
  let collisionTime :=
    if collisionTimeTemp > 0 ∧ collisionTimeTemp < collisionTime then collisionTimeTemp
    else collisionTime
  let collisionTimeTemp := fl (fl (-wallPos - pos.y) / shotVel.y)
  let collisionTime :=
    if collisionTimeTemp > 0 ∧ collisionTimeTemp < collisionTime then collisionTimeTemp
    else collisionTime
  collisionTime

/-- The local `groundCollisionTime` of `fireGrenade`, the division rounded by `fl`. -/
def fireGrenade.groundCollisionTimeFl (fl : F → F) (pos shotVel : Vec3 F) : F :=
  fl (-pos.z / shotVel.z)

/-- The condition of the bounce branch of `fireGrenade`, on the rounded times. -/
def fireGrenade.bouncesFl (fl : F → F) (env : Env F) (pos shotVel : Vec3 F) : Prop :=
  fireGrenade.groundCollisionTimeFl fl pos shotVel > 0 ∧
    fireGrenade.groundCollisionTimeFl fl pos shotVel <
      fireGrenade.collisionTimeFl fl env pos shotVel

/-- The rounded bounce condition is decidable, as the comparisons of `F` are. -/
instance fireGrenade.bouncesFl.decidable (fl : F → F) (env : Env F) (pos shotVel : Vec3 F) :
    Decidable (fireGrenade.bouncesFl fl env pos shotVel) := by
  unfold fireGrenade.bouncesFl
  exact inferInstance

/-- The local `groundpos` of the bounce branch, every operation rounded by `fl`. -/
def fireGrenade.groundposFl (fl : F → F) (pos shotVel : Vec3 F) : Vec3 F :=
  let groundCollisionTime := fireGrenade.groundCollisionTimeFl fl pos shotVel
  ⟨fl (pos.x + fl (shotVel.x * groundCollisionTime)),
   fl (pos.y + fl (shotVel.y * groundCollisionTime)),
   fl (pos.z + fl (shotVel.z * groundCollisionTime))⟩

/-- The lifetime `collisionTime - groundCollisionTime` that the bounce branch passes
to `fireDelayedShot` for the bounce continuation (line 202), rounded by `fl`. -/
def fireGrenade.bounceLifetimeFl (fl : F → F) (env : Env F) (pos shotVel : Vec3 F) : F :=
  fl (fireGrenade.collisionTimeFl fl env pos shotVel -
    fireGrenade.groundCollisionTimeFl fl pos shotVel)

/-- The local `explodePos` of `fireGrenade`, in either branch, every operation
rounded by `fl`. -/
def fireGrenade.explodePosFl (fl : F → F) (env : Env F) (pos shotVel : Vec3 F) : Vec3 F :=
  let collisionTime := fireGrenade.collisionTimeFl fl env pos shotVel
  let groundCollisionTime := fireGrenade.groundCollisionTimeFl fl pos shotVel
  if fireGrenade.bouncesFl fl env pos shotVel then
    ⟨fl (pos.x + fl (shotVel.x * collisionTime)),
     fl (pos.y + fl (shotVel.y * collisionTime)),
     fl ((fireGrenade.groundposFl fl pos shotVel).z +
       fl ((fireGrenade.bouncevel shotVel).z * fl (collisionTime - groundCollisionTime)))⟩
  else
    ⟨fl (pos.x + fl (shotVel.x * collisionTime)),
     fl (pos.y + fl (shotVel.y * collisionTime)),
     fl (pos.z + fl (shotVel.z * collisionTime))⟩

/-! ## Predicates used in the statements -/

/-- What one due queue entry `s` looks like once emitted as the record `r`. -/
def Emitted (m : Libm F) (env : Env F) (s : DelayedShot F) (r : FiringInfo F) : Prop :=
  s.flag.bind env.flagMap = some r.flagType ∧
  r.lifetime = s.lifetime ∧
  r.shot.pos = s.pos ∧
  r.shot.vel = sendShot.vel m s.tilt s.dir s.speed ∧
  r.shot.team = env.convertTeam s.team ∧
  r.shot.player = ServerPlayer ∧
  ∃ c : Int, 0 ≤ c ∧ c < 256 ∧ r.shot.id = 256 * toPlayerId s.owner + c

/-- The ids that successive calls of `getShotID` return, one call for each owner
of the list, in order, starting in the world `w`. -/
def getShotIDs : List Int → World F → List Int
  | [], _ => []
  | player :: rest, w => (getShotID player w).1 :: getShotIDs rest (getShotID player w).2

/-! ## Concrete inputs -/

/-- A stand-in math library over `ℚ`, for runs whose outcome does not depend on it. -/
def demoLibm : Libm ℚ := ⟨fun x => x, fun _ => 0, fun _ => 1, fun x => x, fun _ _ => 0, 3⟩

/-- A host at clock reading `now` that knows the flags `PZ` and `SW`, has the
record `b` for player 7 and no other player, and holds the defaults that `Init`
seeds together with `_tankSpeed = 25`, `_worldSize = 800`, `_shotSpeed = 100`
and `_shockAdLife = 1/5`. -/
def demoEnv (now : F) (b : Option (bz_BasePlayerRecord F)) : Env F :=
  { flagMap := fun name => if name = "PZ" ∨ name = "SW" then some name else none
    convertTeam := fun t => t
    bz_getPlayerByIndex := fun i => if i = 7 then b else none
    bz_getPlayerTeam := fun _ => 1
    bz_getBZDBDouble := fun name =>
      if name = "_grenadeMinRange" then 65
      else if name = "_grenadeMaxRange" then 300
      else if name = "_grenadeTriggerTime" then 1
      else if name = "_grenadeShockDuration" then 2
      else if name = "_tankSpeed" then 25
      else if name = "_worldSize" then 800
      else if name = "_shotSpeed" then 100
      else if name = "_shockAdLife" then 1 / 5
      else 0
    bz_getBZDBBool := fun _ => true
    currentTime := now }

/-- A queue entry of player 7 with the given flag and delay. -/
def demoShot (flag : String) (delay : ℚ) : DelayedShot ℚ :=
  ⟨some flag, 2, 1, ⟨0, 0, 0⟩, 0, 0, 100, delay, 7⟩

/-- Three entries with delays 0.5, 1.0, 1.0, the last run of the queue at time 0. -/
def demoWorld : World ℚ :=
  ⟨0, [], [demoShot "SW" (1 / 2), demoShot "PZ" 1, demoShot "SW" 1], some 0⟩

/-- A player record with the given velocity and rotation. -/
def demoPlayer (velocity : Vec3 F) (rotation : F) : bz_BasePlayerRecord F :=
  ⟨⟨velocity, rotation⟩⟩

/-- The host `demoEnv` (no player) in an arena of half-width 200: `_worldSize = 400`. -/
def smallArenaEnv : Env ℚ :=
  { flagMap := (demoEnv (0 : ℚ) none).flagMap
    convertTeam := (demoEnv (0 : ℚ) none).convertTeam
    bz_getPlayerByIndex := (demoEnv (0 : ℚ) none).bz_getPlayerByIndex
    bz_getPlayerTeam := (demoEnv (0 : ℚ) none).bz_getPlayerTeam
    bz_getBZDBDouble := fun name =>
      if name = "_worldSize" then 400 else (demoEnv (0 : ℚ) none).bz_getBZDBDouble name
    bz_getBZDBBool := (demoEnv (0 : ℚ) none).bz_getBZDBBool
    currentTime := 0 }

/-- The binary32 results of the C math library at the arguments met when a tank that
faces along `x` (rotation 0) moves with velocity `(0, 25)`, and `M_PI` as the
double it is: `sqrtf 625 = 25`; `atan2f (25, 0)` is `13176795 / 2^23`, the float
nearest to `π/2`; at minus that angle `sinf` is `-1` and `cosf` is
`-6151831 / 2^47`; `atan2f` of these two is minus that angle again.  No other
argument occurs in that run; the table holds 0 there. -/
def sidewaysLibm : Libm ℚ :=
  { sqrt := fun x => if x = 625 then 25 else 0
    sin := fun a => if a = -(13176795 / 8388608) then -1 else 0
    cos := fun a => if a = -(13176795 / 8388608) then -(6151831 / 140737488355328) else 0
    asin := fun _ => 0
    atan2 := fun y x =>
      if y = 25 ∧ x = 0 then 13176795 / 8388608
      else if y = -1 ∧ x = -(6151831 / 140737488355328) then -(13176795 / 8388608)
      else 0
    pi := 884279719003555 / 281474976710656 }

/-! ## Lemmas on the emitter -/

/-- The record that `fireShot` broadcasts for a known flag and a non-null origin. -/
theorem fireShot_known (m : Libm F) (env : Env F) (name : String) (type : FlagType)
    (lifetime : F) (id t : Int) (p : Vec3 F) (tilt dir speed : F) (w : World F)
    (h : env.flagMap name = some type) :
    fireShot m env (some name) lifetime id t (some p) tilt dir speed w =
      (256 * toPlayerId id + (w.shotCounter + 1) % 256,
        { w with
          shotCounter := (w.shotCounter + 1) % 256
          broadcast := w.broadcast ++ [
            { timeSent := env.currentTime
              flagType := type
              lifetime := lifetime
              shot :=
                { player := ServerPlayer
                  pos := p
                  vel := sendShot.vel m tilt dir speed
                  id := 256 * toPlayerId id + (w.shotCounter + 1) % 256
                  dt := 0
                  team := env.convertTeam t } }] }) := by
  simp [fireShot, h, getShotID, sendShot]

/-- The function `fireShot` never touches the queue or `prevTime`. -/
theorem fireShot_frame (m : Libm F) (env : Env F) (flag : Option String)
    (lifetime : F) (id t : Int) (p : Option (Vec3 F)) (tilt dir speed : F) (w : World F) :
    (fireShot m env flag lifetime id t p tilt dir speed w).2.delayedShots = w.delayedShots ∧
    (fireShot m env flag lifetime id t p tilt dir speed w).2.prevTime = w.prevTime := by
  unfold fireShot
  cases p <;> cases flag <;> simp
  split <;> simp [getShotID, sendShot]

/-- The function `fireShot` only appends to the broadcast log. -/
theorem fireShot_broadcast_ext (m : Libm F) (env : Env F) (flag : Option String)
    (lifetime : F) (id t : Int) (p : Option (Vec3 F)) (tilt dir speed : F) (w : World F) :
    ∃ rest, (fireShot m env flag lifetime id t p tilt dir speed w).2.broadcast =
      w.broadcast ++ rest := by
  rcases p with _ | p
  · exact ⟨[], by simp [fireShot]⟩
  rcases flag with _ | flag
  · exact ⟨[], by simp [fireShot]⟩
  rcases hf : env.flagMap flag with _ | type
  · exact ⟨[], by simp [fireShot, hf]⟩
  · exact ⟨_, by rw [fireShot_known m env flag type _ _ _ _ _ _ _ w hf]⟩

/-- Firing a queue entry whose flag is a flag of the host broadcasts one record of it. -/
theorem fireShot_emitted (m : Libm F) (env : Env F) (s : DelayedShot F) (name : String)
    (type : FlagType) (w : World F) (hs : s.flag = some name)
    (hflag : env.flagMap name = some type) :
    ∃ r, (fireShot m env s.flag s.lifetime s.owner s.team (some s.pos) s.tilt s.dir s.speed
        w).2.broadcast = w.broadcast ++ [r] ∧ Emitted m env s r := by
  rw [hs, fireShot_known m env name type _ _ _ _ _ _ _ w hflag]
  exact ⟨_, rfl, by simp [hs, hflag], rfl, rfl, rfl, rfl, rfl, (w.shotCounter + 1) % 256,
    Int.emod_nonneg _ (by norm_num), Int.emod_lt_of_pos _ (by norm_num), rfl⟩

/-- The `k`-th id of a run of allocations: the owner of the `k`-th call and the
counter advanced `k + 1` times, modulo 256. -/
theorem getShotIDs_getElem {G : Type} :
    ∀ (owners : List Int) (w : World G) (k : Nat),
      (getShotIDs owners w)[k]? =
        (owners[k]?).map (fun p => 256 * p + (w.shotCounter + (k + 1 : Nat)) % 256) := by
  intro owners
  induction owners with
  | nil => intro w k; simp [getShotIDs]
  | cons p rest ih =>
    intro w k
    cases k with
    | zero => simp [getShotIDs, getShotID]
    | succ k =>
      simp only [getShotIDs, List.getElem?_cons_succ, ih]
      congr 1
      funext q
      simp only [getShotID]
      congr 1
      push_cast
      omega

/-! ## Lemmas on the delayed-shot queue -/

/-- The loop of `updateDelayedShotQueue`: the entries that stay. -/
theorem updateDelayedShotQueue.loop_kept (m : Libm F) (env : Env F) (dt : F) :
    ∀ (q : List (DelayedShot F)) (w : World F),
      (updateDelayedShotQueue.loop m env dt q w).1 =
        (q.filter (fun s => 0 < s.delay - dt)).map (fun s => { s with delay := s.delay - dt }) ∧
      (updateDelayedShotQueue.loop m env dt q w).2.prevTime = w.prevTime := by
  intro q
  induction q with
  | nil => intro w; exact ⟨rfl, rfl⟩
  | cons s rest ih =>
    intro w
    by_cases hdue : s.delay - dt ≤ 0
    · obtain ⟨h1, h2⟩ := ih (fireShot m env s.flag s.lifetime s.owner s.team
        (some s.pos) s.tilt s.dir s.speed w).2
      have hf1 : (s :: rest).filter (fun s => decide (0 < s.delay - dt)) =
          rest.filter (fun s => decide (0 < s.delay - dt)) :=
        List.filter_cons_of_neg (by simpa using hdue)
      have hl : updateDelayedShotQueue.loop m env dt (s :: rest) w =
          updateDelayedShotQueue.loop m env dt rest (fireShot m env s.flag s.lifetime
            s.owner s.team (some s.pos) s.tilt s.dir s.speed w).2 := by
        simp only [updateDelayedShotQueue.loop, hdue, if_true]
      rw [hl, hf1]
      exact ⟨h1, by rw [h2]; exact (fireShot_frame m env _ _ _ _ _ _ _ _ w).2⟩
    · obtain ⟨h1, h2⟩ := ih w
      have hf1 : (s :: rest).filter (fun s => decide (0 < s.delay - dt)) =
          s :: rest.filter (fun s => decide (0 < s.delay - dt)) :=
        List.filter_cons_of_pos (by simpa using hdue)
      have hl : updateDelayedShotQueue.loop m env dt (s :: rest) w =
          ({ s with delay := s.delay - dt } :: (updateDelayedShotQueue.loop m env dt rest w).1,
            (updateDelayedShotQueue.loop m env dt rest w).2) := by
        simp only [updateDelayedShotQueue.loop, hdue, if_false]
      rw [hl, hf1]
      exact ⟨by simp [h1], h2⟩

/-- The loop of `updateDelayedShotQueue`: what is broadcast, when the flags of
the queue are flags of the host. -/
theorem updateDelayedShotQueue.loop_sent (m : Libm F) (env : Env F) (dt : F) :
    ∀ (q : List (DelayedShot F)) (w : World F),
      (∀ s ∈ q, ∃ name type, s.flag = some name ∧ env.flagMap name = some type) →
      ∃ sent, (updateDelayedShotQueue.loop m env dt q w).2.broadcast = w.broadcast ++ sent ∧
        List.Forall₂ (Emitted m env) (q.filter (fun s => s.delay - dt ≤ 0)) sent := by
  intro q
  induction q with
  | nil => intro w _; exact ⟨[], by simp [updateDelayedShotQueue.loop], List.Forall₂.nil⟩
  | cons s rest ih =>
    intro w hq
    have hrest : ∀ s ∈ rest, ∃ name type, s.flag = some name ∧ env.flagMap name = some type :=
      fun s hs => hq s (List.mem_cons_of_mem _ hs)
    obtain ⟨name, type, hname, htype⟩ := hq s (List.mem_cons_self _ _)
    by_cases hdue : s.delay - dt ≤ 0
    · obtain ⟨sent, h3, h4⟩ := ih (fireShot m env (some name) s.lifetime s.owner s.team
        (some s.pos) s.tilt s.dir s.speed w).2 hrest
      have hf2 : (s :: rest).filter (fun s => decide (s.delay - dt ≤ 0)) =
          s :: rest.filter (fun s => decide (s.delay - dt ≤ 0)) :=
        List.filter_cons_of_pos (by simpa using hdue)
      have hl : updateDelayedShotQueue.loop m env dt (s :: rest) w =
          updateDelayedShotQueue.loop m env dt rest (fireShot m env (some name) s.lifetime
            s.owner s.team (some s.pos) s.tilt s.dir s.speed w).2 := by
        simp only [updateDelayedShotQueue.loop, hdue, if_true, hname]
      rw [hl, hf2, h3, fireShot_known m env name type _ _ _ _ _ _ _ w htype]
      refine ⟨_ :: sent, List.append_assoc _ _ _, List.Forall₂.cons ?_ h4⟩
      exact ⟨by simp [hname, htype], rfl, rfl, rfl, rfl, rfl, (w.shotCounter + 1) % 256,
        Int.emod_nonneg _ (by norm_num), Int.emod_lt_of_pos _ (by norm_num), rfl⟩
    · obtain ⟨sent, h3, h4⟩ := ih w hrest
      have hf2 : (s :: rest).filter (fun s => decide (s.delay - dt ≤ 0)) =
          rest.filter (fun s => decide (s.delay - dt ≤ 0)) :=
        List.filter_cons_of_neg (by simpa using hdue)
      have hl : updateDelayedShotQueue.loop m env dt (s :: rest) w =
          ({ s with delay := s.delay - dt } :: (updateDelayedShotQueue.loop m env dt rest w).1,
            (updateDelayedShotQueue.loop m env dt rest w).2) := by
        simp only [updateDelayedShotQueue.loop, hdue, if_false]
      rw [hl, hf2]
      exact ⟨sent, h3, h4⟩

/-- A run of `updateDelayedShotQueue` records the clock reading in `prevTime`. -/
theorem updateDelayedShotQueue_prevTime (m : Libm F) (env : Env F) (w : World F) :
    (updateDelayedShotQueue m env w).prevTime = some env.currentTime :=
  (updateDelayedShotQueue.loop_kept m env _ w.delayedShots
    { w with prevTime := some env.currentTime }).2

/-- One step of the loop of `updateDelayedShotQueue`. -/
theorem updateDelayedShotQueue.loop_cons (m : Libm F) (env : Env F) (dt : F)
    (s : DelayedShot F) (rest : List (DelayedShot F)) (w : World F) :
    updateDelayedShotQueue.loop m env dt (s :: rest) w =
      if s.delay - dt ≤ 0 then
        updateDelayedShotQueue.loop m env dt rest
          (fireShot m env s.flag s.lifetime s.owner s.team (some s.pos) s.tilt s.dir s.speed w).2
      else
        ({ s with delay := s.delay - dt } :: (updateDelayedShotQueue.loop m env dt rest w).1,
          (updateDelayedShotQueue.loop m env dt rest w).2) := by
  simp only [updateDelayedShotQueue.loop]

/-- The loop of `updateDelayedShotQueue` on a queue with one more entry at the end:
the entries before it are handled first, then the last one. -/
theorem updateDelayedShotQueue.loop_append (m : Libm F) (env : Env F) (dt : F)
    (s : DelayedShot F) :
    ∀ (q : List (DelayedShot F)) (w : World F),
      updateDelayedShotQueue.loop m env dt (q ++ [s]) w =
        if s.delay - dt ≤ 0 then
          ((updateDelayedShotQueue.loop m env dt q w).1,
            (fireShot m env s.flag s.lifetime s.owner s.team (some s.pos) s.tilt s.dir s.speed
              (updateDelayedShotQueue.loop m env dt q w).2).2)
        else
          ((updateDelayedShotQueue.loop m env dt q w).1 ++ [{ s with delay := s.delay - dt }],
            (updateDelayedShotQueue.loop m env dt q w).2) := by
  intro q
  induction q with
  | nil =>
    intro w
    rw [List.nil_append, updateDelayedShotQueue.loop_cons]
    rfl
  | cons a rest ih =>
    intro w
    rw [List.cons_append, updateDelayedShotQueue.loop_cons, updateDelayedShotQueue.loop_cons]
    by_cases ha : a.delay - dt ≤ 0
    · rw [if_pos ha, if_pos ha, ih]
    · rw [if_neg ha, if_neg ha, ih]
      by_cases h : s.delay - dt ≤ 0
      · rw [if_pos h, if_pos h]
      · rw [if_neg h, if_neg h]
        rfl

/-- The loop of `updateDelayedShotQueue` only appends to the broadcast log. -/
theorem updateDelayedShotQueue.loop_broadcast_ext (m : Libm F) (env : Env F) (dt : F) :
    ∀ (q : List (DelayedShot F)) (w : World F),
      ∃ pre, (updateDelayedShotQueue.loop m env dt q w).2.broadcast = w.broadcast ++ pre := by
  intro q
  induction q with
  | nil => intro w; exact ⟨[], by simp [updateDelayedShotQueue.loop]⟩
  | cons a rest ih =>
    intro w
    by_cases ha : a.delay - dt ≤ 0
    · obtain ⟨r1, h1⟩ := fireShot_broadcast_ext m env a.flag a.lifetime a.owner a.team
        (some a.pos) a.tilt a.dir a.speed w
      obtain ⟨r2, h2⟩ := ih (fireShot m env a.flag a.lifetime a.owner a.team
        (some a.pos) a.tilt a.dir a.speed w).2
      refine ⟨r1 ++ r2, ?_⟩
      simp only [updateDelayedShotQueue.loop, ha, if_true]
      rw [h2, h1, List.append_assoc]
    · obtain ⟨r2, h2⟩ := ih w
      exact ⟨r2, by simp only [updateDelayedShotQueue.loop, ha, if_false]; exact h2⟩

/-- A run of `updateDelayedShotQueue` on a queue whose last entry `s` is due and has
a flag of the host: the record of `s` is the last one broadcast, and `s` is
not kept. -/
theorem updateDelayedShotQueue_last_due (m : Libm F) (env : Env F) (w : World F)
    (q : List (DelayedShot F)) (s : DelayedShot F) (name : String) (type : FlagType)
    (hw : w.delayedShots = q ++ [s]) (hs : s.flag = some name)
    (hflag : env.flagMap name = some type)
    (hdue : s.delay - max 0 (env.currentTime - w.prevTime.getD env.currentTime) ≤ 0) :
    ∃ pre r, (updateDelayedShotQueue m env w).broadcast = w.broadcast ++ pre ++ [r] ∧
      Emitted m env s r ∧
      (updateDelayedShotQueue m env w).delayedShots =
        (q.filter (fun s =>
          0 < s.delay - max 0 (env.currentTime - w.prevTime.getD env.currentTime))).map
          (fun s => { s with
            delay := s.delay - max 0 (env.currentTime - w.prevTime.getD env.currentTime) }) := by
  obtain ⟨pre, hpre⟩ := updateDelayedShotQueue.loop_broadcast_ext m env
    (max 0 (env.currentTime - w.prevTime.getD env.currentTime)) q
    { w with prevTime := some env.currentTime }
  have hkept := (updateDelayedShotQueue.loop_kept m env
    (max 0 (env.currentTime - w.prevTime.getD env.currentTime)) q
    { w with prevTime := some env.currentTime }).1
  have hrun : updateDelayedShotQueue m env w =
      { (fireShot m env s.flag s.lifetime s.owner s.team (some s.pos) s.tilt s.dir s.speed
          (updateDelayedShotQueue.loop m env
            (max 0 (env.currentTime - w.prevTime.getD env.currentTime)) q
            { w with prevTime := some env.currentTime }).2).2 with
        delayedShots := (updateDelayedShotQueue.loop m env
            (max 0 (env.currentTime - w.prevTime.getD env.currentTime)) q
            { w with prevTime := some env.currentTime }).1 } := by
    simp only [updateDelayedShotQueue]
    rw [hw, updateDelayedShotQueue.loop_append, if_pos hdue]
  obtain ⟨r, hr, hem⟩ := fireShot_emitted m env s name type
    (updateDelayedShotQueue.loop m env
      (max 0 (env.currentTime - w.prevTime.getD env.currentTime)) q
      { w with prevTime := some env.currentTime }).2 hs hflag
  rw [hrun]
  refine ⟨pre, r, ?_, hem, hkept⟩
  show (fireShot m env s.flag s.lifetime s.owner s.team (some s.pos) s.tilt s.dir s.speed
    _).2.broadcast = _
  rw [hr, hpre]

/-- The function `fireDelayedShot` appends exactly one entry, made of its arguments. -/
theorem fireDelayedShot_delayedShots (m : Libm F) (env : Env F) (flag : Option String)
    (lifetime : F) (id t : Int) (p : Vec3 F) (tilt dir speed delay : F) (w : World F) :
    (fireDelayedShot m env flag lifetime id t p tilt dir speed delay w).delayedShots =
      w.delayedShots ++ [⟨flag, lifetime, t, p, tilt, dir, speed, delay, toPlayerId id⟩] := by
  unfold fireDelayedShot
  by_cases h : delay ≤ 0
  · simp only [h, if_true]
    rw [(fireShot_frame m env _ _ _ _ _ _ _ _ w).1]
  · simp only [h, if_false]

/-- The function `fireDelayedShot` with a positive delay broadcasts nothing. -/
theorem fireDelayedShot_broadcast (m : Libm F) (env : Env F) (flag : Option String)
    (lifetime : F) (id t : Int) (p : Vec3 F) (tilt dir speed delay : F) (w : World F)
    (h : 0 < delay) :
    (fireDelayedShot m env flag lifetime id t p tilt dir speed delay w).broadcast =
      w.broadcast := by
  unfold fireDelayedShot
  simp only [not_le.mpr h, if_false]

/-- The function `fireDelayedShot` only appends to the broadcast log. -/
theorem fireDelayedShot_broadcast_ext (m : Libm F) (env : Env F) (flag : Option String)
    (lifetime : F) (id t : Int) (p : Vec3 F) (tilt dir speed delay : F) (w : World F) :
    ∃ rest, (fireDelayedShot m env flag lifetime id t p tilt dir speed delay w).broadcast =
      w.broadcast ++ rest := by
  unfold fireDelayedShot
  by_cases h : delay ≤ 0
  · simp only [h, if_true]
    exact fireShot_broadcast_ext m env _ _ _ _ _ _ _ _ w
  · simp only [h, if_false]
    exact ⟨[], by simp⟩

/-! ## Lemmas on the real math library -/

/-- The real functions form a math library that is real. -/
theorem Libm.isReal_real :
    (⟨Real.sqrt, Real.sin, Real.cos, Real.arcsin, fun y x => Complex.arg ⟨x, y⟩, Real.pi⟩ :
      Libm ℝ).IsReal :=
  ⟨rfl, rfl, rfl, rfl, rfl, rfl⟩

/-- The real `atan2 0 x` is 0 for `x ≥ 0`. -/
theorem atan2_zero_nonneg (m : Libm ℝ) (hm : m.IsReal) (x : ℝ) (hx : 0 ≤ x) :
    m.atan2 0 x = 0 := by
  obtain ⟨-, -, -, -, h, -⟩ := hm
  rw [h]
  show Complex.arg ⟨x, 0⟩ = 0
  have : (⟨x, 0⟩ : ℂ) = (x : ℂ) := rfl
  rw [this, Complex.arg_ofReal_of_nonneg hx]

/-- The real `atan2 y x` is the angle of `(x, y)`: the vector is its length times
`(cos, sin)` of that angle. -/
theorem atan2_cos_sin (m : Libm ℝ) (hm : m.IsReal) (x y : ℝ) :
    m.sqrt (x ^ 2 + y ^ 2) * m.cos (m.atan2 y x) = x ∧
    m.sqrt (x ^ 2 + y ^ 2) * m.sin (m.atan2 y x) = y := by
  obtain ⟨hsqrt, hsin, hcos, -, hatan, -⟩ := hm
  simp only [hsqrt, hsin, hcos, hatan]
  have habsC : Complex.abs ⟨x, y⟩ = Real.sqrt (x ^ 2 + y ^ 2) := by
    rw [Complex.abs_apply, Complex.normSq_mk]
    congr 1; ring
  by_cases h0 : (⟨x, y⟩ : ℂ) = 0
  · have hx0 : x = 0 := congrArg Complex.re h0
    have hy0 : y = 0 := congrArg Complex.im h0
    simp [hx0, hy0]
  · have hne : Complex.abs ⟨x, y⟩ ≠ 0 := (Complex.abs.ne_zero_iff).mpr h0
    constructor
    · rw [Complex.cos_arg h0, ← habsC, mul_div_cancel₀ _ hne]
    · rw [Complex.sin_arg, ← habsC, mul_div_cancel₀ _ hne]

/-- The real `atan2 (sin d) (cos d)` is `d` wrapped into `(-π, π]`. -/
theorem atan2_sin_cos (m : Libm ℝ) (hm : m.IsReal) (d : ℝ) :
    -Real.pi < m.atan2 (m.sin d) (m.cos d) ∧ m.atan2 (m.sin d) (m.cos d) ≤ Real.pi ∧
    (∃ k : ℤ, m.atan2 (m.sin d) (m.cos d) = d + k * (2 * Real.pi)) ∧
    (|m.atan2 (m.sin d) (m.cos d)| ≤ Real.pi / 2 ↔ 0 ≤ Real.cos d) := by
  obtain ⟨-, hsin, hcos, -, hatan, -⟩ := hm
  simp only [hsin, hcos, hatan]
  have hz : (⟨Real.cos d, Real.sin d⟩ : ℂ) = Complex.cos d + Complex.sin d * Complex.I := by
    apply Complex.ext <;> simp [Complex.cos_ofReal_re, Complex.sin_ofReal_re]
  refine ⟨Complex.neg_pi_lt_arg _, Complex.arg_le_pi _, ?_, ?_⟩
  · refine ⟨⌊(Real.pi - d) / (2 * Real.pi)⌋, ?_⟩
    have := Complex.arg_cos_add_sin_mul_I_sub d
    rw [← hz] at this
    linarith
  · exact Complex.abs_arg_le_pi_div_two_iff

/-- Over the reals, decomposing a non-zero velocity as the vector overloads do
and recomposing it with the formula of `sendShot` gives the velocity back. -/
theorem sendShot_vel_decompose (m : Libm ℝ) (hm : m.IsReal) (v : Vec3 ℝ)
    (hv : v.x ≠ 0 ∨ v.y ≠ 0 ∨ v.z ≠ 0) :
    sendShot.vel m (m.asin (v.z / m.sqrt (v.x ^ 2 + v.y ^ 2 + v.z ^ 2))) (m.atan2 v.y v.x)
      (m.sqrt (v.x ^ 2 + v.y ^ 2 + v.z ^ 2)) = v := by
  obtain ⟨hsqrt, hsin, hcos, hasin, hatan, -⟩ := hm
  obtain ⟨x, y, z⟩ := v
  simp only [sendShot.vel, hsqrt, hsin, hcos, hasin, hatan] at hv ⊢
  have hpos : 0 < x ^ 2 + y ^ 2 + z ^ 2 := by
    rcases hv with h | h | h
    · have := pow_pos (abs_pos.mpr h) 2; rw [sq_abs] at this; positivity
    · have := pow_pos (abs_pos.mpr h) 2; rw [sq_abs] at this; positivity
    · have := pow_pos (abs_pos.mpr h) 2; rw [sq_abs] at this; positivity
  have hs : 0 < Real.sqrt (x ^ 2 + y ^ 2 + z ^ 2) := Real.sqrt_pos.mpr hpos
  have hss : Real.sqrt (x ^ 2 + y ^ 2 + z ^ 2) ^ 2 = x ^ 2 + y ^ 2 + z ^ 2 :=
    Real.sq_sqrt hpos.le
  have hzs : z ^ 2 ≤ Real.sqrt (x ^ 2 + y ^ 2 + z ^ 2) ^ 2 := by
    rw [hss]; nlinarith [sq_nonneg x, sq_nonneg y]
  have habs : |z| ≤ Real.sqrt (x ^ 2 + y ^ 2 + z ^ 2) := by
    have := abs_le_of_sq_le_sq' hzs hs.le
    exact abs_le.mpr this
  have ht1 : -1 ≤ z / Real.sqrt (x ^ 2 + y ^ 2 + z ^ 2) := by
    rw [le_div_iff₀ hs]; linarith [(abs_le.mp habs).1]
  have ht2 : z / Real.sqrt (x ^ 2 + y ^ 2 + z ^ 2) ≤ 1 := by
    rw [div_le_iff₀ hs]; linarith [(abs_le.mp habs).2]
  have hr : Real.sqrt (x ^ 2 + y ^ 2 + z ^ 2) *
      Real.cos (Real.arcsin (z / Real.sqrt (x ^ 2 + y ^ 2 + z ^ 2))) =
      Real.sqrt (x ^ 2 + y ^ 2) := by
    rw [Real.cos_arcsin]
    nth_rewrite 1 [← Real.sqrt_sq hs.le]
    rw [← Real.sqrt_mul (sq_nonneg _)]
    congr 1
    rw [mul_sub, mul_one, div_pow, mul_div_cancel₀ _ (pow_ne_zero 2 hs.ne'), hss]
    ring
  have habsC : Complex.abs ⟨x, y⟩ = Real.sqrt (x ^ 2 + y ^ 2) := by
    rw [Complex.abs_apply, Complex.normSq_mk]
    congr 1; ring
  have hz : Real.sqrt (x ^ 2 + y ^ 2 + z ^ 2) *
      Real.sin (Real.arcsin (z / Real.sqrt (x ^ 2 + y ^ 2 + z ^ 2))) = z := by
    rw [Real.sin_arcsin ht1 ht2, mul_div_cancel₀ _ hs.ne']
  have hx : Real.sqrt (x ^ 2 + y ^ 2) * Real.cos (Complex.arg ⟨x, y⟩) = x := by
    by_cases h0 : (⟨x, y⟩ : ℂ) = 0
    · have hx0 : x = 0 := congrArg Complex.re h0
      have hy0 : y = 0 := congrArg Complex.im h0
      simp [hx0, hy0]
    · have hne : Complex.abs ⟨x, y⟩ ≠ 0 := (Complex.abs.ne_zero_iff).mpr h0
      rw [Complex.cos_arg h0, ← habsC, mul_div_cancel₀ _ hne]
  have hy : Real.sqrt (x ^ 2 + y ^ 2) * Real.sin (Complex.arg ⟨x, y⟩) = y := by
    by_cases h0 : (⟨x, y⟩ : ℂ) = 0
    · have hx0 : x = 0 := congrArg Complex.re h0
      have hy0 : y = 0 := congrArg Complex.im h0
      simp [hx0, hy0]
    · have hne : Complex.abs ⟨x, y⟩ ≠ 0 := (Complex.abs.ne_zero_iff).mpr h0
      rw [Complex.sin_arg, ← habsC, mul_div_cancel₀ _ hne]
  rw [hr, hx, hy, hz]

/-! ## Lemmas on the fire handler -/

/-- The forward speed of `fireGrenade` is never negative. -/
theorem fireGrenade.speed_nonneg (m : Libm F) (b : bz_BasePlayerRecord F) :
    0 ≤ fireGrenade.speed m b := by
  unfold fireGrenade.speed
  simp only
  split_ifs with h1 h2 h3
  · exact le_refl _
  · exact not_lt.mp h2
  · exact le_refl _
  · exact not_lt.mp h3

/-- The forward speed of `fireGrenade` in terms of the wrapped angle `diff`: the
horizontal speed when `|diff| ≤ π / 2`, and 0 otherwise, for a square root
that is not negative. -/
theorem fireGrenade.speed_cases (m : Libm F) (b : bz_BasePlayerRecord F)
    (hs : 0 ≤ m.sqrt (b.lastKnownState.velocity.x ^ 2 + b.lastKnownState.velocity.y ^ 2)) :
    (|fireGrenade.diff m b| ≤ m.pi / 2 → fireGrenade.speed m b =
      m.sqrt (b.lastKnownState.velocity.x ^ 2 + b.lastKnownState.velocity.y ^ 2)) ∧
    (m.pi / 2 < |fireGrenade.diff m b| → fireGrenade.speed m b = 0) := by
  constructor
  · intro h
    have h' : ¬ |fireGrenade.diff m b| > m.pi / 2 := not_lt.mpr h
    unfold fireGrenade.diff at h'
    unfold fireGrenade.speed
    simp only [h', if_false]
    exact if_neg (not_lt.mpr hs)
  · intro h
    have h' : |fireGrenade.diff m b| > m.pi / 2 := h
    unfold fireGrenade.diff at h'
    unfold fireGrenade.speed
    simp only [h', if_true]
    split_ifs with h2
    · rfl
    · have := not_lt.mp h2
      linarith

/-- A tank without horizontal velocity has forward speed 0. -/
theorem speed_stationary (m : Libm ℝ) (hm : m.IsReal) (vz rot : ℝ) :
    fireGrenade.speed m (demoPlayer ⟨0, 0, vz⟩ rot) = 0 := by
  obtain ⟨h, -, -, -, -, -⟩ := hm
  simp [fireGrenade.speed, demoPlayer, h]

/-- A tank that faces along `x` and moves along `x` at 25 has forward speed 25. -/
theorem speed_forward (m : Libm ℝ) (hm : m.IsReal) (vz : ℝ) :
    fireGrenade.speed m (demoPlayer ⟨25, 0, vz⟩ 0) = 25 := by
  have ha := atan2_zero_nonneg m hm
  obtain ⟨h, hs, hc, -, -, hp⟩ := hm
  have h25 : Real.sqrt (25 ^ 2) = 25 := Real.sqrt_sq (by norm_num)
  have hpi : ¬ Real.pi / 2 < 0 := by have := Real.pi_pos; linarith
  simp [fireGrenade.speed, demoPlayer, ha, h, hs, hc, hp, h25, hpi]

/-- One wall test: the new value is the old one or a positive candidate below it. -/
theorem collisionTime_step (c r : F) :
    ((if r > 0 ∧ r < c then r else c) = c ∨ ((if r > 0 ∧ r < c then r else c) = r ∧ 0 < r)) ∧
    (if r > 0 ∧ r < c then r else c) ≤ c ∧ (0 < r → (if r > 0 ∧ r < c then r else c) ≤ r) := by
  by_cases h : r > 0 ∧ r < c
  · rw [if_pos h]
    exact ⟨Or.inr ⟨rfl, h.1⟩, h.2.le, fun _ => le_refl _⟩
  · rw [if_neg h]
    exact ⟨Or.inl rfl, le_refl _, fun h0 => not_lt.mp (fun hl => h ⟨h0, hl⟩)⟩

/-- Four wall tests in a row yield the least of the start value and the positive candidates. -/
theorem collisionTime_steps (L r1 r2 r3 r4 : F) :
    let c1 := if r1 > 0 ∧ r1 < L then r1 else L
    let c2 := if r2 > 0 ∧ r2 < c1 then r2 else c1
    let c3 := if r3 > 0 ∧ r3 < c2 then r3 else c2
    let c4 := if r4 > 0 ∧ r4 < c3 then r4 else c3
    (c4 = L ∨ (c4 = r1 ∧ 0 < r1) ∨ (c4 = r2 ∧ 0 < r2) ∨ (c4 = r3 ∧ 0 < r3) ∨
      (c4 = r4 ∧ 0 < r4)) ∧
    c4 ≤ L ∧ (0 < r1 → c4 ≤ r1) ∧ (0 < r2 → c4 ≤ r2) ∧ (0 < r3 → c4 ≤ r3) ∧
      (0 < r4 → c4 ≤ r4) := by
  intro c1 c2 c3 c4
  have s1 : (c1 = L ∨ (c1 = r1 ∧ 0 < r1)) ∧ c1 ≤ L ∧ (0 < r1 → c1 ≤ r1) :=
    collisionTime_step L r1
  have s2 : (c2 = c1 ∨ (c2 = r2 ∧ 0 < r2)) ∧ c2 ≤ c1 ∧ (0 < r2 → c2 ≤ r2) :=
    collisionTime_step c1 r2
  have s3 : (c3 = c2 ∨ (c3 = r3 ∧ 0 < r3)) ∧ c3 ≤ c2 ∧ (0 < r3 → c3 ≤ r3) :=
    collisionTime_step c2 r3
  have s4 : (c4 = c3 ∨ (c4 = r4 ∧ 0 < r4)) ∧ c4 ≤ c3 ∧ (0 < r4 → c4 ≤ r4) :=
    collisionTime_step c3 r4
  obtain ⟨a1, b1, d1⟩ := s1
  obtain ⟨a2, b2, d2⟩ := s2
  obtain ⟨a3, b3, d3⟩ := s3
  obtain ⟨a4, b4, d4⟩ := s4
  refine ⟨?_, by linarith, fun h => by linarith [d1 h], fun h => by linarith [d2 h],
    fun h => by linarith [d3 h], d4⟩
  rcases a4 with e4 | e4
  · rcases a3 with e3 | e3
    · rcases a2 with e2 | e2
      · rcases a1 with e1 | e1
        · exact Or.inl (by rw [e4, e3, e2, e1])
        · exact Or.inr (Or.inl ⟨by rw [e4, e3, e2, e1.1], e1.2⟩)
      · exact Or.inr (Or.inr (Or.inl ⟨by rw [e4, e3, e2.1], e2.2⟩))
    · exact Or.inr (Or.inr (Or.inr (Or.inl ⟨by rw [e4, e3.1], e3.2⟩)))
  · exact Or.inr (Or.inr (Or.inr (Or.inr e4)))

/-- The boundary-crossing time is the trigger time or a positive root, it is at most
the trigger time and at most every positive root. -/
theorem fireGrenade.collisionTime_cases (env : Env F) (pos vel : Vec3 F) :
    (fireGrenade.collisionTime env pos vel = env.bz_getBZDBDouble "_grenadeTriggerTime" ∨
      (fireGrenade.collisionTime env pos vel =
          (env.bz_getBZDBDouble "_worldSize" / 2 - pos.x) / vel.x ∧
        0 < (env.bz_getBZDBDouble "_worldSize" / 2 - pos.x) / vel.x) ∨
      (fireGrenade.collisionTime env pos vel =
          (-(env.bz_getBZDBDouble "_worldSize" / 2) - pos.x) / vel.x ∧
        0 < (-(env.bz_getBZDBDouble "_worldSize" / 2) - pos.x) / vel.x) ∨
      (fireGrenade.collisionTime env pos vel =
          (env.bz_getBZDBDouble "_worldSize" / 2 - pos.y) / vel.y ∧
        0 < (env.bz_getBZDBDouble "_worldSize" / 2 - pos.y) / vel.y) ∨
      (fireGrenade.collisionTime env pos vel =
          (-(env.bz_getBZDBDouble "_worldSize" / 2) - pos.y) / vel.y ∧
        0 < (-(env.bz_getBZDBDouble "_worldSize" / 2) - pos.y) / vel.y)) ∧
    fireGrenade.collisionTime env pos vel ≤ env.bz_getBZDBDouble "_grenadeTriggerTime" ∧
    (0 < (env.bz_getBZDBDouble "_worldSize" / 2 - pos.x) / vel.x →
      fireGrenade.collisionTime env pos vel ≤
        (env.bz_getBZDBDouble "_worldSize" / 2 - pos.x) / vel.x) ∧
    (0 < (-(env.bz_getBZDBDouble "_worldSize" / 2) - pos.x) / vel.x →
      fireGrenade.collisionTime env pos vel ≤
        (-(env.bz_getBZDBDouble "_worldSize" / 2) - pos.x) / vel.x) ∧
    (0 < (env.bz_getBZDBDouble "_worldSize" / 2 - pos.y) / vel.y →
      fireGrenade.collisionTime env pos vel ≤
        (env.bz_getBZDBDouble "_worldSize" / 2 - pos.y) / vel.y) ∧
    (0 < (-(env.bz_getBZDBDouble "_worldSize" / 2) - pos.y) / vel.y →
      fireGrenade.collisionTime env pos vel ≤
        (-(env.bz_getBZDBDouble "_worldSize" / 2) - pos.y) / vel.y) :=
  collisionTime_steps
    (env.bz_getBZDBDouble "_grenadeTriggerTime")
    ((env.bz_getBZDBDouble "_worldSize" / 2 - pos.x) / vel.x)
    ((-(env.bz_getBZDBDouble "_worldSize" / 2) - pos.x) / vel.x)
    ((env.bz_getBZDBDouble "_worldSize" / 2 - pos.y) / vel.y)
    ((-(env.bz_getBZDBDouble "_worldSize" / 2) - pos.y) / vel.y)

/-- With a positive trigger time the boundary-crossing time is positive. -/
theorem fireGrenade.collisionTime_pos (env : Env F) (pos vel : Vec3 F)
    (hlife : 0 < env.bz_getBZDBDouble "_grenadeTriggerTime") :
    0 < fireGrenade.collisionTime env pos vel := by
  obtain ⟨hmem, -⟩ := fireGrenade.collisionTime_cases env pos vel
  rcases hmem with e | ⟨e, p⟩ | ⟨e, p⟩ | ⟨e, p⟩ | ⟨e, p⟩
  · rw [e]; exact hlife
  all_goals rw [e]; exact p

/-- The detonation point has the same `x` and `y` in both branches. -/
theorem fireGrenade.explodePos_xy (env : Env F) (pos vel : Vec3 F) :
    (fireGrenade.explodePos env pos vel).x =
      pos.x + vel.x * fireGrenade.collisionTime env pos vel ∧
    (fireGrenade.explodePos env pos vel).y =
      pos.y + vel.y * fireGrenade.collisionTime env pos vel := by
  unfold fireGrenade.explodePos
  split_ifs <;> exact ⟨rfl, rfl⟩

/-- One coordinate of a straight flight that ends no later than the walls are reached:
it stays between the walls. -/
theorem coordinate_within_walls (W x v t : F) (hx : |x| < W) (ht : 0 < t)
    (h1 : 0 < (W - x) / v → t ≤ (W - x) / v) (h2 : 0 < (-W - x) / v → t ≤ (-W - x) / v) :
    |x + v * t| ≤ W := by
  obtain ⟨hlo, hhi⟩ := abs_lt.mp hx
  rw [abs_le]
  rcases lt_trichotomy v 0 with hv | hv | hv
  · have hr : 0 < (-W - x) / v := div_pos_of_neg_of_neg (by linarith) hv
    have h := h2 hr
    have hmul : v * ((-W - x) / v) ≤ v * t := mul_le_mul_of_nonpos_left h hv.le
    rw [mul_div_cancel₀ _ hv.ne] at hmul
    have : v * t ≤ 0 := mul_nonpos_of_nonpos_of_nonneg hv.le ht.le
    constructor <;> linarith
  · rw [hv, zero_mul, add_zero]
    exact ⟨hlo.le, hhi.le⟩
  · have hr : 0 < (W - x) / v := div_pos (by linarith) hv
    have h := h1 hr
    have hmul : v * t ≤ v * ((W - x) / v) := mul_le_mul_of_nonneg_left h hv.le
    rw [mul_div_cancel₀ _ hv.ne'] at hmul
    have : 0 ≤ v * t := mul_nonneg hv.le ht.le
    constructor <;> linarith

/-- A zero vertical velocity never takes the bounce branch. -/
theorem fireGrenade.not_bounces_of_z_eq_zero (env : Env F) (pos vel : Vec3 F) (hz : vel.z = 0) :
    ¬ fireGrenade.bounces env pos vel := by
  intro h
  have h1 := h.1
  simp [fireGrenade.groundCollisionTime, hz] at h1

/-- Without horizontal velocity no wall test passes: the boundary-crossing time
is the trigger time. -/
theorem fireGrenade.collisionTime_of_zero (env : Env F) (pos vel : Vec3 F)
    (hx : vel.x = 0) (hy : vel.y = 0) :
    fireGrenade.collisionTime env pos vel = env.bz_getBZDBDouble "_grenadeTriggerTime" := by
  simp [fireGrenade.collisionTime, hx, hy]

/-- A fired shot without horizontal velocity gives a `shotVel` without horizontal part. -/
theorem fireGrenade.shotVel_of_zero (m : Libm F) (env : Env F) (d : bz_ShotFiredEventData_V1 F)
    (b : bz_BasePlayerRecord F) (hx : d.vel.x = 0) (hy : d.vel.y = 0) :
    (fireGrenade.shotVel m env d b).x = 0 ∧ (fireGrenade.shotVel m env d b).y = 0 := by
  simp [fireGrenade.shotVel, hx, hy]

/-- The queue after `fireGrenade`: the bounce continuation, if any, then the shock wave. -/
theorem fireGrenade_delayedShots (m : Libm F) (env : Env F) (d : bz_ShotFiredEventData_V1 F)
    (w : World F) (b : bz_BasePlayerRecord F) (hb : env.bz_getPlayerByIndex d.playerID = some b) :
    ∃ w', fireGrenade m env d w = some w' ∧
      w'.delayedShots = w.delayedShots ++
        (if fireGrenade.bounces env d.pos (fireGrenade.shotVel m env d b) then
          [(⟨some "PZ",
            fireGrenade.collisionTime env d.pos (fireGrenade.shotVel m env d b) -
              fireGrenade.groundCollisionTime d.pos (fireGrenade.shotVel m env d b),
            env.bz_getPlayerTeam d.playerID,
            fireGrenade.groundpos d.pos (fireGrenade.shotVel m env d b),
            m.asin ((fireGrenade.bouncevel (fireGrenade.shotVel m env d b)).z /
              m.sqrt ((fireGrenade.bouncevel (fireGrenade.shotVel m env d b)).x ^ 2 +
                (fireGrenade.bouncevel (fireGrenade.shotVel m env d b)).y ^ 2 +
                (fireGrenade.bouncevel (fireGrenade.shotVel m env d b)).z ^ 2)),
            m.atan2 (fireGrenade.bouncevel (fireGrenade.shotVel m env d b)).y
              (fireGrenade.bouncevel (fireGrenade.shotVel m env d b)).x,
            m.sqrt ((fireGrenade.bouncevel (fireGrenade.shotVel m env d b)).x ^ 2 +
              (fireGrenade.bouncevel (fireGrenade.shotVel m env d b)).y ^ 2 +
              (fireGrenade.bouncevel (fireGrenade.shotVel m env d b)).z ^ 2),
            fireGrenade.groundCollisionTime d.pos (fireGrenade.shotVel m env d b),
            toPlayerId d.playerID⟩ : DelayedShot F)]
        else []) ++
        [⟨some "SW",
          if fireGrenade.bounces env d.pos (fireGrenade.shotVel m env d b) then
            env.bz_getBZDBDouble "_grenadeShockDuration"
          else env.bz_getBZDBDouble "_grenadeShockDuration" / env.bz_getBZDBDouble "_shockAdLife",
          env.bz_getPlayerTeam d.playerID,
          fireGrenade.explodePos env d.pos (fireGrenade.shotVel m env d b),
          0, 0, env.bz_getBZDBDouble "_shotSpeed",
          fireGrenade.collisionTime env d.pos (fireGrenade.shotVel m env d b),
          toPlayerId d.playerID⟩] := by
  unfold fireGrenade
  simp only [hb]
  by_cases hbn : fireGrenade.bounces env d.pos (fireGrenade.shotVel m env d b)
  · simp only [hbn, if_true]
    refine ⟨_, rfl, ?_⟩
    rw [fireDelayedShot_delayedShots]
    unfold fireDelayedShotV
    rw [fireDelayedShot_delayedShots]
    unfold fireShotV
    rw [(fireShot_frame m env _ _ _ _ _ _ _ _ w).1]
  · simp only [hbn, if_false]
    refine ⟨_, rfl, ?_⟩
    rw [fireDelayedShot_delayedShots]
    unfold fireShotV
    rw [(fireShot_frame m env _ _ _ _ _ _ _ _ w).1]
    simp

/-- The broadcast log after `fireGrenade`: the primary `PZ` shot comes first; nothing
else is broadcast when the boundary-crossing time is positive. -/
theorem fireGrenade_broadcast (m : Libm F) (env : Env F) (d : bz_ShotFiredEventData_V1 F)
    (w : World F) (b : bz_BasePlayerRecord F) (pz : FlagType)
    (hb : env.bz_getPlayerByIndex d.playerID = some b) (hpz : env.flagMap "PZ" = some pz) :
    ∃ w' rest, fireGrenade m env d w = some w' ∧
      w'.broadcast = w.broadcast ++
        ({ timeSent := env.currentTime
           flagType := pz
           lifetime := fireGrenade.collisionTime env d.pos (fireGrenade.shotVel m env d b)
           shot :=
            { player := ServerPlayer
              pos := d.pos
              vel := sendShot.vel m
                (m.asin ((fireGrenade.shotVel m env d b).z /
                  m.sqrt ((fireGrenade.shotVel m env d b).x ^ 2 +
                    (fireGrenade.shotVel m env d b).y ^ 2 +
                    (fireGrenade.shotVel m env d b).z ^ 2)))
                (m.atan2 (fireGrenade.shotVel m env d b).y (fireGrenade.shotVel m env d b).x)
                (m.sqrt ((fireGrenade.shotVel m env d b).x ^ 2 +
                  (fireGrenade.shotVel m env d b).y ^ 2 +
                  (fireGrenade.shotVel m env d b).z ^ 2))
              id := 256 * toPlayerId d.playerID + (w.shotCounter + 1) % 256
              dt := 0
              team := env.convertTeam (env.bz_getPlayerTeam d.playerID) } } : FiringInfo F) :: rest ∧
      (0 < fireGrenade.collisionTime env d.pos (fireGrenade.shotVel m env d b) → rest = []) := by
  unfold fireGrenade
  simp only [hb]
  have h1 : ∀ v : Vec3 F, (fireShotV m env (some "PZ")
      (fireGrenade.collisionTime env d.pos (fireGrenade.shotVel m env d b)) d.playerID
      (env.bz_getPlayerTeam d.playerID) (some d.pos) v w).2.broadcast = w.broadcast ++
        [{ timeSent := env.currentTime
           flagType := pz
           lifetime := fireGrenade.collisionTime env d.pos (fireGrenade.shotVel m env d b)
           shot :=
            { player := ServerPlayer
              pos := d.pos
              vel := sendShot.vel m (m.asin (v.z / m.sqrt (v.x ^ 2 + v.y ^ 2 + v.z ^ 2)))
                (m.atan2 v.y v.x) (m.sqrt (v.x ^ 2 + v.y ^ 2 + v.z ^ 2))
              id := 256 * toPlayerId d.playerID + (w.shotCounter + 1) % 256
              dt := 0
              team := env.convertTeam (env.bz_getPlayerTeam d.playerID) } }] := by
    intro v
    unfold fireShotV
    simp only
    rw [fireShot_known m env "PZ" pz _ _ _ _ _ _ _ w hpz]
  by_cases hbn : fireGrenade.bounces env d.pos (fireGrenade.shotVel m env d b)
  · simp only [hbn, if_true]
    obtain ⟨r2, hr2⟩ := fireDelayedShot_broadcast_ext m env (some "SW")
      (env.bz_getBZDBDouble "_grenadeShockDuration") d.playerID (env.bz_getPlayerTeam d.playerID)
      (fireGrenade.explodePos env d.pos (fireGrenade.shotVel m env d b)) 0 0
      (env.bz_getBZDBDouble "_shotSpeed")
      (fireGrenade.collisionTime env d.pos (fireGrenade.shotVel m env d b))
      (fireDelayedShotV m env (some "PZ")
        (fireGrenade.collisionTime env d.pos (fireGrenade.shotVel m env d b) -
          fireGrenade.groundCollisionTime d.pos (fireGrenade.shotVel m env d b))
        d.playerID (env.bz_getPlayerTeam d.playerID)
        (fireGrenade.groundpos d.pos (fireGrenade.shotVel m env d b))
        (fireGrenade.bouncevel (fireGrenade.shotVel m env d b))
        (fireGrenade.groundCollisionTime d.pos (fireGrenade.shotVel m env d b))
        (fireShotV m env (some "PZ")
          (fireGrenade.collisionTime env d.pos (fireGrenade.shotVel m env d b)) d.playerID
          (env.bz_getPlayerTeam d.playerID) (some d.pos) (fireGrenade.shotVel m env d b) w).2)
    have hmid : ∀ w0 : World F, (fireDelayedShotV m env (some "PZ")
        (fireGrenade.collisionTime env d.pos (fireGrenade.shotVel m env d b) -
          fireGrenade.groundCollisionTime d.pos (fireGrenade.shotVel m env d b))
        d.playerID (env.bz_getPlayerTeam d.playerID)
        (fireGrenade.groundpos d.pos (fireGrenade.shotVel m env d b))
        (fireGrenade.bouncevel (fireGrenade.shotVel m env d b))
        (fireGrenade.groundCollisionTime d.pos (fireGrenade.shotVel m env d b))
        w0).broadcast = w0.broadcast := by
      intro w0
      unfold fireDelayedShotV
      exact fireDelayedShot_broadcast m env _ _ _ _ _ _ _ _ _ w0 hbn.1
    rw [hmid, h1] at hr2
    refine ⟨_, r2, rfl, by rw [hr2, List.append_assoc]; rfl, ?_⟩
    intro hpos
    have := fireDelayedShot_broadcast m env (some "SW")
      (env.bz_getBZDBDouble "_grenadeShockDuration") d.playerID (env.bz_getPlayerTeam d.playerID)
      (fireGrenade.explodePos env d.pos (fireGrenade.shotVel m env d b)) 0 0
      (env.bz_getBZDBDouble "_shotSpeed")
      (fireGrenade.collisionTime env d.pos (fireGrenade.shotVel m env d b))
      (fireDelayedShotV m env (some "PZ")
        (fireGrenade.collisionTime env d.pos (fireGrenade.shotVel m env d b) -
          fireGrenade.groundCollisionTime d.pos (fireGrenade.shotVel m env d b))
        d.playerID (env.bz_getPlayerTeam d.playerID)
        (fireGrenade.groundpos d.pos (fireGrenade.shotVel m env d b))
        (fireGrenade.bouncevel (fireGrenade.shotVel m env d b))
        (fireGrenade.groundCollisionTime d.pos (fireGrenade.shotVel m env d b))
        (fireShotV m env (some "PZ")
          (fireGrenade.collisionTime env d.pos (fireGrenade.shotVel m env d b)) d.playerID
          (env.bz_getPlayerTeam d.playerID) (some d.pos) (fireGrenade.shotVel m env d b) w).2) hpos
    rw [hr2, hmid, h1] at this
    simpa using this
  · simp only [hbn, if_false]
    obtain ⟨r2, hr2⟩ := fireDelayedShot_broadcast_ext m env (some "SW")
      (env.bz_getBZDBDouble "_grenadeShockDuration" / env.bz_getBZDBDouble "_shockAdLife")
      d.playerID (env.bz_getPlayerTeam d.playerID)
      (fireGrenade.explodePos env d.pos (fireGrenade.shotVel m env d b)) 0 0
      (env.bz_getBZDBDouble "_shotSpeed")
      (fireGrenade.collisionTime env d.pos (fireGrenade.shotVel m env d b))
      (fireShotV m env (some "PZ")
        (fireGrenade.collisionTime env d.pos (fireGrenade.shotVel m env d b)) d.playerID
        (env.bz_getPlayerTeam d.playerID) (some d.pos) (fireGrenade.shotVel m env d b) w).2
    rw [h1] at hr2
    refine ⟨_, r2, rfl, by rw [hr2, List.append_assoc]; rfl, ?_⟩
    intro hpos
    have := fireDelayedShot_broadcast m env (some "SW")
      (env.bz_getBZDBDouble "_grenadeShockDuration" / env.bz_getBZDBDouble "_shockAdLife")
      d.playerID (env.bz_getPlayerTeam d.playerID)
      (fireGrenade.explodePos env d.pos (fireGrenade.shotVel m env d b)) 0 0
      (env.bz_getBZDBDouble "_shotSpeed")
      (fireGrenade.collisionTime env d.pos (fireGrenade.shotVel m env d b))
      (fireShotV m env (some "PZ")
        (fireGrenade.collisionTime env d.pos (fireGrenade.shotVel m env d b)) d.playerID
        (env.bz_getPlayerTeam d.playerID) (some d.pos) (fireGrenade.shotVel m env d b) w).2 hpos
    rw [hr2, h1] at this
    simpa using this

/-- With a positive boundary-crossing time the two calls of `fireDelayedShot` in
`fireGrenade` broadcast nothing: the broadcast log is the one after the primary shot. -/
theorem fireGrenade_broadcast_of_pos (m : Libm F) (env : Env F) (d : bz_ShotFiredEventData_V1 F)
    (w : World F) (b : bz_BasePlayerRecord F)
    (hb : env.bz_getPlayerByIndex d.playerID = some b)
    (hpos : 0 < fireGrenade.collisionTime env d.pos (fireGrenade.shotVel m env d b)) :
    ∃ w', fireGrenade m env d w = some w' ∧
      w'.broadcast = (fireShotV m env (some "PZ")
        (fireGrenade.collisionTime env d.pos (fireGrenade.shotVel m env d b)) d.playerID
        (env.bz_getPlayerTeam d.playerID) (some d.pos) (fireGrenade.shotVel m env d b)
        w).2.broadcast := by
  unfold fireGrenade
  simp only [hb]
  by_cases hbn : fireGrenade.bounces env d.pos (fireGrenade.shotVel m env d b)
  · simp only [hbn, if_true]
    refine ⟨_, rfl, ?_⟩
    rw [fireDelayedShot_broadcast m env _ _ _ _ _ _ _ _ _ _ hpos]
    unfold fireDelayedShotV
    exact fireDelayedShot_broadcast m env _ _ _ _ _ _ _ _ _ _ hbn.1
  · simp only [hbn, if_false]
    exact ⟨_, rfl, fireDelayedShot_broadcast m env _ _ _ _ _ _ _ _ _ _ hpos⟩

/-! ## Lemmas on binary32 rounding -/

/-- A rational closer than one half to the integer `n` rounds to `n`. -/
theorem roundNearestEven_eq (q : ℚ) (n : ℤ) (h : |q - n| < 1 / 2) : roundNearestEven q = n := by
  rw [abs_lt] at h
  obtain ⟨h1, h2⟩ := h
  unfold roundNearestEven
  rcases le_or_lt (n : ℚ) q with hq | hq
  · have hf : ⌊q⌋ = n := by
      rw [Int.floor_eq_iff]
      constructor
      · exact hq
      · linarith
    rw [hf, if_pos (by linarith)]
  · have hf : ⌊q⌋ = n - 1 := by
      rw [Int.floor_eq_iff]
      push_cast
      constructor
      · linarith
      · linarith
    rw [hf]
    push_cast
    rw [if_neg (by linarith), if_pos (by linarith)]
    ring

/-- Halfway above an even integer the rounding goes down to it. -/
theorem roundNearestEven_half_even (q : ℚ) (n : ℤ) (h : q = n + 1 / 2) (hn : n % 2 = 0) :
    roundNearestEven q = n := by
  have hf : ⌊q⌋ = n := by
    rw [Int.floor_eq_iff, h]
    constructor
    · linarith
    · linarith
  unfold roundNearestEven
  rw [hf, h, if_neg (by norm_num), if_neg (by norm_num), if_pos hn]

/-- Halfway above an odd integer the rounding goes up to the next one. -/
theorem roundNearestEven_half_odd (q : ℚ) (n : ℤ) (h : q = n + 1 / 2) (hn : n % 2 = 1) :
    roundNearestEven q = n + 1 := by
  have hf : ⌊q⌋ = n := by
    rw [Int.floor_eq_iff, h]
    constructor
    · linarith
    · linarith
  unfold roundNearestEven
  rw [hf, h, if_neg (by norm_num), if_neg (by norm_num), if_neg (by omega)]

/-- The value of `binary32` at `x`, from the exponent `e` of the leading bit of `x` and
the rounded significand `n`. -/
theorem binary32_eq (x : ℚ) (e n : ℤ) (r : ℚ) (he : -126 ≤ e) (hlo : (2 : ℚ) ^ e ≤ |x|)
    (hhi : |x| < (2 : ℚ) ^ (e + 1)) (hn : roundNearestEven (x / 2 ^ (e - 23)) = n)
    (hr : (n : ℚ) * 2 ^ (e - 23) = r) :
    binary32 x = r := by
  have hpos : 0 < |x| := lt_of_lt_of_le (zpow_pos (by norm_num) e) hlo
  have hx : x ≠ 0 := abs_pos.mp hpos
  have hlog : Int.log 2 |x| = e := by
    have h1 : e ≤ Int.log 2 |x| := by
      rw [← Int.zpow_le_iff_le_log (by norm_num) hpos]
      exact_mod_cast hlo
    have h2 : Int.log 2 |x| < e + 1 := by
      rw [← Int.lt_zpow_iff_log_lt (by norm_num) hpos]
      exact_mod_cast hhi
    omega
  unfold binary32
  rw [if_neg hx]
  simp only [hlog, max_eq_left he]
  rw [hn, hr]

/-- Zero is a float. -/
theorem binary32_zero : binary32 0 = 0 := by
  simp [binary32]

/-! ## Lemmas on the rounded fire handler -/

/-- Without rounding the rounded boundary-crossing time is the exact one. -/
theorem fireGrenade.collisionTimeFl_id (env : Env F) (pos vel : Vec3 F) :
    fireGrenade.collisionTimeFl (fun x => x) env pos vel =
      fireGrenade.collisionTime env pos vel :=
  rfl

/-- Without rounding the rounded ground-crossing time is the exact one. -/
theorem fireGrenade.groundCollisionTimeFl_id (pos vel : Vec3 F) :
    fireGrenade.groundCollisionTimeFl (fun x => x) pos vel =
      fireGrenade.groundCollisionTime pos vel :=
  rfl

/-- Without rounding the rounded bounce condition is the exact one. -/
theorem fireGrenade.bouncesFl_id (env : Env F) (pos vel : Vec3 F) :
    fireGrenade.bouncesFl (fun x => x) env pos vel ↔ fireGrenade.bounces env pos vel :=
  Iff.rfl

/-- Without rounding the rounded bounce point is the exact one. -/
theorem fireGrenade.groundposFl_id (pos vel : Vec3 F) :
    fireGrenade.groundposFl (fun x => x) pos vel = fireGrenade.groundpos pos vel :=
  rfl

/-- Without rounding the lifetime of the bounce continuation is `tc - tg`. -/
theorem fireGrenade.bounceLifetimeFl_id (env : Env F) (pos vel : Vec3 F) :
    fireGrenade.bounceLifetimeFl (fun x => x) env pos vel =
      fireGrenade.collisionTime env pos vel - fireGrenade.groundCollisionTime pos vel :=
  rfl

/-- Without rounding the rounded detonation point is the exact one. -/
theorem fireGrenade.explodePosFl_id (env : Env F) (pos vel : Vec3 F) :
    fireGrenade.explodePosFl (fun x => x) env pos vel = fireGrenade.explodePos env pos vel := by
  unfold fireGrenade.explodePosFl fireGrenade.explodePos
  by_cases h : fireGrenade.bounces env pos vel
  · rw [if_pos h, if_pos ((fireGrenade.bouncesFl_id env pos vel).mpr h)]
    rfl
  · rw [if_neg h, if_neg (fun h2 => h ((fireGrenade.bouncesFl_id env pos vel).mp h2))]
    rfl

/-! ## A run with the default configuration -/

/-- With the default configuration, a stationary tank (falling at `vz`) that
fires along `(3, 4)` throws the grenade with velocity `(39, 52, vz)`. -/
theorem shotVel_demo (m : Libm ℝ) (hm : m.IsReal) (now : ℝ) (e : Option (bz_BasePlayerRecord ℝ))
    (pos : Vec3 ℝ) (vz rot vz' : ℝ) :
    fireGrenade.shotVel m (demoEnv now e) ⟨7, pos, ⟨3, 4, vz'⟩⟩ (demoPlayer ⟨0, 0, vz⟩ rot) =
      ⟨39, 52, vz⟩ := by
  have h5 : Real.sqrt (3 ^ 2 + 4 ^ 2) = 5 := by
    rw [show (3 : ℝ) ^ 2 + 4 ^ 2 = 5 ^ 2 by norm_num]
    exact Real.sqrt_sq (by norm_num)
  have h0 := speed_stationary m hm vz rot
  obtain ⟨hs, -, -, -, -, -⟩ := hm
  simp only [fireGrenade.shotVel, h0, fireGrenade.range, hs, h5]
  simp [demoEnv, demoPlayer]
  norm_num

/-- With the default configuration (half-width 400, trigger time 1), a shot from
`(0, 0, z)` with velocity `(39, 52, vz)` reaches no wall before the trigger time. -/
theorem collisionTime_demo (now : ℝ) (e : Option (bz_BasePlayerRecord ℝ)) (z vz : ℝ) :
    fireGrenade.collisionTime (demoEnv now e) ⟨0, 0, z⟩ ⟨39, 52, vz⟩ = 1 := by
  simp [fireGrenade.collisionTime, demoEnv]
  norm_num

/-! ## C1: one run of the delayed-shot queue -/

/-- C1: one run of `updateDelayedShotQueue`, `dt` being the elapsed time (the
clock difference clamped at 0, so `dt ≥ 0`), keeps exactly the entries with
`delay - dt > 0`, in their order, with `delay` reduced by `dt` and the other
fields unchanged; and when the flags of the queue are flags of the host (as `PZ`
and `SW` are) it broadcasts exactly one record for each entry with
`delay - dt ≤ 0`, in queue order, attributed to the owner of the entry. -/
theorem updateDelayedShotQueue_emits_due (m : Libm F) (env : Env F) (w : World F) (dt : F)
    (hdt : max 0 (env.currentTime - w.prevTime.getD env.currentTime) = dt) :
    0 ≤ dt ∧
    (updateDelayedShotQueue m env w).delayedShots =
      (w.delayedShots.filter (fun s => 0 < s.delay - dt)).map
        (fun s => { s with delay := s.delay - dt }) ∧
    ((∀ s ∈ w.delayedShots, ∃ name type, s.flag = some name ∧ env.flagMap name = some type) →
      ∃ sent, (updateDelayedShotQueue m env w).broadcast = w.broadcast ++ sent ∧
        List.Forall₂ (Emitted m env) (w.delayedShots.filter (fun s => s.delay - dt ≤ 0)) sent) := by
  subst hdt
  refine ⟨le_max_left _ _, (updateDelayedShotQueue.loop_kept m env _ w.delayedShots
    { w with prevTime := some env.currentTime }).1, ?_⟩
  intro hflag
  exact updateDelayedShotQueue.loop_sent m env _ w.delayedShots
    { w with prevTime := some env.currentTime } hflag

/-- C1, witness: entries with delays 0.5, 1.0, 1.0, run at time 0.6 and again at
time 1.1 (elapsed 0.6, then 0.5): the first run emits the first entry and keeps
the other two, the second run emits these two in order and empties the queue. -/
theorem updateDelayedShotQueue_emits_due_witness :
    (updateDelayedShotQueue demoLibm (demoEnv (3 / 5) none) demoWorld).delayedShots =
      [demoShot "PZ" (2 / 5), demoShot "SW" (2 / 5)] ∧
    (∃ sent, (updateDelayedShotQueue demoLibm (demoEnv (3 / 5) none) demoWorld).broadcast = sent ∧
      List.Forall₂ (Emitted demoLibm (demoEnv (3 / 5) none)) [demoShot "SW" (1 / 2)] sent) ∧
    (updateDelayedShotQueue demoLibm (demoEnv (11 / 10) none)
      (updateDelayedShotQueue demoLibm (demoEnv (3 / 5) none) demoWorld)).delayedShots = [] ∧
    (∃ sent, (updateDelayedShotQueue demoLibm (demoEnv (11 / 10) none)
        (updateDelayedShotQueue demoLibm (demoEnv (3 / 5) none) demoWorld)).broadcast =
        (updateDelayedShotQueue demoLibm (demoEnv (3 / 5) none) demoWorld).broadcast ++ sent ∧
      List.Forall₂ (Emitted demoLibm (demoEnv (11 / 10) none))
        [demoShot "PZ" (2 / 5), demoShot "SW" (2 / 5)] sent) := by
  have hflag : ∀ s ∈ demoWorld.delayedShots, ∃ name type, s.flag = some name ∧
      (demoEnv (3 / 5 : ℚ) none).flagMap name = some type := by
    simp [demoWorld, demoShot, demoEnv]
  have ht := updateDelayedShotQueue_prevTime demoLibm (demoEnv (3 / 5) none) demoWorld
  obtain ⟨_, a1, a2⟩ := updateDelayedShotQueue_emits_due demoLibm (demoEnv (3 / 5) none)
    demoWorld (3 / 5) (by simp [demoEnv, demoWorld]; norm_num)
  replace a2 := a2 hflag
  have e0 : (demoWorld.delayedShots.filter (fun s => 0 < s.delay - 3 / 5)).map
      (fun s => { s with delay := s.delay - 3 / 5 }) =
      [demoShot "PZ" (2 / 5), demoShot "SW" (2 / 5)] := by
    simp [demoWorld, demoShot, List.filter]; norm_num
  have e1 : demoWorld.delayedShots.filter (fun s => s.delay - 3 / 5 ≤ 0) =
      [demoShot "SW" (1 / 2)] := by
    simp [demoWorld, demoShot, List.filter]; norm_num
  rw [e0] at a1
  rw [e1] at a2
  obtain ⟨_, b1, b2⟩ := updateDelayedShotQueue_emits_due demoLibm (demoEnv (11 / 10) none)
    (updateDelayedShotQueue demoLibm (demoEnv (3 / 5) none) demoWorld)
    (1 / 2) (by rw [ht]; simp [demoEnv]; norm_num)
  replace b2 := b2 (by rw [a1]; simp [demoShot, demoEnv])
  have e2 : [demoShot "PZ" (2 / 5), demoShot "SW" (2 / 5)].filter
      (fun s => s.delay - 1 / 2 ≤ 0) = [demoShot "PZ" (2 / 5), demoShot "SW" (2 / 5)] := by
    simp [demoShot, List.filter]; norm_num
  have e3 : [demoShot "PZ" (2 / 5), demoShot "SW" (2 / 5)].filter
      (fun s => 0 < s.delay - 1 / 2) = [] := by
    simp [demoShot, List.filter]; norm_num
  rw [a1, e2] at b2
  rw [a1, e3] at b1
  refine ⟨a1, ?_, b1, b2⟩
  obtain ⟨sent, hs, hf⟩ := a2
  exact ⟨sent, by simpa [demoWorld] using hs, hf⟩

/-! ## C2: the range at forward speed 0 and at full speed -/

/-- C2: with `_tankSpeed ≠ 0`, the range of `fireGrenade` is `_grenadeMinRange`
when the clamped forward speed is 0, and `_grenadeMaxRange` when the forward
speed equals `_tankSpeed`. -/
theorem fireGrenade_range_min_max (m : Libm F) (env : Env F) (b : bz_BasePlayerRecord F)
    (htank : env.bz_getBZDBDouble "_tankSpeed" ≠ 0) :
    (fireGrenade.speed m b = 0 →
      fireGrenade.range env (fireGrenade.speed m b) = env.bz_getBZDBDouble "_grenadeMinRange") ∧
    (fireGrenade.speed m b = env.bz_getBZDBDouble "_tankSpeed" →
      fireGrenade.range env (fireGrenade.speed m b) = env.bz_getBZDBDouble "_grenadeMaxRange") := by
  constructor
  · intro h
    simp [fireGrenade.range, h]
  · intro h
    rw [h]
    simp only [fireGrenade.range]
    field_simp

/-- C2, witness: with the default configuration a stationary tank has range 65
and a tank at full speed forward has range 300. -/
theorem fireGrenade_range_min_max_witness :
    ∃ m : Libm ℝ, m.IsReal ∧
      fireGrenade.speed m (demoPlayer ⟨0, 0, 0⟩ 0) = 0 ∧
      fireGrenade.range (demoEnv 0 none) (fireGrenade.speed m (demoPlayer ⟨0, 0, 0⟩ 0)) = 65 ∧
      fireGrenade.speed m (demoPlayer ⟨25, 0, 0⟩ 0) = 25 ∧
      fireGrenade.range (demoEnv 0 none) (fireGrenade.speed m (demoPlayer ⟨25, 0, 0⟩ 0)) = 300 := by
  refine ⟨_, Libm.isReal_real, speed_stationary _ Libm.isReal_real 0 0, ?_,
    speed_forward _ Libm.isReal_real 0, ?_⟩
  · exact (fireGrenade_range_min_max _ (demoEnv 0 none) (demoPlayer ⟨0, 0, 0⟩ 0)
      (by simp [demoEnv])).1 (speed_stationary _ Libm.isReal_real 0 0)
  · exact (fireGrenade_range_min_max _ (demoEnv 0 none) (demoPlayer ⟨25, 0, 0⟩ 0)
      (by simp [demoEnv])).2 (by rw [speed_forward _ Libm.isReal_real 0]; simp [demoEnv])

/-! ## C3: the horizontal distance to the detonation point -/

/-- C4: the `collisionTime` that `fireGrenade` computes for a shot from `pos`
with velocity `vel` is the least element of the set made of the trigger time
and the strictly positive roots `(±W - x)/vx` (when `vx ≠ 0`) and `(±W - y)/vy`
(when `vy ≠ 0`), `W` being half of `_worldSize`; it is the trigger time when no
positive root is below the trigger time; and when the vertical velocity is zero
the bounce branch is not taken: the queue gains the `SW` entry only. -/
theorem fireGrenade_collisionTime_least (env : Env F) (pos vel : Vec3 F) :
    IsLeast
      {t | t = env.bz_getBZDBDouble "_grenadeTriggerTime" ∨
        (0 < t ∧
          ((vel.x ≠ 0 ∧ (t = (env.bz_getBZDBDouble "_worldSize" / 2 - pos.x) / vel.x ∨
              t = (-(env.bz_getBZDBDouble "_worldSize" / 2) - pos.x) / vel.x)) ∨
            (vel.y ≠ 0 ∧ (t = (env.bz_getBZDBDouble "_worldSize" / 2 - pos.y) / vel.y ∨
              t = (-(env.bz_getBZDBDouble "_worldSize" / 2) - pos.y) / vel.y))))}
      (fireGrenade.collisionTime env pos vel) ∧
    ((∀ t, 0 < t →
        (t = (env.bz_getBZDBDouble "_worldSize" / 2 - pos.x) / vel.x ∨
          t = (-(env.bz_getBZDBDouble "_worldSize" / 2) - pos.x) / vel.x ∨
          t = (env.bz_getBZDBDouble "_worldSize" / 2 - pos.y) / vel.y ∨
          t = (-(env.bz_getBZDBDouble "_worldSize" / 2) - pos.y) / vel.y) →
        env.bz_getBZDBDouble "_grenadeTriggerTime" ≤ t) →
      fireGrenade.collisionTime env pos vel = env.bz_getBZDBDouble "_grenadeTriggerTime") ∧
    (vel.z = 0 → ¬ fireGrenade.bounces env pos vel) ∧
    (∀ (m : Libm F) (d : bz_ShotFiredEventData_V1 F) (w : World F) (b : bz_BasePlayerRecord F),
      env.bz_getPlayerByIndex d.playerID = some b → b.lastKnownState.velocity.z = 0 →
      ∃ w' sw, fireGrenade m env d w = some w' ∧
        w'.delayedShots = w.delayedShots ++ [sw] ∧ sw.flag = some "SW") := by
  have key := collisionTime_steps
    (env.bz_getBZDBDouble "_grenadeTriggerTime")
    ((env.bz_getBZDBDouble "_worldSize" / 2 - pos.x) / vel.x)
    ((-(env.bz_getBZDBDouble "_worldSize" / 2) - pos.x) / vel.x)
    ((env.bz_getBZDBDouble "_worldSize" / 2 - pos.y) / vel.y)
    ((-(env.bz_getBZDBDouble "_worldSize" / 2) - pos.y) / vel.y)
  change (fireGrenade.collisionTime env pos vel = _ ∨
      (fireGrenade.collisionTime env pos vel = _ ∧ _) ∨
      (fireGrenade.collisionTime env pos vel = _ ∧ _) ∨
      (fireGrenade.collisionTime env pos vel = _ ∧ _) ∨
      (fireGrenade.collisionTime env pos vel = _ ∧ _)) ∧
    fireGrenade.collisionTime env pos vel ≤ _ ∧
    (_ → fireGrenade.collisionTime env pos vel ≤ _) ∧
    (_ → fireGrenade.collisionTime env pos vel ≤ _) ∧
    (_ → fireGrenade.collisionTime env pos vel ≤ _) ∧
    (_ → fireGrenade.collisionTime env pos vel ≤ _) at key
  obtain ⟨hmem, hL, h1, h2, h3, h4⟩ := key
  have hx : ∀ a : F, 0 < a / vel.x → vel.x ≠ 0 := by
    intro a ha h0
    rw [h0, div_zero] at ha
    exact lt_irrefl _ ha
  have hy : ∀ a : F, 0 < a / vel.y → vel.y ≠ 0 := by
    intro a ha h0
    rw [h0, div_zero] at ha
    exact lt_irrefl _ ha
  refine ⟨⟨?_, ?_⟩, ?_, fireGrenade.not_bounces_of_z_eq_zero env pos vel, ?_⟩
  · show fireGrenade.collisionTime env pos vel = _ ∨ _
    rcases hmem with e | ⟨e, p⟩ | ⟨e, p⟩ | ⟨e, p⟩ | ⟨e, p⟩
    · exact Or.inl e
    · exact Or.inr ⟨by rw [e]; exact p, Or.inl ⟨hx _ p, Or.inl e⟩⟩
    · exact Or.inr ⟨by rw [e]; exact p, Or.inl ⟨hx _ p, Or.inr e⟩⟩
    · exact Or.inr ⟨by rw [e]; exact p, Or.inr ⟨hy _ p, Or.inl e⟩⟩
    · exact Or.inr ⟨by rw [e]; exact p, Or.inr ⟨hy _ p, Or.inr e⟩⟩
  · rintro t (e | ⟨ht, ⟨-, e | e⟩ | ⟨-, e | e⟩⟩)
    · rw [e]; exact hL
    · rw [e]; exact h1 (e ▸ ht)
    · rw [e]; exact h2 (e ▸ ht)
    · rw [e]; exact h3 (e ▸ ht)
    · rw [e]; exact h4 (e ▸ ht)
  · intro hall
    rcases hmem with e | ⟨e, p⟩ | ⟨e, p⟩ | ⟨e, p⟩ | ⟨e, p⟩
    · exact e
    · exact le_antisymm hL (by rw [e]; exact hall _ p (Or.inl rfl))
    · exact le_antisymm hL (by rw [e]; exact hall _ p (Or.inr (Or.inl rfl)))
    · exact le_antisymm hL (by rw [e]; exact hall _ p (Or.inr (Or.inr (Or.inl rfl))))
    · exact le_antisymm hL (by rw [e]; exact hall _ p (Or.inr (Or.inr (Or.inr rfl))))
  · intro m d w b hb hz
    obtain ⟨w', hw, hq⟩ := fireGrenade_delayedShots m env d w b hb
    have hv : (fireGrenade.shotVel m env d b).z = 0 := by
      simp [fireGrenade.shotVel, hz]
    rw [if_neg (fireGrenade.not_bounces_of_z_eq_zero env d.pos _ hv),
      if_neg (fireGrenade.not_bounces_of_z_eq_zero env d.pos _ hv), List.append_nil] at hq
    exact ⟨w', _, hw, hq, rfl⟩

/-- C4, witness: with half-width 400 and trigger time 1, a shot from `(390, 0, 1)`
with velocity `(39, 52, 0)` reaches the wall `x = 400` at time `10/39`, and
does not bounce. -/
theorem fireGrenade_collisionTime_least_witness :
    fireGrenade.collisionTime (demoEnv (0 : ℚ) none) ⟨390, 0, 1⟩ ⟨39, 52, 0⟩ = 10 / 39 ∧
    ¬ fireGrenade.bounces (demoEnv (0 : ℚ) none) ⟨390, 0, 1⟩ ⟨39, 52, 0⟩ ∧
    IsLeast
      {t : ℚ | t = 1 ∨ (0 < t ∧ (((39 : ℚ) ≠ 0 ∧ (t = (800 / 2 - 390) / 39 ∨
        t = (-(800 / 2) - 390) / 39)) ∨ ((52 : ℚ) ≠ 0 ∧ (t = (800 / 2 - 0) / 52 ∨
        t = (-(800 / 2) - 0) / 52))))}
      (10 / 39) := by
  have hc : fireGrenade.collisionTime (demoEnv (0 : ℚ) none) ⟨390, 0, 1⟩ ⟨39, 52, 0⟩ =
      10 / 39 := by
    simp [fireGrenade.collisionTime, demoEnv]
    norm_num
  have h := fireGrenade_collisionTime_least (demoEnv (0 : ℚ) none) ⟨390, 0, 1⟩ ⟨39, 52, 0⟩
  refine ⟨hc, h.2.2.1 rfl, ?_⟩
  have h1 := h.1
  rw [hc] at h1
  simpa [demoEnv] using h1

/-! ## C5: the bounce continuation -/

/-- C6: a run of `fireGrenade` (for a player of the registry) appends to the
queue at most one `PZ` entry followed by exactly one `SW` entry; the `SW` entry
lies at the detonation point `explodePos`, its delay is the boundary-crossing
time, and its lifetime is `_grenadeShockDuration` when a bounce was scheduled
and `_grenadeShockDuration / _shockAdLife` when not. -/
theorem fireGrenade_shock_entry (m : Libm F) (env : Env F) (d : bz_ShotFiredEventData_V1 F)
    (w : World F) (b : bz_BasePlayerRecord F) (hb : env.bz_getPlayerByIndex d.playerID = some b) :
    ∃ w' pre sw, fireGrenade m env d w = some w' ∧
      w'.delayedShots = w.delayedShots ++ pre ++ [sw] ∧
      (∀ s ∈ pre, s.flag = some "PZ") ∧
      sw.flag = some "SW" ∧
      sw.pos = fireGrenade.explodePos env d.pos (fireGrenade.shotVel m env d b) ∧
      sw.delay = fireGrenade.collisionTime env d.pos (fireGrenade.shotVel m env d b) ∧
      (fireGrenade.bounces env d.pos (fireGrenade.shotVel m env d b) →
        pre.length = 1 ∧ sw.lifetime = env.bz_getBZDBDouble "_grenadeShockDuration") ∧
      (¬ fireGrenade.bounces env d.pos (fireGrenade.shotVel m env d b) →
        pre = [] ∧ sw.lifetime =
          env.bz_getBZDBDouble "_grenadeShockDuration" / env.bz_getBZDBDouble "_shockAdLife") := by
  obtain ⟨w', hw, hq⟩ := fireGrenade_delayedShots m env d w b hb
  refine ⟨w', _, _, hw, hq, ?_, rfl, rfl, rfl, ?_, ?_⟩
  · intro s hs
    by_cases hbn : fireGrenade.bounces env d.pos (fireGrenade.shotVel m env d b)
    · rw [if_pos hbn, List.mem_singleton] at hs
      rw [hs]
    · rw [if_neg hbn] at hs
      exact absurd hs (List.not_mem_nil _)
  · intro hbn
    rw [if_pos hbn, if_pos hbn]
    exact ⟨rfl, rfl⟩
  · intro hbn
    rw [if_neg hbn, if_neg hbn]
    exact ⟨rfl, rfl⟩

/-- C6, witness: origin height 10, vertical velocity -25, trigger time 1 and no
wall in reach: a bounce is scheduled, and the shock wave is queued with delay 1
and the full duration 2 at `(39, 52, 15)`. -/
theorem fireGrenade_shock_entry_witness :
    ∃ m : Libm ℝ, m.IsReal ∧
      ∃ w' pz sw, fireGrenade m (demoEnv 0 (some (demoPlayer ⟨0, 0, -25⟩ 0)))
          ⟨7, ⟨0, 0, 10⟩, ⟨3, 4, 0⟩⟩ ⟨0, [], [], none⟩ = some w' ∧
        w'.delayedShots = [pz, sw] ∧ pz.flag = some "PZ" ∧ sw.flag = some "SW" ∧
        sw.pos = ⟨39, 52, 15⟩ ∧ sw.delay = 1 ∧ sw.lifetime = 2 := by
  obtain ⟨m, hm⟩ : ∃ m : Libm ℝ, m.IsReal := ⟨_, Libm.isReal_real⟩
  refine ⟨m, hm, ?_⟩
  have hv := shotVel_demo m hm 0 (some (demoPlayer ⟨0, 0, -25⟩ 0))
    ⟨0, 0, 10⟩ (-25) 0 0
  have hc := collisionTime_demo 0 (some (demoPlayer ⟨0, 0, -25⟩ 0)) 10 (-25)
  have hbn : fireGrenade.bounces (demoEnv 0 (some (demoPlayer ⟨0, 0, -25⟩ 0)))
      (⟨0, 0, 10⟩ : Vec3 ℝ) ⟨39, 52, -25⟩ := by
    unfold fireGrenade.bounces
    rw [hc]
    norm_num [fireGrenade.groundCollisionTime]
  obtain ⟨w', pre, sw, h1, h2, h3, h4, h5, h6, h7, -⟩ :=
    fireGrenade_shock_entry m (demoEnv 0 (some (demoPlayer ⟨0, 0, -25⟩ 0)))
      ⟨7, ⟨0, 0, 10⟩, ⟨3, 4, 0⟩⟩ ⟨0, [], [], none⟩ (demoPlayer ⟨0, 0, -25⟩ 0)
      (by simp [demoEnv])
  rw [hv] at h5 h6 h7
  obtain ⟨h7a, h7b⟩ := h7 hbn
  obtain ⟨pz, hpz⟩ := List.length_eq_one.mp h7a
  rw [hpz] at h2 h3
  refine ⟨w', pz, sw, h1, by simpa using h2, h3 pz (List.mem_singleton_self _), h4, ?_,
    by rw [h6, hc], by rw [h7b]; simp [demoEnv]⟩
  rw [h5]
  simp only [fireGrenade.explodePos, if_pos hbn, hc, fireGrenade.groundpos,
    fireGrenade.bouncevel, fireGrenade.groundCollisionTime]
  norm_num

/-! ## C7: no bounce -/

/-- C7: when the ground-crossing time is not strictly between 0 and the
boundary-crossing time `tc`, `fireGrenade` enqueues no bounce continuation (the
queue gains the `SW` entry only), the primary `PZ` shot is broadcast first, with
lifetime `tc` from the shot origin (and nothing else is broadcast when `tc > 0`),
and the detonation point, where the `SW` entry lies, is `pos + vel * tc` in the
three coordinates. -/
theorem fireGrenade_no_bounce (m : Libm F) (env : Env F) (d : bz_ShotFiredEventData_V1 F)
    (w : World F) (b : bz_BasePlayerRecord F) (pz : FlagType)
    (hb : env.bz_getPlayerByIndex d.playerID = some b) (hpz : env.flagMap "PZ" = some pz)
    (hno : ¬ (0 < fireGrenade.groundCollisionTime d.pos (fireGrenade.shotVel m env d b) ∧
      fireGrenade.groundCollisionTime d.pos (fireGrenade.shotVel m env d b) <
        fireGrenade.collisionTime env d.pos (fireGrenade.shotVel m env d b))) :
    ∃ w' sw primary rest, fireGrenade m env d w = some w' ∧
      w'.delayedShots = w.delayedShots ++ [sw] ∧
      sw.flag = some "SW" ∧
      sw.pos = fireGrenade.explodePos env d.pos (fireGrenade.shotVel m env d b) ∧
      fireGrenade.explodePos env d.pos (fireGrenade.shotVel m env d b) =
        ⟨d.pos.x + (fireGrenade.shotVel m env d b).x *
            fireGrenade.collisionTime env d.pos (fireGrenade.shotVel m env d b),
          d.pos.y + (fireGrenade.shotVel m env d b).y *
            fireGrenade.collisionTime env d.pos (fireGrenade.shotVel m env d b),
          d.pos.z + (fireGrenade.shotVel m env d b).z *
            fireGrenade.collisionTime env d.pos (fireGrenade.shotVel m env d b)⟩ ∧
      w'.broadcast = w.broadcast ++ primary :: rest ∧
      primary.flagType = pz ∧
      primary.lifetime = fireGrenade.collisionTime env d.pos (fireGrenade.shotVel m env d b) ∧
      primary.shot.pos = d.pos ∧
      (0 < fireGrenade.collisionTime env d.pos (fireGrenade.shotVel m env d b) → rest = []) := by
  have hbn : ¬ fireGrenade.bounces env d.pos (fireGrenade.shotVel m env d b) := hno
  obtain ⟨w', hw, hq⟩ := fireGrenade_delayedShots m env d w b hb
  obtain ⟨w'', rest, hw'', hbr, hrest⟩ := fireGrenade_broadcast m env d w b pz hb hpz
  have hww : w'' = w' := Option.some.inj (hw''.symm.trans hw)
  rw [hww] at hbr
  rw [if_neg hbn, if_neg hbn, List.append_nil] at hq
  refine ⟨w', _, _, rest, hw, hq, rfl, rfl, ?_, hbr, rfl, rfl, rfl, hrest⟩
  simp only [fireGrenade.explodePos, if_neg hbn]

/-- C7, witness: origin height 50, vertical velocity -25, trigger time 1 and no
wall in reach: the ground time is 2, there is no bounce, the primary shot has
lifetime 1 and the shock wave lies at `(39, 52, 25)`. -/
theorem fireGrenade_no_bounce_witness :
    ∃ m : Libm ℝ, m.IsReal ∧
      fireGrenade.groundCollisionTime (⟨0, 0, 50⟩ : Vec3 ℝ) ⟨39, 52, -25⟩ = 2 ∧
      ∃ w' sw primary, fireGrenade m (demoEnv 0 (some (demoPlayer ⟨0, 0, -25⟩ 0)))
          ⟨7, ⟨0, 0, 50⟩, ⟨3, 4, 0⟩⟩ ⟨0, [], [], none⟩ = some w' ∧
        w'.delayedShots = [sw] ∧ sw.flag = some "SW" ∧ sw.pos = ⟨39, 52, 25⟩ ∧
        w'.broadcast = [primary] ∧ primary.flagType = "PZ" ∧ primary.lifetime = 1 := by
  obtain ⟨m, hm⟩ : ∃ m : Libm ℝ, m.IsReal := ⟨_, Libm.isReal_real⟩
  refine ⟨m, hm, by norm_num [fireGrenade.groundCollisionTime], ?_⟩
  have hv := shotVel_demo m hm 0 (some (demoPlayer ⟨0, 0, -25⟩ 0))
    ⟨0, 0, 50⟩ (-25) 0 0
  have hc := collisionTime_demo 0 (some (demoPlayer ⟨0, 0, -25⟩ 0)) 50 (-25)
  obtain ⟨w', sw, primary, rest, h1, h2, h3, h4, h5, h6, h7, h8, -, h10⟩ :=
    fireGrenade_no_bounce m (demoEnv 0 (some (demoPlayer ⟨0, 0, -25⟩ 0)))
      ⟨7, ⟨0, 0, 50⟩, ⟨3, 4, 0⟩⟩ ⟨0, [], [], none⟩ (demoPlayer ⟨0, 0, -25⟩ 0) "PZ"
      (by simp [demoEnv]) (by simp [demoEnv])
      (by rw [hv, hc]; norm_num [fireGrenade.groundCollisionTime])
  rw [hv] at h4 h5 h8 h10
  rw [hc] at h5 h8 h10
  rw [h5] at h4
  rw [h10 (by norm_num)] at h6
  refine ⟨w', sw, primary, h1, by simpa using h2, h3, ?_, by simpa using h6, h7, h8⟩
  rw [h4]
  norm_num

/-! ## C8: a fired shot without horizontal velocity -/

/-- C8, as the spec states it, fails: for a fired shot with velocity `(0, 0, 0)`
`fireGrenade` does not abort, it broadcasts one record and enqueues one entry. -/
theorem fireGrenade_zero_velocity_counterexample :
    ∃ m : Libm ℝ, m.IsReal ∧
      ∃ w', fireGrenade m (demoEnv 0 (some (demoPlayer ⟨0, 0, 0⟩ 0)))
          ⟨7, ⟨0, 0, 1⟩, ⟨0, 0, 0⟩⟩ ⟨0, [], [], none⟩ = some w' ∧
        w'.broadcast.length = 1 ∧ w'.delayedShots.length = 1 := by
  obtain ⟨m, hm⟩ : ∃ m : Libm ℝ, m.IsReal := ⟨_, Libm.isReal_real⟩
  refine ⟨m, hm, ?_⟩
  have hb : (demoEnv (0 : ℝ) (some (demoPlayer ⟨0, 0, 0⟩ 0))).bz_getPlayerByIndex 7 =
      some (demoPlayer ⟨0, 0, 0⟩ 0) := by simp [demoEnv]
  have hv := fireGrenade.shotVel_of_zero m (demoEnv 0 (some (demoPlayer ⟨0, 0, 0⟩ 0)))
    ⟨7, ⟨0, 0, 1⟩, ⟨0, 0, 0⟩⟩ (demoPlayer ⟨0, 0, 0⟩ 0) rfl rfl
  have hz : (fireGrenade.shotVel m (demoEnv 0 (some (demoPlayer ⟨0, 0, 0⟩ 0)))
      ⟨7, ⟨0, 0, 1⟩, ⟨0, 0, 0⟩⟩ (demoPlayer ⟨0, 0, 0⟩ 0)).z = 0 := by
    simp [fireGrenade.shotVel, demoPlayer]
  have hc := fireGrenade.collisionTime_of_zero (demoEnv 0 (some (demoPlayer ⟨0, 0, 0⟩ 0)))
    ⟨0, 0, 1⟩ _ hv.1 hv.2
  have hbn := fireGrenade.not_bounces_of_z_eq_zero
    (demoEnv 0 (some (demoPlayer ⟨0, 0, 0⟩ 0))) ⟨0, 0, 1⟩ _ hz
  obtain ⟨w', hw, hq⟩ := fireGrenade_delayedShots m (demoEnv 0 (some (demoPlayer ⟨0, 0, 0⟩ 0)))
    ⟨7, ⟨0, 0, 1⟩, ⟨0, 0, 0⟩⟩ ⟨0, [], [], none⟩ (demoPlayer ⟨0, 0, 0⟩ 0) hb
  obtain ⟨w'', rest, hw'', hbr, hrest⟩ := fireGrenade_broadcast m
    (demoEnv 0 (some (demoPlayer ⟨0, 0, 0⟩ 0)))
    ⟨7, ⟨0, 0, 1⟩, ⟨0, 0, 0⟩⟩ ⟨0, [], [], none⟩ (demoPlayer ⟨0, 0, 0⟩ 0) "PZ" hb
    (by simp [demoEnv])
  have hww : w'' = w' := Option.some.inj (hw''.symm.trans hw)
  rw [hww] at hbr
  rw [hrest (by rw [hc]; simp [demoEnv])] at hbr
  rw [if_neg hbn] at hq
  refine ⟨w', hw, by rw [hbr]; simp, by rw [hq]; simp⟩

/-- C8, amended: `fireGrenade` has no guard for a fired shot without horizontal
velocity.  For such a shot (of a player of the registry, `PZ` being a flag of
the host) it still broadcasts the primary `PZ` record, with the trigger time as
lifetime, and enqueues the `SW` entry, with the trigger time as delay. -/
theorem fireGrenade_zero_horizontal_velocity (m : Libm F) (env : Env F)
    (d : bz_ShotFiredEventData_V1 F) (w : World F) (b : bz_BasePlayerRecord F) (pz : FlagType)
    (hb : env.bz_getPlayerByIndex d.playerID = some b) (hpz : env.flagMap "PZ" = some pz)
    (hvel : d.vel.x = 0 ∧ d.vel.y = 0) :
    ∃ w' primary rest pre sw, fireGrenade m env d w = some w' ∧
      w'.broadcast = w.broadcast ++ primary :: rest ∧
      primary.flagType = pz ∧
      primary.lifetime = env.bz_getBZDBDouble "_grenadeTriggerTime" ∧
      primary.shot.pos = d.pos ∧
      w'.delayedShots = w.delayedShots ++ pre ++ [sw] ∧
      sw.flag = some "SW" ∧
      sw.delay = env.bz_getBZDBDouble "_grenadeTriggerTime" := by
  have hv := fireGrenade.shotVel_of_zero m env d b hvel.1 hvel.2
  have hc := fireGrenade.collisionTime_of_zero env d.pos _ hv.1 hv.2
  obtain ⟨w', hw, hq⟩ := fireGrenade_delayedShots m env d w b hb
  obtain ⟨w'', rest, hw'', hbr, -⟩ := fireGrenade_broadcast m env d w b pz hb hpz
  have hww : w'' = w' := Option.some.inj (hw''.symm.trans hw)
  rw [hww] at hbr
  exact ⟨w', _, rest, _, _, hw, hbr, rfl, hc, rfl, hq, rfl, hc⟩

/-- C8 amended, witness: a tank falling at 25 whose shot has the velocity
`(0, 0, -100)`: one `PZ` record with lifetime 1 is broadcast and the `SW` entry
is queued with delay 1. -/
theorem fireGrenade_zero_horizontal_velocity_witness :
    ∃ m : Libm ℝ, m.IsReal ∧
      ∃ w' primary rest pre sw, fireGrenade m (demoEnv 0 (some (demoPlayer ⟨0, 0, -25⟩ 0)))
          ⟨7, ⟨0, 0, 50⟩, ⟨0, 0, -100⟩⟩ ⟨0, [], [], none⟩ = some w' ∧
        w'.broadcast = primary :: rest ∧ primary.flagType = "PZ" ∧ primary.lifetime = 1 ∧
        w'.delayedShots = pre ++ [sw] ∧ sw.flag = some "SW" ∧ sw.delay = 1 := by
  obtain ⟨m, hm⟩ : ∃ m : Libm ℝ, m.IsReal := ⟨_, Libm.isReal_real⟩
  obtain ⟨w', primary, rest, pre, sw, h1, h2, h3, h4, -, h6, h7, h8⟩ :=
    fireGrenade_zero_horizontal_velocity m (demoEnv 0 (some (demoPlayer ⟨0, 0, -25⟩ 0)))
      ⟨7, ⟨0, 0, 50⟩, ⟨0, 0, -100⟩⟩ ⟨0, [], [], none⟩ (demoPlayer ⟨0, 0, -25⟩ 0) "PZ"
      (by simp [demoEnv]) (by simp [demoEnv]) ⟨rfl, rfl⟩
  exact ⟨m, hm, w', primary, rest, pre, sw, h1, by simpa using h2, h3,
    by rw [h4]; simp [demoEnv], by simpa using h6, h7, by rw [h8]; simp [demoEnv]⟩

/-! ## C9: the velocity of the shock wave -/

/-- C9, as the spec states it, fails: with `_shotSpeed = 100` the velocity that
the emitter computes for the queued `SW` entry is `(100, 0, 0)`, not zero. -/
theorem fireGrenade_shock_velocity_counterexample :
    ∃ m : Libm ℝ, m.IsReal ∧
      ∃ w' sw, fireGrenade m (demoEnv 0 (some (demoPlayer ⟨0, 0, 0⟩ 0)))
          ⟨7, ⟨0, 0, 1⟩, ⟨3, 4, 0⟩⟩ ⟨0, [], [], none⟩ = some w' ∧
        w'.delayedShots = [sw] ∧ sw.flag = some "SW" ∧
        sendShot.vel m sw.tilt sw.dir sw.speed = ⟨100, 0, 0⟩ ∧
        sendShot.vel m sw.tilt sw.dir sw.speed ≠ ⟨0, 0, 0⟩ := by
  obtain ⟨m, hm⟩ : ∃ m : Libm ℝ, m.IsReal := ⟨_, Libm.isReal_real⟩
  refine ⟨m, hm, ?_⟩
  have hb : (demoEnv (0 : ℝ) (some (demoPlayer ⟨0, 0, 0⟩ 0))).bz_getPlayerByIndex 7 =
      some (demoPlayer ⟨0, 0, 0⟩ 0) := by simp [demoEnv]
  have hz : (fireGrenade.shotVel m (demoEnv 0 (some (demoPlayer ⟨0, 0, 0⟩ 0)))
      ⟨7, ⟨0, 0, 1⟩, ⟨3, 4, 0⟩⟩ (demoPlayer ⟨0, 0, 0⟩ 0)).z = 0 := by
    simp [fireGrenade.shotVel, demoPlayer]
  have hbn := fireGrenade.not_bounces_of_z_eq_zero
    (demoEnv 0 (some (demoPlayer ⟨0, 0, 0⟩ 0))) ⟨0, 0, 1⟩ _ hz
  obtain ⟨w', hw, hq⟩ := fireGrenade_delayedShots m (demoEnv 0 (some (demoPlayer ⟨0, 0, 0⟩ 0)))
    ⟨7, ⟨0, 0, 1⟩, ⟨3, 4, 0⟩⟩ ⟨0, [], [], none⟩ (demoPlayer ⟨0, 0, 0⟩ 0) hb
  rw [if_neg hbn] at hq
  obtain ⟨-, hsin, hcos, -, -, -⟩ := hm
  have hvel : sendShot.vel m 0 0 ((demoEnv (0 : ℝ)
      (some (demoPlayer ⟨0, 0, 0⟩ 0))).bz_getBZDBDouble "_shotSpeed") = ⟨100, 0, 0⟩ := by
    simp [sendShot.vel, hsin, hcos, demoEnv]
  refine ⟨w', _, hw, by simpa using hq, rfl, hvel, ?_⟩
  rw [hvel]
  intro h
  have := congrArg Vec3.x h
  norm_num at this

/-- C9, amended: over the reals, the `SW` entry that `fireGrenade` enqueues has
tilt 0, direction 0 and speed `_shotSpeed`, so the velocity that the emitter
computes for it is `(_shotSpeed, 0, 0)`: it is zero exactly when `_shotSpeed`
is 0. -/
theorem fireGrenade_shock_velocity (m : Libm ℝ) (hm : m.IsReal) (env : Env ℝ)
    (d : bz_ShotFiredEventData_V1 ℝ) (w : World ℝ) (b : bz_BasePlayerRecord ℝ)
    (hb : env.bz_getPlayerByIndex d.playerID = some b) :
    ∃ w' pre sw, fireGrenade m env d w = some w' ∧
      w'.delayedShots = w.delayedShots ++ pre ++ [sw] ∧
      (∀ s ∈ pre, s.flag = some "PZ") ∧
      sw.flag = some "SW" ∧
      sendShot.vel m sw.tilt sw.dir sw.speed = ⟨env.bz_getBZDBDouble "_shotSpeed", 0, 0⟩ ∧
      (∀ r, Emitted m env sw r → r.shot.vel = ⟨env.bz_getBZDBDouble "_shotSpeed", 0, 0⟩) ∧
      (sendShot.vel m sw.tilt sw.dir sw.speed = ⟨0, 0, 0⟩ ↔
        env.bz_getBZDBDouble "_shotSpeed" = 0) ∧
      sw.tilt = 0 ∧ sw.dir = 0 ∧ sw.speed = env.bz_getBZDBDouble "_shotSpeed" := by
  obtain ⟨w', hw, hq⟩ := fireGrenade_delayedShots m env d w b hb
  obtain ⟨-, hsin, hcos, -, -, -⟩ := hm
  have hvel : sendShot.vel m 0 0 (env.bz_getBZDBDouble "_shotSpeed") =
      ⟨env.bz_getBZDBDouble "_shotSpeed", 0, 0⟩ := by
    simp [sendShot.vel, hsin, hcos]
  refine ⟨w', _, _, hw, hq, ?_, rfl, hvel, ?_, ?_, rfl, rfl, rfl⟩
  · intro s hs
    by_cases hbn : fireGrenade.bounces env d.pos (fireGrenade.shotVel m env d b)
    · rw [if_pos hbn, List.mem_singleton] at hs
      rw [hs]
    · rw [if_neg hbn] at hs
      exact absurd hs (List.not_mem_nil _)
  · intro r hr
    rw [hr.2.2.2.1]
    exact hvel
  · rw [hvel]
    constructor
    · intro h
      exact congrArg Vec3.x h
    · intro h
      rw [h]

/-- C9 amended, witness: with `_shotSpeed = 100` the queued `SW` entry has the
velocity `(100, 0, 0)`. -/
theorem fireGrenade_shock_velocity_witness :
    ∃ m : Libm ℝ, m.IsReal ∧
      ∃ w' pre sw, fireGrenade m (demoEnv 0 (some (demoPlayer ⟨0, 0, -25⟩ 0)))
          ⟨7, ⟨0, 0, 50⟩, ⟨3, 4, 0⟩⟩ ⟨0, [], [], none⟩ = some w' ∧
        w'.delayedShots = pre ++ [sw] ∧ sw.flag = some "SW" ∧
        sendShot.vel m sw.tilt sw.dir sw.speed = ⟨100, 0, 0⟩ := by
  obtain ⟨m, hm⟩ : ∃ m : Libm ℝ, m.IsReal := ⟨_, Libm.isReal_real⟩
  obtain ⟨w', pre, sw, h1, h2, -, h4, h5, -, -⟩ :=
    fireGrenade_shock_velocity m hm (demoEnv 0 (some (demoPlayer ⟨0, 0, -25⟩ 0)))
      ⟨7, ⟨0, 0, 50⟩, ⟨3, 4, 0⟩⟩ ⟨0, [], [], none⟩ (demoPlayer ⟨0, 0, -25⟩ 0)
      (by simp [demoEnv])
  exact ⟨m, hm, w', pre, sw, h1, by simpa using h2, h4, by rw [h5]; simp [demoEnv]⟩

/-! ## C10: the owner part of a shot id -/

/-- C10: for an owner `p` in `0..255` and any value of the shot counter, the id
that `getShotID p` returns, divided by 256 as C divides, is `p`; `getKiller`
returns `p` for it when the registry has player `p`. -/
theorem getShotID_owner {G : Type} (p : Int) (hp0 : 0 ≤ p) (hp : p ≤ 255) (w : World G) :
    (getShotID p w).1.tdiv 256 = p ∧ (getShotID p w).1 / 256 = p ∧
    ∀ (env : Env G) (r : bz_BasePlayerRecord G), env.bz_getPlayerByIndex p = some r →
      getKiller env (getShotID p w).1 = p := by
  have h0 : 0 ≤ (w.shotCounter + 1) % 256 := Int.emod_nonneg _ (by norm_num)
  have h1 : (w.shotCounter + 1) % 256 < 256 := Int.emod_lt_of_pos _ (by norm_num)
  have hd : (256 * p + (w.shotCounter + 1) % 256) / 256 = p := by omega
  have ht : (256 * p + (w.shotCounter + 1) % 256).tdiv 256 = p := by
    rw [Int.tdiv_eq_ediv (by omega) (by norm_num), hd]
  refine ⟨ht, hd, ?_⟩
  intro env r hr
  simp only [getKiller, getShotID, ht, hr]

/-- C10, witness: owner 7 with the counter at 255 gets the id `7 * 256 + 0`. -/
theorem getShotID_owner_witness :
    (getShotID 7 (⟨255, [], [], none⟩ : World ℚ)).1 = 1792 ∧
    (getShotID 7 (⟨255, [], [], none⟩ : World ℚ)).1.tdiv 256 = 7 :=
  ⟨by decide, (getShotID_owner 7 (by decide) (by decide) ⟨255, [], [], none⟩).1⟩

/-! ## C11: ids of successive allocations -/

/-- C11, as the claim states it, fails: owner 7 allocates, then owner 8 allocates 255
times, then owner 7 again; the two consecutive shots of owner 7 get the same id. -/
theorem getShotID_per_owner_counterexample :
    (getShotIDs (7 :: List.replicate 255 8 ++ [7]) (⟨0, [], [], none⟩ : World ℚ))[0]? =
      some 1793 ∧
    (getShotIDs (7 :: List.replicate 255 8 ++ [7]) (⟨0, [], [], none⟩ : World ℚ))[256]? =
      some 1793 := by
  have h0 : (7 :: List.replicate 255 8 ++ [7] : List Int)[0]? = some 7 := by
    rw [List.cons_append, List.getElem?_cons_zero]
  have h256 : (7 :: List.replicate 255 8 ++ [7] : List Int)[256]? = some 7 := by
    rw [List.cons_append, List.getElem?_cons_succ,
      List.getElem?_append_right (by rw [List.length_replicate]), List.length_replicate]
    rfl
  constructor
  · rw [getShotIDs_getElem, h0]
    rfl
  · rw [getShotIDs_getElem, h256]
    rfl

/-- C11, amended: the counter of `getShotID` is one counter for all owners.  In a
run of allocations for any mix of owners, two ids issued less than 256
allocations apart (allocations of all owners counted) are distinct; and two
allocations for one owner that are a multiple of 256 allocations apart get the
same id. -/
theorem getShotID_distinct_within_256 {G : Type} (owners : List Int) (w : World G) (j k : Nat)
    (hjk : j < k) (hk : k < owners.length) :
    (k - j < 256 → (getShotIDs owners w)[j]? ≠ (getShotIDs owners w)[k]?) ∧
    (owners[j]? = owners[k]? → (k - j) % 256 = 0 →
      (getShotIDs owners w)[j]? = (getShotIDs owners w)[k]?) := by
  have hj : j < owners.length := lt_trans hjk hk
  rw [getShotIDs_getElem, getShotIDs_getElem, List.getElem?_eq_getElem hj,
    List.getElem?_eq_getElem hk]
  simp only [Option.map_some', ne_eq, Option.some.injEq]
  constructor
  · intro hwin h
    push_cast at h
    omega
  · intro hown hmod
    rw [hown]
    congr 1
    push_cast
    omega

/-- C11 amended, witness: 301 consecutive allocations for owner 7 alone: the 45th
and the 300th id differ, the 1st and the 257th are the same. -/
theorem getShotID_distinct_within_256_witness :
    (getShotIDs (List.replicate 301 7) (⟨0, [], [], none⟩ : World ℚ))[44]? ≠
      (getShotIDs (List.replicate 301 7) (⟨0, [], [], none⟩ : World ℚ))[299]? ∧
    (getShotIDs (List.replicate 301 7) (⟨0, [], [], none⟩ : World ℚ))[0]? =
      (getShotIDs (List.replicate 301 7) (⟨0, [], [], none⟩ : World ℚ))[256]? := by
  have h1 := getShotID_distinct_within_256 (List.replicate 301 7)
    (⟨0, [], [], none⟩ : World ℚ) 44 299 (by decide) (by rw [List.length_replicate]; decide)
  have h2 := getShotID_distinct_within_256 (List.replicate 301 7)
    (⟨0, [], [], none⟩ : World ℚ) 0 256 (by decide) (by rw [List.length_replicate]; decide)
  refine ⟨h1.1 (by decide), h2.2 ?_ (by decide)⟩
  rw [List.getElem?_replicate, List.getElem?_replicate]
  rfl

/-! ## C12: the owner recovered from a shot id -/

/-- C12: for every shot id `s`, `getKiller s` is `s / 256` (C division) when the
registry has a player of that index, and `ServerPlayer` when it has none; it
always returns one of the two. -/
theorem getKiller_spec {G : Type} (env : Env G) (s : Int) :
    ((∃ r, env.bz_getPlayerByIndex (s.tdiv 256) = some r) → getKiller env s = s.tdiv 256) ∧
    (env.bz_getPlayerByIndex (s.tdiv 256) = none → getKiller env s = ServerPlayer) ∧
    (getKiller env s = s.tdiv 256 ∨ getKiller env s = ServerPlayer) ∧
    (0 ≤ s → s.tdiv 256 = s / 256) := by
  refine ⟨?_, ?_, ?_, ?_⟩
  · rintro ⟨r, hr⟩
    simp [getKiller, hr]
  · intro h
    simp [getKiller, h]
  · cases h : env.bz_getPlayerByIndex (s.tdiv 256) with
    | none => right; simp [getKiller, h]
    | some r => left; simp [getKiller, h]
  · intro hs
    exact Int.tdiv_eq_ediv hs (by norm_num)

/-- C12, witness: the id `7 * 256 + 5` gives 7 when player 7 is in the registry,
and `ServerPlayer` (253) when the registry is empty. -/
theorem getKiller_spec_witness :
    getKiller (demoEnv (0 : ℚ) (some (demoPlayer ⟨0, 0, 0⟩ 0))) (7 * 256 + 5) = 7 ∧
    getKiller (demoEnv (0 : ℚ) none) (7 * 256 + 5) = 253 := by
  have h1 := (getKiller_spec (demoEnv (0 : ℚ) (some (demoPlayer ⟨0, 0, 0⟩ 0)))
    (7 * 256 + 5)).1 ⟨demoPlayer ⟨0, 0, 0⟩ 0, by
      have : (7 * 256 + 5 : Int).tdiv 256 = 7 := by decide
      rw [this]; simp [demoEnv]⟩
  have h2 := (getKiller_spec (demoEnv (0 : ℚ) none) (7 * 256 + 5)).2.1 (by simp [demoEnv])
  have e : (7 * 256 + 5 : Int).tdiv 256 = 7 := by decide
  rw [e] at h1
  exact ⟨h1, h2⟩

/-! ## C13: the result of fireShot -/

/-- C13: the function `fireShot` returns -1 and leaves the world as it is (nothing is
broadcast) exactly when the origin is null, the flag name is null, or the flag
name is not in the flag map; in every other case it appends exactly one record
to the broadcast log, with owner tag `ServerPlayer`, the given origin and the
given lifetime, and returns the shot id of that record, which is not -1. -/
theorem fireShot_result (m : Libm F) (env : Env F) (flag : Option String) (lifetime : F)
    (id t : Int) (p : Option (Vec3 F)) (tilt dir speed : F) (w : World F) :
    ((p = none ∨ flag = none ∨ flag.bind env.flagMap = none) →
      fireShot m env flag lifetime id t p tilt dir speed w = (-1, w)) ∧
    (¬ (p = none ∨ flag = none ∨ flag.bind env.flagMap = none) →
      ∃ r pos, p = some pos ∧
        (fireShot m env flag lifetime id t p tilt dir speed w).2.broadcast =
          w.broadcast ++ [r] ∧
        r.shot.player = ServerPlayer ∧ r.shot.pos = pos ∧ r.lifetime = lifetime ∧
        flag.bind env.flagMap = some r.flagType ∧
        (fireShot m env flag lifetime id t p tilt dir speed w).1 = r.shot.id ∧
        (fireShot m env flag lifetime id t p tilt dir speed w).1 ≠ -1) ∧
    ((fireShot m env flag lifetime id t p tilt dir speed w).1 = -1 ↔
      (p = none ∨ flag = none ∨ flag.bind env.flagMap = none)) := by
  have hbad : (p = none ∨ flag = none ∨ flag.bind env.flagMap = none) →
      fireShot m env flag lifetime id t p tilt dir speed w = (-1, w) := by
    rintro (h | h | h)
    · subst h; simp [fireShot]
    · subst h; cases p <;> simp [fireShot]
    · rcases p with _ | pos
      · simp [fireShot]
      rcases flag with _ | name
      · simp [fireShot]
      · have h' : env.flagMap name = none := by simpa using h
        simp [fireShot, h']
  have hgood : ¬ (p = none ∨ flag = none ∨ flag.bind env.flagMap = none) →
      ∃ r pos, p = some pos ∧
        (fireShot m env flag lifetime id t p tilt dir speed w).2.broadcast =
          w.broadcast ++ [r] ∧
        r.shot.player = ServerPlayer ∧ r.shot.pos = pos ∧ r.lifetime = lifetime ∧
        flag.bind env.flagMap = some r.flagType ∧
        (fireShot m env flag lifetime id t p tilt dir speed w).1 = r.shot.id ∧
        (fireShot m env flag lifetime id t p tilt dir speed w).1 ≠ -1 := by
    intro h
    rcases p with _ | pos
    · exact absurd (Or.inl rfl) h
    rcases flag with _ | name
    · exact absurd (Or.inr (Or.inl rfl)) h
    rcases hf : env.flagMap name with _ | type
    · exact absurd (Or.inr (Or.inr (by simpa using hf))) h
    · rw [fireShot_known m env name type _ _ _ _ _ _ _ w hf]
      refine ⟨_, pos, rfl, rfl, rfl, rfl, rfl, by simpa using hf, rfl, ?_⟩
      have h0 : 0 ≤ (w.shotCounter + 1) % 256 := Int.emod_nonneg _ (by norm_num)
      have h1 : 0 ≤ toPlayerId id := Int.emod_nonneg _ (by norm_num)
      show 256 * toPlayerId id + (w.shotCounter + 1) % 256 ≠ -1
      omega
  refine ⟨hbad, hgood, ?_⟩
  constructor
  · intro h
    by_contra hn
    obtain ⟨r, pos, -, -, -, -, -, -, -, hne⟩ := hgood hn
    exact hne h
  · intro h
    rw [hbad h]

/-- C13, witness: with the flags `PZ` and `SW` known, the flag `XX` is rejected with -1 and
no broadcast, and the flag `PZ` for owner 7 is broadcast with the returned id
`7 * 256 + 1`. -/
theorem fireShot_result_witness :
    fireShot demoLibm (demoEnv 0 none) (some "XX") 2 7 1 (some ⟨1, 2, 3⟩) 0 0 100
      ⟨0, [], [], none⟩ = (-1, ⟨0, [], [], none⟩) ∧
    ∃ r, (fireShot demoLibm (demoEnv 0 none) (some "PZ") 2 7 1 (some ⟨1, 2, 3⟩) 0 0 100
        ⟨0, [], [], none⟩).2.broadcast = [r] ∧
      r.shot.player = 253 ∧ r.shot.pos = ⟨1, 2, 3⟩ ∧ r.lifetime = 2 ∧ r.shot.id = 1793 ∧
      (fireShot demoLibm (demoEnv 0 none) (some "PZ") 2 7 1 (some ⟨1, 2, 3⟩) 0 0 100
        ⟨0, [], [], none⟩).1 = 1793 := by
  constructor
  · exact (fireShot_result demoLibm (demoEnv 0 none) (some "XX") 2 7 1 (some ⟨1, 2, 3⟩) 0 0 100
      ⟨0, [], [], none⟩).1 (Or.inr (Or.inr (by simp [demoEnv])))
  · obtain ⟨r, pos, hp, hb, h1, h2, h3, -, h5, -⟩ :=
      (fireShot_result demoLibm (demoEnv 0 none) (some "PZ") 2 7 1 (some ⟨1, 2, 3⟩) 0 0 100
        ⟨0, [], [], none⟩).2.1 (by simp [demoEnv])
    have hid : (fireShot demoLibm (demoEnv 0 none) (some "PZ") 2 7 1 (some ⟨1, 2, 3⟩) 0 0 100
        ⟨0, [], [], none⟩).1 = 1793 := by
      rw [fireShot_known demoLibm (demoEnv 0 none) "PZ" "PZ" _ _ _ _ _ _ _ _
        (by simp [demoEnv])]
      decide
    have hpos : pos = ⟨1, 2, 3⟩ := (Option.some.inj hp).symm
    exact ⟨r, by simpa using hb, h1, by rw [h2, hpos], h3, by rw [← h5, hid], hid⟩

/-! ## C14: a delayed shot submitted with a delay that is not positive -/

/-- C14: the function `fireDelayedShot`, for a flag of the host, always appends an entry made
of its arguments to the queue.  With `delay > 0` it broadcasts nothing.  With
`delay ≤ 0` it broadcasts the record `r1` of the emission at once, and the next
run of `updateDelayedShotQueue` (at any clock reading `now`) removes the entry
and broadcasts, after the records of the entries queued before it, a second
record `r2` of the same emission: same flag type, lifetime, origin, velocity,
team and owner tag as `r1`. -/
theorem fireDelayedShot_double_fire (m : Libm F) (env : Env F) (name : String) (type : FlagType)
    (lifetime : F) (id t : Int) (p : Vec3 F) (tilt dir speed delay : F) (w : World F)
    (hflag : env.flagMap name = some type) :
    (fireDelayedShot m env (some name) lifetime id t p tilt dir speed delay w).delayedShots =
      w.delayedShots ++ [⟨some name, lifetime, t, p, tilt, dir, speed, delay, toPlayerId id⟩] ∧
    (0 < delay →
      (fireDelayedShot m env (some name) lifetime id t p tilt dir speed delay w).broadcast =
        w.broadcast) ∧
    (delay ≤ 0 → ∃ r1,
      (fireDelayedShot m env (some name) lifetime id t p tilt dir speed delay w).broadcast =
        w.broadcast ++ [r1] ∧
      Emitted m env ⟨some name, lifetime, t, p, tilt, dir, speed, delay, toPlayerId id⟩ r1 ∧
      ∀ now : F, ∃ pre r2,
        (updateDelayedShotQueue m { env with currentTime := now }
          (fireDelayedShot m env (some name) lifetime id t p tilt dir speed delay w)).broadcast =
          (fireDelayedShot m env (some name) lifetime id t p tilt dir speed delay w).broadcast ++
            pre ++ [r2] ∧
        Emitted m env ⟨some name, lifetime, t, p, tilt, dir, speed, delay, toPlayerId id⟩ r2 ∧
        r2.flagType = r1.flagType ∧ r2.lifetime = r1.lifetime ∧ r2.shot.pos = r1.shot.pos ∧
        r2.shot.vel = r1.shot.vel ∧ r2.shot.team = r1.shot.team ∧
        r2.shot.player = r1.shot.player ∧
        (updateDelayedShotQueue m { env with currentTime := now }
          (fireDelayedShot m env (some name) lifetime id t p tilt dir speed delay w)).delayedShots =
          (updateDelayedShotQueue m { env with currentTime := now } w).delayedShots) := by
  have hq := fireDelayedShot_delayedShots m env (some name) lifetime id t p tilt dir speed delay w
  refine ⟨hq, fireDelayedShot_broadcast m env _ _ _ _ _ _ _ _ _ w, ?_⟩
  intro hd
  have hid : toPlayerId (toPlayerId id) = toPlayerId id := by
    unfold toPlayerId
    omega
  have hb1 : (fireDelayedShot m env (some name) lifetime id t p tilt dir speed delay w).broadcast =
      (fireShot m env (some name) lifetime (toPlayerId id) t (some p) tilt dir speed
        w).2.broadcast := by
    simp only [fireDelayedShot, hd, if_true]
  have hpt : (fireDelayedShot m env (some name) lifetime id t p tilt dir speed delay w).prevTime =
      w.prevTime := by
    simp only [fireDelayedShot, hd, if_true]
    exact (fireShot_frame m env _ _ _ _ _ _ _ _ w).2
  rw [fireShot_known m env name type _ _ _ _ _ _ _ w hflag] at hb1
  refine ⟨_, hb1, ⟨by simp [hflag], rfl, rfl, rfl, rfl, rfl, (w.shotCounter + 1) % 256,
    Int.emod_nonneg _ (by norm_num), Int.emod_lt_of_pos _ (by norm_num), by rw [hid]⟩, ?_⟩
  intro now
  have hdue : delay - max 0 (now - (fireDelayedShot m env (some name) lifetime id t p tilt dir
      speed delay w).prevTime.getD now) ≤ 0 := by
    have := le_max_left (0 : F) (now - (fireDelayedShot m env (some name) lifetime id t p tilt
      dir speed delay w).prevTime.getD now)
    linarith
  obtain ⟨pre, r2, h2, he2, hk2⟩ := updateDelayedShotQueue_last_due m
    { env with currentTime := now }
    (fireDelayedShot m env (some name) lifetime id t p tilt dir speed delay w) w.delayedShots
    ⟨some name, lifetime, t, p, tilt, dir, speed, delay, toPlayerId id⟩ name type hq rfl hflag
    hdue
  have hkept0 := (updateDelayedShotQueue.loop_kept m { env with currentTime := now }
    (max 0 (now - w.prevTime.getD now)) w.delayedShots { w with prevTime := some now }).1
  have he2' : Emitted m env
      ⟨some name, lifetime, t, p, tilt, dir, speed, delay, toPlayerId id⟩ r2 := he2
  obtain ⟨g1, g2, g3, g4, g5, g6, -⟩ := he2'
  have g1' : r2.flagType = type := by
    have : some type = some r2.flagType := by simpa [hflag] using g1
    exact (Option.some.inj this).symm
  refine ⟨pre, r2, h2, he2, g1', g2, g3, g4, g5, g6, ?_⟩
  rw [hk2, hpt]
  exact hkept0.symm

/-- C14, witness: a shock wave submitted with delay 0 to an empty queue is broadcast at
once and queued; the run of the queue at time 0.1 broadcasts it again, with the
same lifetime, origin and velocity, and leaves the queue empty.  Submitted with
delay 1, it is queued and nothing is broadcast. -/
theorem fireDelayedShot_double_fire_witness :
    (∃ r1 pre r2,
      (fireDelayedShot demoLibm (demoEnv 0 none) (some "SW") 2 7 1 ⟨1, 2, 3⟩ 0 0 100 0
        ⟨0, [], [], some 0⟩).broadcast = [r1] ∧
      (fireDelayedShot demoLibm (demoEnv 0 none) (some "SW") 2 7 1 ⟨1, 2, 3⟩ 0 0 100 0
        ⟨0, [], [], some 0⟩).delayedShots = [⟨some "SW", 2, 1, ⟨1, 2, 3⟩, 0, 0, 100, 0, 7⟩] ∧
      (updateDelayedShotQueue demoLibm { demoEnv 0 none with currentTime := 1 / 10 }
        (fireDelayedShot demoLibm (demoEnv 0 none) (some "SW") 2 7 1 ⟨1, 2, 3⟩ 0 0 100 0
          ⟨0, [], [], some 0⟩)).broadcast = [r1] ++ pre ++ [r2] ∧
      r2.flagType = r1.flagType ∧ r2.lifetime = r1.lifetime ∧ r2.shot.pos = r1.shot.pos ∧
      r2.shot.vel = r1.shot.vel ∧
      (updateDelayedShotQueue demoLibm { demoEnv 0 none with currentTime := 1 / 10 }
        (fireDelayedShot demoLibm (demoEnv 0 none) (some "SW") 2 7 1 ⟨1, 2, 3⟩ 0 0 100 0
          ⟨0, [], [], some 0⟩)).delayedShots = []) ∧
    (fireDelayedShot demoLibm (demoEnv 0 none) (some "SW") 2 7 1 ⟨1, 2, 3⟩ 0 0 100 1
      ⟨0, [], [], some 0⟩).broadcast = [] ∧
    (fireDelayedShot demoLibm (demoEnv 0 none) (some "SW") 2 7 1 ⟨1, 2, 3⟩ 0 0 100 1
      ⟨0, [], [], some 0⟩).delayedShots = [⟨some "SW", 2, 1, ⟨1, 2, 3⟩, 0, 0, 100, 1, 7⟩] := by
  have hf : (demoEnv (0 : ℚ) none).flagMap "SW" = some "SW" := by simp [demoEnv]
  obtain ⟨a1, -, a3⟩ := fireDelayedShot_double_fire demoLibm (demoEnv 0 none) "SW" "SW" 2 7 1
    ⟨1, 2, 3⟩ 0 0 100 0 ⟨0, [], [], some 0⟩ hf
  obtain ⟨b1, b2, -⟩ := fireDelayedShot_double_fire demoLibm (demoEnv 0 none) "SW" "SW" 2 7 1
    ⟨1, 2, 3⟩ 0 0 100 1 ⟨0, [], [], some 0⟩ hf
  obtain ⟨r1, c1, -, c3⟩ := a3 (le_refl 0)
  obtain ⟨pre, r2, d1, -, d3, d4, d5, d6, -, -, d9⟩ := c3 (1 / 10)
  have h7 : toPlayerId 7 = 7 := by decide
  rw [h7] at a1 b1
  refine ⟨⟨r1, pre, r2, by simpa using c1, by simpa using a1, ?_, d3, d4, d5, d6, ?_⟩,
    by simpa using b2 (by norm_num), by simpa using b1⟩
  · rw [d1, c1]
    simp
  · rw [d9]
    simp [updateDelayedShotQueue, updateDelayedShotQueue.loop]

/-! ## C15: the velocity round trip -/

/-- C15: over the reals, for every non-zero velocity `v`, the decomposition of the
vector overloads (`speed = |v|`, `tilt = asin (v.z / speed)`,
`dir = atan2 v.y v.x`) recomposed by the formula of `sendShot` gives `v` back;
so the record that the vector overload of `fireShot` broadcasts carries the
velocity `v`, and the entry that the vector overload of `fireDelayedShot`
enqueues decodes to `v`. -/
theorem fireShot_velocity_roundtrip (m : Libm ℝ) (hm : m.IsReal) (v : Vec3 ℝ)
    (hv : v.x ≠ 0 ∨ v.y ≠ 0 ∨ v.z ≠ 0) :
    sendShot.vel m (m.asin (v.z / m.sqrt (v.x ^ 2 + v.y ^ 2 + v.z ^ 2))) (m.atan2 v.y v.x)
      (m.sqrt (v.x ^ 2 + v.y ^ 2 + v.z ^ 2)) = v ∧
    (∀ (env : Env ℝ) (name : String) (type : FlagType) (lifetime : ℝ) (id t : Int)
      (p : Vec3 ℝ) (w : World ℝ), env.flagMap name = some type →
      ∃ r, (fireShotV m env (some name) lifetime id t (some p) v w).2.broadcast =
          w.broadcast ++ [r] ∧ r.shot.vel = v) ∧
    (∀ (env : Env ℝ) (flag : Option String) (lifetime : ℝ) (id t : Int)
      (p : Vec3 ℝ) (delay : ℝ) (w : World ℝ),
      ∃ s, (fireDelayedShotV m env flag lifetime id t p v delay w).delayedShots =
          w.delayedShots ++ [s] ∧ sendShot.vel m s.tilt s.dir s.speed = v) := by
  have h := sendShot_vel_decompose m hm v hv
  refine ⟨h, ?_, ?_⟩
  · intro env name type lifetime id t p w hflag
    unfold fireShotV
    simp only
    rw [fireShot_known m env name type _ _ _ _ _ _ _ w hflag]
    exact ⟨_, rfl, h⟩
  · intro env flag lifetime id t p delay w
    unfold fireDelayedShotV
    simp only
    rw [fireDelayedShot_delayedShots]
    exact ⟨_, rfl, h⟩

/-- C15, witness: the velocities `(3, 4, 12)` and `(0, 0, -5)` (straight down) are
reproduced. -/
theorem fireShot_velocity_roundtrip_witness :
    ∃ m : Libm ℝ, m.IsReal ∧
      sendShot.vel m (m.asin (12 / m.sqrt (3 ^ 2 + 4 ^ 2 + 12 ^ 2))) (m.atan2 4 3)
        (m.sqrt (3 ^ 2 + 4 ^ 2 + 12 ^ 2)) = ⟨3, 4, 12⟩ ∧
      sendShot.vel m (m.asin (-5 / m.sqrt (0 ^ 2 + 0 ^ 2 + (-5) ^ 2))) (m.atan2 0 0)
        (m.sqrt (0 ^ 2 + 0 ^ 2 + (-5) ^ 2)) = ⟨0, 0, -5⟩ := by
  obtain ⟨m, hm⟩ : ∃ m : Libm ℝ, m.IsReal := ⟨_, Libm.isReal_real⟩
  exact ⟨m, hm, (fireShot_velocity_roundtrip m hm ⟨3, 4, 12⟩ (Or.inl (by norm_num))).1,
    (fireShot_velocity_roundtrip m hm ⟨0, 0, -5⟩ (Or.inr (Or.inr (by norm_num)))).1⟩

/-! ## C16: the range grows with the forward speed -/

/-- C16: with `_grenadeMaxRange ≥ _grenadeMinRange` and `_tankSpeed > 0`, the range of
`fireGrenade` does not decrease when the forward speed grows: for
`0 ≤ s1 ≤ s2`, `range s1 ≤ range s2`; this includes speeds above `_tankSpeed`,
where the range is at least `_grenadeMaxRange` (and above it when the maximum
range is above the minimum range). -/
theorem fireGrenade_range_mono (env : Env F) (s1 s2 : F)
    (hrange : env.bz_getBZDBDouble "_grenadeMinRange" ≤ env.bz_getBZDBDouble "_grenadeMaxRange")
    (htank : 0 < env.bz_getBZDBDouble "_tankSpeed")
    (h1 : 0 ≤ s1) (h12 : s1 ≤ s2) :
    fireGrenade.range env s1 ≤ fireGrenade.range env s2 ∧
    env.bz_getBZDBDouble "_grenadeMinRange" ≤ fireGrenade.range env s1 ∧
    (env.bz_getBZDBDouble "_tankSpeed" ≤ s2 →
      env.bz_getBZDBDouble "_grenadeMaxRange" ≤ fireGrenade.range env s2) ∧
    (env.bz_getBZDBDouble "_tankSpeed" < s2 →
      env.bz_getBZDBDouble "_grenadeMinRange" < env.bz_getBZDBDouble "_grenadeMaxRange" →
      env.bz_getBZDBDouble "_grenadeMaxRange" < fireGrenade.range env s2) := by
  have hd : 0 ≤ env.bz_getBZDBDouble "_grenadeMaxRange" -
      env.bz_getBZDBDouble "_grenadeMinRange" := sub_nonneg.mpr hrange
  have hfull : fireGrenade.range env (env.bz_getBZDBDouble "_tankSpeed") =
      env.bz_getBZDBDouble "_grenadeMaxRange" := by
    simp only [fireGrenade.range]
    field_simp
  have hmono : ∀ a b : F, a ≤ b → fireGrenade.range env a ≤ fireGrenade.range env b := by
    intro a b hab
    simp only [fireGrenade.range]
    have := div_le_div_of_nonneg_right (mul_le_mul_of_nonneg_left hab hd) htank.le
    linarith
  have hstrict : ∀ a b : F, a < b →
      env.bz_getBZDBDouble "_grenadeMinRange" < env.bz_getBZDBDouble "_grenadeMaxRange" →
      fireGrenade.range env a < fireGrenade.range env b := by
    intro a b hab hlt
    simp only [fireGrenade.range]
    have := div_lt_div_of_pos_right (mul_lt_mul_of_pos_left hab (sub_pos.mpr hlt)) htank
    linarith
  have hzero : fireGrenade.range env 0 = env.bz_getBZDBDouble "_grenadeMinRange" := by
    simp [fireGrenade.range]
  refine ⟨hmono s1 s2 h12, ?_, ?_, ?_⟩
  · rw [← hzero]; exact hmono 0 s1 h1
  · intro h; rw [← hfull]; exact hmono _ _ h
  · intro h hlt; rw [← hfull]; exact hstrict _ _ h hlt

/-- C16, witness: with the default configuration (65, 300, tank speed 25) the ranges at
the forward speeds 10, 25 and 50 are 159, 300 and 535. -/
theorem fireGrenade_range_mono_witness :
    fireGrenade.range (demoEnv (0 : ℚ) none) 10 = 159 ∧
    fireGrenade.range (demoEnv (0 : ℚ) none) 25 = 300 ∧
    fireGrenade.range (demoEnv (0 : ℚ) none) 50 = 535 ∧
    fireGrenade.range (demoEnv (0 : ℚ) none) 10 ≤ fireGrenade.range (demoEnv (0 : ℚ) none) 50 ∧
    (300 : ℚ) < fireGrenade.range (demoEnv (0 : ℚ) none) 50 := by
  have h := fireGrenade_range_mono (demoEnv (0 : ℚ) none) 10 50
    (by simp [demoEnv]; norm_num) (by simp [demoEnv]) (by norm_num) (by norm_num)
  have e : ∀ s : ℚ, fireGrenade.range (demoEnv (0 : ℚ) none) s = 65 + (300 - 65) * s / 25 := by
    intro s
    simp [fireGrenade.range, demoEnv]
  refine ⟨by rw [e]; norm_num, by rw [e]; norm_num, by rw [e]; norm_num, h.1, ?_⟩
  have := h.2.2.2 (by simp [demoEnv]; norm_num) (by simp [demoEnv]; norm_num)
  simpa [demoEnv] using this

/-! ## C17: the forward speed -/

/-- C17, as the spec states it, fails in binary32: a tank that faces along `x` and
moves with velocity `(0, 25)` moves at exactly 90 degrees from its facing
direction and has horizontal speed 25, yet its forward speed is 0.  The float
nearest to `π/2`, which `atan2f` returns, is larger than `π/2`, and the double
`M_PI / 2` that it is compared with is smaller than `π/2`. -/
theorem fireGrenade_forward_speed_counterexample :
    fireGrenade.speed sidewaysLibm (demoPlayer ⟨0, 25, 0⟩ 0) = 0 ∧
    sidewaysLibm.sqrt ((0 : ℚ) ^ 2 + 25 ^ 2) = 25 ∧
    fireGrenade.diff sidewaysLibm (demoPlayer ⟨0, 25, 0⟩ 0) = -(13176795 / 8388608) ∧
    sidewaysLibm.pi / 2 < |fireGrenade.diff sidewaysLibm (demoPlayer ⟨0, 25, 0⟩ 0)| ∧
    ((sidewaysLibm.pi / 2 : ℚ) : ℝ) < Real.pi / 2 ∧
    Real.pi / 2 < ((sidewaysLibm.atan2 25 0 : ℚ) : ℝ) ∧
    ((sidewaysLibm.atan2 25 0 : ℚ) : ℝ) - Real.pi / 2 < 1 / 2 ^ 24 := by
  have hd : fireGrenade.diff sidewaysLibm (demoPlayer ⟨0, 25, 0⟩ 0) =
      -(13176795 / 8388608) := by
    simp [fireGrenade.diff, sidewaysLibm, demoPlayer]
  have hlo := Real.pi_gt_d20
  have hhi := Real.pi_lt_d20
  refine ⟨?_, ?_, hd, ?_, ?_, ?_, ?_⟩
  · simp [fireGrenade.speed, sidewaysLibm, demoPlayer]
    norm_num [abs_of_pos]
  · simp [sidewaysLibm]
    norm_num
  · rw [hd]
    simp [sidewaysLibm]
    norm_num [abs_of_pos]
  · simp only [sidewaysLibm]
    push_cast
    linarith
  · simp only [sidewaysLibm]
    norm_num
    linarith
  · simp only [sidewaysLibm]
    norm_num
    linarith

/-- C17, amended: the forward speed that `fireGrenade` uses is never negative, whatever
the math library returns; with a square root that is not negative it is the
horizontal speed unless the computed wrapped angle `diff` exceeds the computed
`M_PI / 2`, and 0 if it does.  With the exact functions of the reals for the
library, `diff` is the angle between the facing direction and the velocity
direction wrapped into `(-π, π]`, and the forward speed is `|velocity_xy|` when
`|diff|` is at most 90 degrees, and 0 when it exceeds 90 degrees or when the
actor has no horizontal velocity.  In terms of the vectors: it is
`|velocity_xy|` when the velocity has a non-negative component along the facing
direction, and 0 when that component is negative. -/
theorem fireGrenade_forward_speed (m : Libm ℝ) (b : bz_BasePlayerRecord ℝ) :
    0 ≤ fireGrenade.speed m b ∧
    (0 ≤ m.sqrt (b.lastKnownState.velocity.x ^ 2 + b.lastKnownState.velocity.y ^ 2) →
      (|fireGrenade.diff m b| ≤ m.pi / 2 → fireGrenade.speed m b =
        m.sqrt (b.lastKnownState.velocity.x ^ 2 + b.lastKnownState.velocity.y ^ 2)) ∧
      (m.pi / 2 < |fireGrenade.diff m b| → fireGrenade.speed m b = 0)) ∧
    (m.IsReal →
      (-Real.pi < fireGrenade.diff m b ∧ fireGrenade.diff m b ≤ Real.pi ∧
        ∃ k : ℤ, fireGrenade.diff m b =
          b.lastKnownState.rotation -
            m.atan2 b.lastKnownState.velocity.y b.lastKnownState.velocity.x +
            k * (2 * Real.pi)) ∧
      (|fireGrenade.diff m b| ≤ Real.pi / 2 → fireGrenade.speed m b =
        Real.sqrt (b.lastKnownState.velocity.x ^ 2 + b.lastKnownState.velocity.y ^ 2)) ∧
      (Real.pi / 2 < |fireGrenade.diff m b| → fireGrenade.speed m b = 0) ∧
      (b.lastKnownState.velocity.x = 0 ∧ b.lastKnownState.velocity.y = 0 →
        fireGrenade.speed m b = 0) ∧
      (0 ≤ Real.cos b.lastKnownState.rotation * b.lastKnownState.velocity.x +
          Real.sin b.lastKnownState.rotation * b.lastKnownState.velocity.y →
        fireGrenade.speed m b =
          Real.sqrt (b.lastKnownState.velocity.x ^ 2 + b.lastKnownState.velocity.y ^ 2)) ∧
      (Real.cos b.lastKnownState.rotation * b.lastKnownState.velocity.x +
          Real.sin b.lastKnownState.rotation * b.lastKnownState.velocity.y < 0 →
        fireGrenade.speed m b = 0)) := by
  refine ⟨fireGrenade.speed_nonneg m b, fireGrenade.speed_cases m b, ?_⟩
  intro hm
  have hsq : m.sqrt = Real.sqrt := hm.1
  have hpi : m.pi = Real.pi := hm.2.2.2.2.2
  have hcos : m.cos = Real.cos := hm.2.2.1
  have hsin : m.sin = Real.sin := hm.2.1
  have hr0 : 0 ≤ m.sqrt (b.lastKnownState.velocity.x ^ 2 + b.lastKnownState.velocity.y ^ 2) := by
    rw [hsq]; exact Real.sqrt_nonneg _
  obtain ⟨c1, c2⟩ := fireGrenade.speed_cases m b hr0
  rw [hpi, hsq] at c1
  rw [hpi] at c2
  obtain ⟨w1, w2, w3, w4⟩ := atan2_sin_cos m hm
    (b.lastKnownState.rotation -
      m.atan2 b.lastKnownState.velocity.y b.lastKnownState.velocity.x)
  have w1' : -Real.pi < fireGrenade.diff m b := w1
  have w2' : fireGrenade.diff m b ≤ Real.pi := w2
  have w4' : |fireGrenade.diff m b| ≤ Real.pi / 2 ↔
      0 ≤ Real.cos (b.lastKnownState.rotation -
        m.atan2 b.lastKnownState.velocity.y b.lastKnownState.velocity.x) := w4
  obtain ⟨a1, a2⟩ := atan2_cos_sin m hm b.lastKnownState.velocity.x b.lastKnownState.velocity.y
  rw [hsq, hcos] at a1
  rw [hsq, hsin] at a2
  have hdot : Real.sqrt (b.lastKnownState.velocity.x ^ 2 + b.lastKnownState.velocity.y ^ 2) *
      Real.cos (b.lastKnownState.rotation -
        m.atan2 b.lastKnownState.velocity.y b.lastKnownState.velocity.x) =
      Real.cos b.lastKnownState.rotation * b.lastKnownState.velocity.x +
        Real.sin b.lastKnownState.rotation * b.lastKnownState.velocity.y := by
    rw [Real.cos_sub]
    linear_combination Real.cos b.lastKnownState.rotation * a1 +
      Real.sin b.lastKnownState.rotation * a2
  have hstat : Real.sqrt (b.lastKnownState.velocity.x ^ 2 +
      b.lastKnownState.velocity.y ^ 2) = 0 → fireGrenade.speed m b = 0 := by
    intro h0
    by_cases h : |fireGrenade.diff m b| ≤ Real.pi / 2
    · rw [c1 h, h0]
    · exact c2 (not_le.mp h)
  have hrr : 0 ≤ Real.sqrt (b.lastKnownState.velocity.x ^ 2 +
      b.lastKnownState.velocity.y ^ 2) := Real.sqrt_nonneg _
  refine ⟨⟨w1', w2', w3⟩, c1, c2, ?_, ?_, ?_⟩
  · rintro ⟨hx, hy⟩
    apply hstat
    rw [hx, hy]
    simp
  · intro hd
    rw [← hdot] at hd
    rcases hrr.eq_or_lt with h0 | hpos
    · rw [hstat h0.symm, ← h0]
    · exact c1 (w4'.mpr (nonneg_of_mul_nonneg_right hd hpos))
  · intro hd
    rw [← hdot] at hd
    apply c2
    by_contra hle
    have hc := w4'.mp (not_lt.mp hle)
    exact absurd (mul_nonneg hrr hc) (not_le.mpr hd)

/-- C17 amended, witness: with the exact functions of the reals, a tank facing along
`x`: moving along `(3, 4)` it has forward speed 5, moving sideways along
`(0, 25)` it has forward speed 25, reversing along `(-25, 0)` it has forward
speed 0, and standing still it has forward speed 0. -/
theorem fireGrenade_forward_speed_witness :
    ∃ m : Libm ℝ, m.IsReal ∧
      fireGrenade.speed m (demoPlayer ⟨3, 4, 0⟩ 0) = 5 ∧
      fireGrenade.speed m (demoPlayer ⟨0, 25, 0⟩ 0) = 25 ∧
      fireGrenade.speed m (demoPlayer ⟨-25, 0, 0⟩ 0) = 0 ∧
      fireGrenade.speed m (demoPlayer ⟨0, 0, 0⟩ 0) = 0 := by
  obtain ⟨m, hm⟩ : ∃ m : Libm ℝ, m.IsReal := ⟨_, Libm.isReal_real⟩
  have h5 : Real.sqrt (3 ^ 2 + 4 ^ 2) = 5 := by
    rw [show (3 : ℝ) ^ 2 + 4 ^ 2 = 5 ^ 2 by norm_num]
    exact Real.sqrt_sq (by norm_num)
  have h25 : Real.sqrt (0 ^ 2 + 25 ^ 2) = 25 := by
    rw [show (0 : ℝ) ^ 2 + 25 ^ 2 = 25 ^ 2 by norm_num]
    exact Real.sqrt_sq (by norm_num)
  have a := ((fireGrenade_forward_speed m (demoPlayer ⟨3, 4, 0⟩ 0)).2.2 hm).2.2.2.2.1
    (by simp [demoPlayer])
  have s := ((fireGrenade_forward_speed m (demoPlayer ⟨0, 25, 0⟩ 0)).2.2 hm).2.2.2.2.1
    (by simp [demoPlayer])
  have b := ((fireGrenade_forward_speed m (demoPlayer ⟨-25, 0, 0⟩ 0)).2.2 hm).2.2.2.2.2
    (by simp [demoPlayer])
  have c := ((fireGrenade_forward_speed m (demoPlayer ⟨0, 0, 0⟩ 0)).2.2 hm).2.2.2.1
    ⟨rfl, rfl⟩
  refine ⟨m, hm, ?_, ?_, b, c⟩
  · rw [a]
    exact h5
  · rw [s]
    exact h25

/-! ## C18: the detonation point stays in the arena -/

/-- C18, as stated, fails in binary32: in an arena of half-width 200 with trigger time
1, a shot from `(-54, 0, 1)` with velocity `(300, 0, 0)` meets the wall `x = 200`
at the rounded time `7102355 / 2^23`, and the detonation point computed from
it has `x = 200 + 2^-16`, beyond the wall. -/
theorem fireGrenade_explodePos_in_arena_counterexample :
    |(-54 : ℚ)| < smallArenaEnv.bz_getBZDBDouble "_worldSize" / 2 ∧
    |(0 : ℚ)| < smallArenaEnv.bz_getBZDBDouble "_worldSize" / 2 ∧
    0 < smallArenaEnv.bz_getBZDBDouble "_grenadeTriggerTime" ∧
    fireGrenade.collisionTimeFl binary32 smallArenaEnv ⟨-54, 0, 1⟩ ⟨300, 0, 0⟩ =
      7102355 / 8388608 ∧
    fireGrenade.explodePosFl binary32 smallArenaEnv ⟨-54, 0, 1⟩ ⟨300, 0, 0⟩ =
      ⟨13107201 / 65536, 0, 1⟩ ∧
    ¬ |(fireGrenade.explodePosFl binary32 smallArenaEnv ⟨-54, 0, 1⟩ ⟨300, 0, 0⟩).x| ≤
      smallArenaEnv.bz_getBZDBDouble "_worldSize" / 2 := by
  have hws : smallArenaEnv.bz_getBZDBDouble "_worldSize" = 400 := by simp [smallArenaEnv]
  have hL : smallArenaEnv.bz_getBZDBDouble "_grenadeTriggerTime" = 1 := by
    simp [smallArenaEnv, demoEnv]
  have b1 : binary32 1 = 1 :=
    binary32_eq _ (0) (8388608) _ (by norm_num) (by norm_num [abs_of_pos])
      (by norm_num [abs_of_pos]) (roundNearestEven_eq _ _ (by norm_num [abs_lt])) (by norm_num)
  have b400 : binary32 400 = 400 :=
    binary32_eq _ (8) (13107200) _ (by norm_num) (by norm_num [abs_of_pos])
      (by norm_num [abs_of_pos]) (roundNearestEven_eq _ _ (by norm_num [abs_lt])) (by norm_num)
  have b200 : binary32 200 = 200 :=
    binary32_eq _ (7) (13107200) _ (by norm_num) (by norm_num [abs_of_pos])
      (by norm_num [abs_of_pos]) (roundNearestEven_eq _ _ (by norm_num [abs_lt])) (by norm_num)
  have b254 : binary32 254 = 254 :=
    binary32_eq _ (7) (16646144) _ (by norm_num) (by norm_num [abs_of_pos])
      (by norm_num [abs_of_pos]) (roundNearestEven_eq _ _ (by norm_num [abs_lt])) (by norm_num)
  have bt1 : binary32 (127 / 150) = (7102355 / 8388608) :=
    binary32_eq _ (-1) (14204710) _ (by norm_num) (by norm_num [abs_of_pos])
      (by norm_num [abs_of_pos]) (roundNearestEven_eq _ _ (by norm_num [abs_lt])) (by norm_num)
  have bm146 : binary32 (-146) = (-146) :=
    binary32_eq _ (7) (-9568256) _ (by norm_num) (by norm_num [abs_of_neg])
      (by norm_num [abs_of_neg]) (roundNearestEven_eq _ _ (by norm_num [abs_lt])) (by norm_num)
  have bt2 : binary32 (-(73 / 150)) = (-(510307 / 1048576)) :=
    binary32_eq _ (-2) (-16329824) _ (by norm_num) (by norm_num [abs_of_neg])
      (by norm_num [abs_of_neg]) (roundNearestEven_eq _ _ (by norm_num [abs_lt])) (by norm_num)
  have bm200 : binary32 (-200) = (-200) :=
    binary32_eq _ (7) (-13107200) _ (by norm_num) (by norm_num [abs_of_neg])
      (by norm_num [abs_of_neg]) (roundNearestEven_eq _ _ (by norm_num [abs_lt])) (by norm_num)
  have bp : binary32 (532676625 / 2097152) = (16646145 / 65536) :=
    binary32_eq _ (7) (16646145) _ (by norm_num) (by norm_num [abs_of_pos])
      (by norm_num [abs_of_pos]) (roundNearestEven_eq _ _ (by norm_num [abs_lt])) (by norm_num)
  have bx : binary32 (13107201 / 65536) = (13107201 / 65536) :=
    binary32_eq _ (7) (13107201) _ (by norm_num) (by norm_num [abs_of_pos])
      (by norm_num [abs_of_pos]) (roundNearestEven_eq _ _ (by norm_num [abs_lt])) (by norm_num)
  have hc : fireGrenade.collisionTimeFl binary32 smallArenaEnv ⟨-54, 0, 1⟩ ⟨300, 0, 0⟩ =
      7102355 / 8388608 := by
    simp only [fireGrenade.collisionTimeFl, hws, hL]
    norm_num [b1, b400, b200, b254, bt1, bm146, bt2, bm200, binary32_zero]
  have hn : ¬ fireGrenade.bouncesFl binary32 smallArenaEnv ⟨-54, 0, 1⟩ ⟨300, 0, 0⟩ := by
    simp [fireGrenade.bouncesFl, fireGrenade.groundCollisionTimeFl, binary32_zero]
  have he : fireGrenade.explodePosFl binary32 smallArenaEnv ⟨-54, 0, 1⟩ ⟨300, 0, 0⟩ =
      ⟨13107201 / 65536, 0, 1⟩ := by
    simp only [fireGrenade.explodePosFl, if_neg hn, hc]
    norm_num [b1, bp, bx, binary32_zero]
  refine ⟨?_, ?_, ?_, hc, he, ?_⟩
  · rw [hws]; norm_num [abs_lt]
  · rw [hws]; norm_num
  · rw [hL]; norm_num
  · rw [he, hws]
    norm_num [abs_of_pos]

/-- C18, amended: in exact arithmetic, that is when no operation of lines 166-212
rounds (`fl` is the identity), and for a shot velocity `vel` of three numbers
(no NaN), if the shot origin lies strictly inside the arena (`|pos.x| < W` and
`|pos.y| < W`, `W` being half of `_worldSize`) and the trigger time is
positive, the detonation point `explodePos` lies inside the closed arena, and
when the boundary-crossing time is smaller than the trigger time it lies on a
wall plane. -/
theorem fireGrenade_explodePos_in_arena (fl : F → F) (hfl : ∀ x, fl x = x) (env : Env F)
    (pos vel : Vec3 F)
    (hx : |pos.x| < env.bz_getBZDBDouble "_worldSize" / 2)
    (hy : |pos.y| < env.bz_getBZDBDouble "_worldSize" / 2)
    (hlife : 0 < env.bz_getBZDBDouble "_grenadeTriggerTime") :
    |(fireGrenade.explodePosFl fl env pos vel).x| ≤ env.bz_getBZDBDouble "_worldSize" / 2 ∧
    |(fireGrenade.explodePosFl fl env pos vel).y| ≤ env.bz_getBZDBDouble "_worldSize" / 2 ∧
    (fireGrenade.collisionTimeFl fl env pos vel < env.bz_getBZDBDouble "_grenadeTriggerTime" →
      |(fireGrenade.explodePosFl fl env pos vel).x| = env.bz_getBZDBDouble "_worldSize" / 2 ∨
      |(fireGrenade.explodePosFl fl env pos vel).y| = env.bz_getBZDBDouble "_worldSize" / 2) := by
  obtain rfl : fl = fun x => x := funext hfl
  rw [fireGrenade.explodePosFl_id, fireGrenade.collisionTimeFl_id]
  obtain ⟨hmem, hL, h1, h2, h3, h4⟩ := fireGrenade.collisionTime_cases env pos vel
  have hpos := fireGrenade.collisionTime_pos env pos vel hlife
  obtain ⟨ex, ey⟩ := fireGrenade.explodePos_xy env pos vel
  have hW : 0 < env.bz_getBZDBDouble "_worldSize" / 2 := lt_of_le_of_lt (abs_nonneg _) hx
  have hne : ∀ a v : F, 0 < a / v → v ≠ 0 := by
    intro a v ha h0
    rw [h0, div_zero] at ha
    exact lt_irrefl _ ha
  refine ⟨?_, ?_, ?_⟩
  · rw [ex]
    exact coordinate_within_walls _ _ _ _ hx hpos h1 h2
  · rw [ey]
    exact coordinate_within_walls _ _ _ _ hy hpos h3 h4
  · intro hlt
    rcases hmem with e | ⟨e, p⟩ | ⟨e, p⟩ | ⟨e, p⟩ | ⟨e, p⟩
    · exact absurd e hlt.ne
    · left
      rw [ex, e, mul_div_cancel₀ _ (hne _ _ p), add_sub_cancel, abs_of_pos hW]
    · left
      rw [ex, e, mul_div_cancel₀ _ (hne _ _ p), add_sub_cancel, abs_neg, abs_of_pos hW]
    · right
      rw [ey, e, mul_div_cancel₀ _ (hne _ _ p), add_sub_cancel, abs_of_pos hW]
    · right
      rw [ey, e, mul_div_cancel₀ _ (hne _ _ p), add_sub_cancel, abs_neg, abs_of_pos hW]

/-- C18 amended, witness: without rounding, half-width 400 and trigger time 1: from
`(390, 0, 1)` with velocity `(39, 52, 0)` the wall `x = 400` is reached at time
`10/39` and the detonation point is `(400, 40/3, 1)`; from `(0, 0, 1)` the
detonation point is `(39, 52, 1)`. -/
theorem fireGrenade_explodePos_in_arena_witness :
    fireGrenade.explodePosFl (fun x => x) (demoEnv (0 : ℚ) none) ⟨390, 0, 1⟩ ⟨39, 52, 0⟩ =
      ⟨400, 40 / 3, 1⟩ ∧
    fireGrenade.explodePosFl (fun x => x) (demoEnv (0 : ℚ) none) ⟨0, 0, 1⟩ ⟨39, 52, 0⟩ =
      ⟨39, 52, 1⟩ ∧
    |(fireGrenade.explodePosFl (fun x => x) (demoEnv (0 : ℚ) none) ⟨390, 0, 1⟩
      ⟨39, 52, 0⟩).x| ≤ 400 ∧
    |(fireGrenade.explodePosFl (fun x => x) (demoEnv (0 : ℚ) none) ⟨390, 0, 1⟩
      ⟨39, 52, 0⟩).y| ≤ 400 := by
  have hc : fireGrenade.collisionTime (demoEnv (0 : ℚ) none) ⟨390, 0, 1⟩ ⟨39, 52, 0⟩ =
      10 / 39 := by
    simp [fireGrenade.collisionTime, demoEnv]
    norm_num
  have hc0 : fireGrenade.collisionTime (demoEnv (0 : ℚ) none) ⟨0, 0, 1⟩ ⟨39, 52, 0⟩ = 1 := by
    simp [fireGrenade.collisionTime, demoEnv]
    norm_num
  have hn : ¬ fireGrenade.bounces (demoEnv (0 : ℚ) none) ⟨390, 0, 1⟩ ⟨39, 52, 0⟩ :=
    fireGrenade.not_bounces_of_z_eq_zero _ _ _ rfl
  have hn0 : ¬ fireGrenade.bounces (demoEnv (0 : ℚ) none) ⟨0, 0, 1⟩ ⟨39, 52, 0⟩ :=
    fireGrenade.not_bounces_of_z_eq_zero _ _ _ rfl
  have h := fireGrenade_explodePos_in_arena (fun x => x) (fun _ => rfl) (demoEnv (0 : ℚ) none)
    ⟨390, 0, 1⟩ ⟨39, 52, 0⟩
    (by simp [demoEnv]; norm_num [abs_lt]) (by simp [demoEnv]) (by simp [demoEnv])
  have hW : (demoEnv (0 : ℚ) none).bz_getBZDBDouble "_worldSize" / 2 = 400 := by
    simp [demoEnv]; norm_num
  rw [hW] at h
  refine ⟨?_, ?_, h.1, h.2.1⟩
  · rw [fireGrenade.explodePosFl_id]
    simp only [fireGrenade.explodePos, if_neg hn, hc]
    norm_num
  · rw [fireGrenade.explodePosFl_id]
    simp only [fireGrenade.explodePos, if_neg hn0, hc0]
    norm_num

/-! ## C19: the detonation point is not below the ground -/

/-- C19, as stated, fails in binary32, with trigger time 1 and half-width 400.  A shot
from `(340, 0, 15)` with velocity `(100, 0, -25)` meets the wall and the ground
at the same rounded time `5033165 / 2^23`, takes the branch without bounce, and
its detonation point has `z = -2^-20`, below the ground.  A shot from
`(0, 0, 1/8)` with velocity `(39, 52, -41/8)` bounces, and its bounce point
has `z = 2^-27`, not 0. -/
theorem fireGrenade_explodePos_above_ground_counterexample :
    (0 : ℚ) < 15 ∧ 0 < (demoEnv (0 : ℚ) none).bz_getBZDBDouble "_grenadeTriggerTime" ∧
    (fireGrenade.explodePosFl binary32 (demoEnv (0 : ℚ) none) ⟨340, 0, 15⟩ ⟨100, 0, -25⟩).z =
      -(1 / 1048576) ∧
    ¬ 0 ≤ (fireGrenade.explodePosFl binary32 (demoEnv (0 : ℚ) none)
      ⟨340, 0, 15⟩ ⟨100, 0, -25⟩).z ∧
    fireGrenade.bouncesFl binary32 (demoEnv (0 : ℚ) none) ⟨0, 0, 1 / 8⟩ ⟨39, 52, -(41 / 8)⟩ ∧
    (fireGrenade.groundposFl binary32 ⟨0, 0, 1 / 8⟩ ⟨39, 52, -(41 / 8)⟩).z = 1 / 134217728 := by
  have hws : (demoEnv (0 : ℚ) none).bz_getBZDBDouble "_worldSize" = 800 := by simp [demoEnv]
  have hL : (demoEnv (0 : ℚ) none).bz_getBZDBDouble "_grenadeTriggerTime" = 1 := by
    simp [demoEnv]
  have b1 : binary32 1 = 1 :=
    binary32_eq _ (0) (8388608) _ (by norm_num) (by norm_num [abs_of_pos])
      (by norm_num [abs_of_pos]) (roundNearestEven_eq _ _ (by norm_num [abs_lt])) (by norm_num)
  have b800 : binary32 800 = 800 :=
    binary32_eq _ (9) (13107200) _ (by norm_num) (by norm_num [abs_of_pos])
      (by norm_num [abs_of_pos]) (roundNearestEven_eq _ _ (by norm_num [abs_lt])) (by norm_num)
  have b400 : binary32 400 = 400 :=
    binary32_eq _ (8) (13107200) _ (by norm_num) (by norm_num [abs_of_pos])
      (by norm_num [abs_of_pos]) (roundNearestEven_eq _ _ (by norm_num [abs_lt])) (by norm_num)
  have b60 : binary32 60 = 60 :=
    binary32_eq _ (5) (15728640) _ (by norm_num) (by norm_num [abs_of_pos])
      (by norm_num [abs_of_pos]) (roundNearestEven_eq _ _ (by norm_num [abs_lt])) (by norm_num)
  have bt1 : binary32 (3 / 5) = (5033165 / 8388608) :=
    binary32_eq _ (-1) (10066330) _ (by norm_num) (by norm_num [abs_of_pos])
      (by norm_num [abs_of_pos]) (roundNearestEven_eq _ _ (by norm_num [abs_lt])) (by norm_num)
  have bm740 : binary32 (-740) = (-740) :=
    binary32_eq _ (9) (-12124160) _ (by norm_num) (by norm_num [abs_of_neg])
      (by norm_num [abs_of_neg]) (roundNearestEven_eq _ _ (by norm_num [abs_lt])) (by norm_num)
  have bt2 : binary32 (-(37 / 5)) = (-(15518925 / 2097152)) :=
    binary32_eq _ (2) (-15518925) _ (by norm_num) (by norm_num [abs_of_neg])
      (by norm_num [abs_of_neg]) (roundNearestEven_eq _ _ (by norm_num [abs_lt])) (by norm_num)
  have bm400 : binary32 (-400) = (-400) :=
    binary32_eq _ (8) (-13107200) _ (by norm_num) (by norm_num [abs_of_neg])
      (by norm_num [abs_of_neg]) (roundNearestEven_eq _ _ (by norm_num [abs_lt])) (by norm_num)
  have bpx : binary32 (125829125 / 2097152) = (15728641 / 262144) :=
    binary32_eq _ (5) (15728641) _ (by norm_num) (by norm_num [abs_of_pos])
      (by norm_num [abs_of_pos]) (roundNearestEven_eq _ _ (by norm_num [abs_lt])) (by norm_num)
  have bx : binary32 (104857601 / 262144) = 400 :=
    binary32_eq _ (8) (13107200) _ (by norm_num) (by norm_num [abs_of_pos])
      (by norm_num [abs_of_pos]) (roundNearestEven_eq _ _ (by norm_num [abs_lt])) (by norm_num)
  have bpz : binary32 (-(125829125 / 8388608)) = (-(15728641 / 1048576)) :=
    binary32_eq _ (3) (-15728641) _ (by norm_num) (by norm_num [abs_of_neg])
      (by norm_num [abs_of_neg]) (roundNearestEven_eq _ _ (by norm_num [abs_lt])) (by norm_num)
  have bz : binary32 (-(1 / 1048576)) = (-(1 / 1048576)) :=
    binary32_eq _ (-20) (-8388608) _ (by norm_num) (by norm_num [abs_of_neg])
      (by norm_num [abs_of_neg]) (roundNearestEven_eq _ _ (by norm_num [abs_lt])) (by norm_num)
  have hc : fireGrenade.collisionTimeFl binary32 (demoEnv (0 : ℚ) none) ⟨340, 0, 15⟩
      ⟨100, 0, -25⟩ = 5033165 / 8388608 := by
    simp only [fireGrenade.collisionTimeFl, hws, hL]
    norm_num [b1, b800, b400, b60, bt1, bm740, bt2, bm400, bpx, bx, bpz, bz, binary32_zero]
  have hg : fireGrenade.groundCollisionTimeFl binary32 (⟨340, 0, 15⟩ : Vec3 ℚ) ⟨100, 0, -25⟩ =
      5033165 / 8388608 := by
    simp only [fireGrenade.groundCollisionTimeFl]
    norm_num [bt1]
  have hn : ¬ fireGrenade.bouncesFl binary32 (demoEnv (0 : ℚ) none) ⟨340, 0, 15⟩
      ⟨100, 0, -25⟩ := by
    unfold fireGrenade.bouncesFl
    rw [hc, hg]
    norm_num
  have he : (fireGrenade.explodePosFl binary32 (demoEnv (0 : ℚ) none) ⟨340, 0, 15⟩
      ⟨100, 0, -25⟩).z = -(1 / 1048576) := by
    simp only [fireGrenade.explodePosFl, if_neg hn, hc]
    norm_num [bpz, bz]
  have c1 : binary32 1 = 1 :=
    binary32_eq _ (0) (8388608) _ (by norm_num) (by norm_num [abs_of_pos])
      (by norm_num [abs_of_pos]) (roundNearestEven_eq _ _ (by norm_num [abs_lt])) (by norm_num)
  have c800 : binary32 800 = 800 :=
    binary32_eq _ (9) (13107200) _ (by norm_num) (by norm_num [abs_of_pos])
      (by norm_num [abs_of_pos]) (roundNearestEven_eq _ _ (by norm_num [abs_lt])) (by norm_num)
  have c400 : binary32 400 = 400 :=
    binary32_eq _ (8) (13107200) _ (by norm_num) (by norm_num [abs_of_pos])
      (by norm_num [abs_of_pos]) (roundNearestEven_eq _ _ (by norm_num [abs_lt])) (by norm_num)
  have ct1 : binary32 (400 / 39) = (5377313 / 524288) :=
    binary32_eq _ (3) (10754626) _ (by norm_num) (by norm_num [abs_of_pos])
      (by norm_num [abs_of_pos]) (roundNearestEven_eq _ _ (by norm_num [abs_lt])) (by norm_num)
  have cm400 : binary32 (-400) = (-400) :=
    binary32_eq _ (8) (-13107200) _ (by norm_num) (by norm_num [abs_of_neg])
      (by norm_num [abs_of_neg]) (roundNearestEven_eq _ _ (by norm_num [abs_lt])) (by norm_num)
  have ct2 : binary32 (-(400 / 39)) = (-(5377313 / 524288)) :=
    binary32_eq _ (3) (-10754626) _ (by norm_num) (by norm_num [abs_of_neg])
      (by norm_num [abs_of_neg]) (roundNearestEven_eq _ _ (by norm_num [abs_lt])) (by norm_num)
  have ct3 : binary32 (100 / 13) = (8065969 / 1048576) :=
    binary32_eq _ (2) (16131938) _ (by norm_num) (by norm_num [abs_of_pos])
      (by norm_num [abs_of_pos]) (roundNearestEven_eq _ _ (by norm_num [abs_lt])) (by norm_num)
  have ct4 : binary32 (-(100 / 13)) = (-(8065969 / 1048576)) :=
    binary32_eq _ (2) (-16131938) _ (by norm_num) (by norm_num [abs_of_neg])
      (by norm_num [abs_of_neg]) (roundNearestEven_eq _ _ (by norm_num [abs_lt])) (by norm_num)
  have ctg : binary32 (1 / 41) = (3273603 / 134217728) :=
    binary32_eq _ (-6) (13094412) _ (by norm_num) (by norm_num [abs_of_pos])
      (by norm_num [abs_of_pos]) (roundNearestEven_eq _ _ (by norm_num [abs_lt])) (by norm_num)
  have cp : binary32 (-(134217723 / 1073741824)) = (-(16777215 / 134217728)) :=
    binary32_eq _ (-4) (-16777215) _ (by norm_num) (by norm_num [abs_of_neg])
      (by norm_num [abs_of_neg]) (roundNearestEven_eq _ _ (by norm_num [abs_lt])) (by norm_num)
  have cg : binary32 (1 / 134217728) = (1 / 134217728) :=
    binary32_eq _ (-27) (8388608) _ (by norm_num) (by norm_num [abs_of_pos])
      (by norm_num [abs_of_pos]) (roundNearestEven_eq _ _ (by norm_num [abs_lt])) (by norm_num)
  have hc2 : fireGrenade.collisionTimeFl binary32 (demoEnv (0 : ℚ) none) ⟨0, 0, 1 / 8⟩
      ⟨39, 52, -(41 / 8)⟩ = 1 := by
    simp only [fireGrenade.collisionTimeFl, hws, hL]
    norm_num [c1, c800, c400, ct1, cm400, ct2, ct3, ct4, ctg, cp, cg, binary32_zero]
  have hg2 : fireGrenade.groundCollisionTimeFl binary32 (⟨0, 0, 1 / 8⟩ : Vec3 ℚ)
      ⟨39, 52, -(41 / 8)⟩ = 3273603 / 134217728 := by
    simp only [fireGrenade.groundCollisionTimeFl]
    norm_num [ctg]
  have hb2 : fireGrenade.bouncesFl binary32 (demoEnv (0 : ℚ) none) ⟨0, 0, 1 / 8⟩
      ⟨39, 52, -(41 / 8)⟩ := by
    unfold fireGrenade.bouncesFl
    rw [hc2, hg2]
    norm_num
  have hz2 : (fireGrenade.groundposFl binary32 ⟨0, 0, 1 / 8⟩ ⟨39, 52, -(41 / 8)⟩).z =
      1 / 134217728 := by
    simp only [fireGrenade.groundposFl, hg2]
    norm_num [cp, cg]
  refine ⟨by norm_num, ?_, he, ?_, hb2, hz2⟩
  · rw [hL]; norm_num
  · rw [he]; norm_num

/-- C19, amended: in exact arithmetic, that is when no operation of lines 166-212
rounds (`fl` is the identity), if the shot origin is above the ground
(`pos.z > 0`) and the trigger time is positive, the detonation point
`explodePos` is not below the ground, in the bounce branch and in the other
one; in the bounce branch the shot falls (`vel.z < 0`), the bounce point
`groundpos` has `z = 0` and the detonation height is `|vel.z| * (tc - tg)`. -/
theorem fireGrenade_explodePos_above_ground (fl : F → F) (hfl : ∀ x, fl x = x) (env : Env F)
    (pos vel : Vec3 F)
    (hz : 0 < pos.z) (hlife : 0 < env.bz_getBZDBDouble "_grenadeTriggerTime") :
    0 ≤ (fireGrenade.explodePosFl fl env pos vel).z ∧
    (fireGrenade.bouncesFl fl env pos vel →
      vel.z < 0 ∧ (fireGrenade.groundposFl fl pos vel).z = 0 ∧
      (fireGrenade.explodePosFl fl env pos vel).z =
        |vel.z| * (fireGrenade.collisionTimeFl fl env pos vel -
          fireGrenade.groundCollisionTimeFl fl pos vel)) ∧
    (¬ fireGrenade.bouncesFl fl env pos vel →
      (fireGrenade.explodePosFl fl env pos vel).z =
        pos.z + vel.z * fireGrenade.collisionTimeFl fl env pos vel) := by
  obtain rfl : fl = fun x => x := funext hfl
  rw [fireGrenade.explodePosFl_id, fireGrenade.collisionTimeFl_id,
    fireGrenade.groundCollisionTimeFl_id, fireGrenade.groundposFl_id,
    fireGrenade.bouncesFl_id]
  have hpos := fireGrenade.collisionTime_pos env pos vel hlife
  have hb : fireGrenade.bounces env pos vel →
      vel.z < 0 ∧ (fireGrenade.groundpos pos vel).z = 0 ∧
      (fireGrenade.explodePos env pos vel).z =
        |vel.z| * (fireGrenade.collisionTime env pos vel -
          fireGrenade.groundCollisionTime pos vel) := by
    intro hbn
    have htg : 0 < -pos.z / vel.z := hbn.1
    have hv : vel.z < 0 := by
      by_contra hn
      have h0 : 0 ≤ vel.z := not_lt.mp hn
      have : -pos.z / vel.z ≤ 0 := div_nonpos_of_nonpos_of_nonneg (by linarith) h0
      linarith
    have hg : (fireGrenade.groundpos pos vel).z = 0 := by
      simp only [fireGrenade.groundpos, fireGrenade.groundCollisionTime]
      rw [mul_div_cancel₀ _ hv.ne]
      ring
    refine ⟨hv, hg, ?_⟩
    simp only [fireGrenade.explodePos, if_pos hbn, hg, fireGrenade.bouncevel, abs_of_neg hv]
    ring
  have hnb : ¬ fireGrenade.bounces env pos vel →
      (fireGrenade.explodePos env pos vel).z =
        pos.z + vel.z * fireGrenade.collisionTime env pos vel := by
    intro hbn
    simp only [fireGrenade.explodePos, if_neg hbn]
  refine ⟨?_, hb, hnb⟩
  by_cases hbn : fireGrenade.bounces env pos vel
  · obtain ⟨-, -, he⟩ := hb hbn
    rw [he]
    exact mul_nonneg (abs_nonneg _) (sub_nonneg.mpr hbn.2.le)
  · rw [hnb hbn]
    rcases lt_or_le vel.z 0 with hv | hv
    · have htg : 0 < -pos.z / vel.z := div_pos_of_neg_of_neg (by linarith) hv
      have hle : fireGrenade.collisionTime env pos vel ≤ -pos.z / vel.z := by
        by_contra hn
        exact hbn ⟨htg, not_le.mp hn⟩
      have hmul : vel.z * (-pos.z / vel.z) ≤ vel.z * fireGrenade.collisionTime env pos vel :=
        mul_le_mul_of_nonpos_left hle hv.le
      rw [mul_div_cancel₀ _ hv.ne] at hmul
      linarith
    · have : 0 ≤ vel.z * fireGrenade.collisionTime env pos vel := mul_nonneg hv hpos.le
      linarith

/-- C19 amended, witness: without rounding, trigger time 1 and no wall in reach,
vertical velocity -25: from height 10 the shot bounces at time 0.4 and
detonates at height 15; from height 50 it does not bounce and detonates at
height 25. -/
theorem fireGrenade_explodePos_above_ground_witness :
    fireGrenade.bouncesFl (fun x => x) (demoEnv (0 : ℚ) none) ⟨0, 0, 10⟩ ⟨39, 52, -25⟩ ∧
    (fireGrenade.groundposFl (fun x => x) (⟨0, 0, 10⟩ : Vec3 ℚ) ⟨39, 52, -25⟩).z = 0 ∧
    (fireGrenade.explodePosFl (fun x => x) (demoEnv (0 : ℚ) none) ⟨0, 0, 10⟩
      ⟨39, 52, -25⟩).z = 15 ∧
    ¬ fireGrenade.bouncesFl (fun x => x) (demoEnv (0 : ℚ) none) ⟨0, 0, 50⟩ ⟨39, 52, -25⟩ ∧
    (fireGrenade.explodePosFl (fun x => x) (demoEnv (0 : ℚ) none) ⟨0, 0, 50⟩
      ⟨39, 52, -25⟩).z = 25 := by
  have hc : ∀ z : ℚ, fireGrenade.collisionTimeFl (fun x => x) (demoEnv (0 : ℚ) none) ⟨0, 0, z⟩
      ⟨39, 52, -25⟩ = 1 := by
    intro z
    simp [fireGrenade.collisionTimeFl, demoEnv]
    norm_num
  have hb : fireGrenade.bouncesFl (fun x => x) (demoEnv (0 : ℚ) none) ⟨0, 0, 10⟩
      ⟨39, 52, -25⟩ := by
    unfold fireGrenade.bouncesFl
    rw [hc]
    norm_num [fireGrenade.groundCollisionTimeFl]
  have hn : ¬ fireGrenade.bouncesFl (fun x => x) (demoEnv (0 : ℚ) none) ⟨0, 0, 50⟩
      ⟨39, 52, -25⟩ := by
    unfold fireGrenade.bouncesFl
    rw [hc]
    norm_num [fireGrenade.groundCollisionTimeFl]
  have h1 := (fireGrenade_explodePos_above_ground (fun x => x) (fun _ => rfl)
    (demoEnv (0 : ℚ) none) ⟨0, 0, 10⟩ ⟨39, 52, -25⟩ (by norm_num) (by simp [demoEnv])).2.1 hb
  have h2 := (fireGrenade_explodePos_above_ground (fun x => x) (fun _ => rfl)
    (demoEnv (0 : ℚ) none) ⟨0, 0, 50⟩ ⟨39, 52, -25⟩ (by norm_num) (by simp [demoEnv])).2.2 hn
  rw [hc] at h1 h2
  refine ⟨hb, h1.2.1, ?_, hn, ?_⟩
  · rw [h1.2.2]
    norm_num [fireGrenade.groundCollisionTimeFl]
  · rw [h2]
    norm_num

/-! ## C20: the delays of the entries of the fire handler -/

/-- C20, as stated, fails in binary32, with trigger time 1 and half-width 400: a shot
from `(380, 0, 1)` with velocity `(100, 0, -25)` meets the wall at the rounded
time `tc = 13421773 / 2^26` and the ground at the rounded time
`tg = 5368709 / 2^27`; it bounces, and the lifetime passed for the bounce
continuation is the rounded difference `5368709 / 2^25`.  The delay `tg` plus
this lifetime is `tc - 2^-27`, and the float nearest to that sum is not `tc` either. -/
theorem fireGrenade_delays_positive_counterexample :
    0 < (demoEnv (0 : ℚ) none).bz_getBZDBDouble "_grenadeTriggerTime" ∧
    fireGrenade.bouncesFl binary32 (demoEnv (0 : ℚ) none) ⟨380, 0, 1⟩ ⟨100, 0, -25⟩ ∧
    fireGrenade.groundCollisionTimeFl binary32 (⟨380, 0, 1⟩ : Vec3 ℚ) ⟨100, 0, -25⟩ =
      5368709 / 134217728 ∧
    fireGrenade.bounceLifetimeFl binary32 (demoEnv (0 : ℚ) none) ⟨380, 0, 1⟩ ⟨100, 0, -25⟩ =
      5368709 / 33554432 ∧
    fireGrenade.collisionTimeFl binary32 (demoEnv (0 : ℚ) none) ⟨380, 0, 1⟩
      ⟨100, 0, -25⟩ = 13421773 / 67108864 ∧
    fireGrenade.groundCollisionTimeFl binary32 (⟨380, 0, 1⟩ : Vec3 ℚ) ⟨100, 0, -25⟩ +
        fireGrenade.bounceLifetimeFl binary32 (demoEnv (0 : ℚ) none) ⟨380, 0, 1⟩
          ⟨100, 0, -25⟩ ≠
      fireGrenade.collisionTimeFl binary32 (demoEnv (0 : ℚ) none) ⟨380, 0, 1⟩
        ⟨100, 0, -25⟩ ∧
    binary32
        (fireGrenade.groundCollisionTimeFl binary32 (⟨380, 0, 1⟩ : Vec3 ℚ) ⟨100, 0, -25⟩ +
          fireGrenade.bounceLifetimeFl binary32 (demoEnv (0 : ℚ) none) ⟨380, 0, 1⟩
            ⟨100, 0, -25⟩) ≠
      fireGrenade.collisionTimeFl binary32 (demoEnv (0 : ℚ) none) ⟨380, 0, 1⟩
        ⟨100, 0, -25⟩ := by
  have hws : (demoEnv (0 : ℚ) none).bz_getBZDBDouble "_worldSize" = 800 := by simp [demoEnv]
  have hL : (demoEnv (0 : ℚ) none).bz_getBZDBDouble "_grenadeTriggerTime" = 1 := by
    simp [demoEnv]
  have b1 : binary32 1 = 1 :=
    binary32_eq _ (0) (8388608) _ (by norm_num) (by norm_num [abs_of_pos])
      (by norm_num [abs_of_pos]) (roundNearestEven_eq _ _ (by norm_num [abs_lt])) (by norm_num)
  have b800 : binary32 800 = 800 :=
    binary32_eq _ (9) (13107200) _ (by norm_num) (by norm_num [abs_of_pos])
      (by norm_num [abs_of_pos]) (roundNearestEven_eq _ _ (by norm_num [abs_lt])) (by norm_num)
  have b400 : binary32 400 = 400 :=
    binary32_eq _ (8) (13107200) _ (by norm_num) (by norm_num [abs_of_pos])
      (by norm_num [abs_of_pos]) (roundNearestEven_eq _ _ (by norm_num [abs_lt])) (by norm_num)
  have b20 : binary32 20 = 20 :=
    binary32_eq _ (4) (10485760) _ (by norm_num) (by norm_num [abs_of_pos])
      (by norm_num [abs_of_pos]) (roundNearestEven_eq _ _ (by norm_num [abs_lt])) (by norm_num)
  have bt1 : binary32 (1 / 5) = (13421773 / 67108864) :=
    binary32_eq _ (-3) (13421773) _ (by norm_num) (by norm_num [abs_of_pos])
      (by norm_num [abs_of_pos]) (roundNearestEven_eq _ _ (by norm_num [abs_lt])) (by norm_num)
  have bm780 : binary32 (-780) = (-780) :=
    binary32_eq _ (9) (-12779520) _ (by norm_num) (by norm_num [abs_of_neg])
      (by norm_num [abs_of_neg]) (roundNearestEven_eq _ _ (by norm_num [abs_lt])) (by norm_num)
  have bt2 : binary32 (-(39 / 5)) = (-(8178893 / 1048576)) :=
    binary32_eq _ (2) (-16357786) _ (by norm_num) (by norm_num [abs_of_neg])
      (by norm_num [abs_of_neg]) (roundNearestEven_eq _ _ (by norm_num [abs_lt])) (by norm_num)
  have bm400 : binary32 (-400) = (-400) :=
    binary32_eq _ (8) (-13107200) _ (by norm_num) (by norm_num [abs_of_neg])
      (by norm_num [abs_of_neg]) (roundNearestEven_eq _ _ (by norm_num [abs_lt])) (by norm_num)
  have btg : binary32 (1 / 25) = (5368709 / 134217728) :=
    binary32_eq _ (-5) (10737418) _ (by norm_num) (by norm_num [abs_of_pos])
      (by norm_num [abs_of_pos]) (roundNearestEven_eq _ _ (by norm_num [abs_lt])) (by norm_num)
  have bl : binary32 (21474837 / 134217728) = (5368709 / 33554432) :=
    binary32_eq _ (-3) (10737418) _ (by norm_num) (by norm_num [abs_of_pos])
      (by norm_num [abs_of_pos])
      (roundNearestEven_half_even _ (10737418) (by norm_num) (by norm_num)) (by norm_num)
  have bs : binary32 (26843545 / 134217728) = (3355443 / 16777216) :=
    binary32_eq _ (-3) (13421772) _ (by norm_num) (by norm_num [abs_of_pos])
      (by norm_num [abs_of_pos])
      (roundNearestEven_half_even _ (13421772) (by norm_num) (by norm_num)) (by norm_num)
  have hc : fireGrenade.collisionTimeFl binary32 (demoEnv (0 : ℚ) none) ⟨380, 0, 1⟩
      ⟨100, 0, -25⟩ = 13421773 / 67108864 := by
    simp only [fireGrenade.collisionTimeFl, hws, hL]
    norm_num [b1, b800, b400, b20, bt1, bm780, bt2, bm400, btg, bl, bs, binary32_zero]
  have hg : fireGrenade.groundCollisionTimeFl binary32 (⟨380, 0, 1⟩ : Vec3 ℚ)
      ⟨100, 0, -25⟩ = 5368709 / 134217728 := by
    simp only [fireGrenade.groundCollisionTimeFl]
    norm_num [btg]
  have hb : fireGrenade.bouncesFl binary32 (demoEnv (0 : ℚ) none) ⟨380, 0, 1⟩
      ⟨100, 0, -25⟩ := by
    unfold fireGrenade.bouncesFl
    rw [hc, hg]
    norm_num
  have hl : fireGrenade.bounceLifetimeFl binary32 (demoEnv (0 : ℚ) none) ⟨380, 0, 1⟩
      ⟨100, 0, -25⟩ = 5368709 / 33554432 := by
    unfold fireGrenade.bounceLifetimeFl
    rw [hc, hg]
    norm_num [bl]
  refine ⟨?_, hb, hg, hl, hc, ?_, ?_⟩
  · rw [hL]; norm_num
  · rw [hg, hl, hc]; norm_num
  · rw [hg, hl, hc]; norm_num [bs]

/-- C20, amended: if `_grenadeTriggerTime > 0`, every entry that `fireGrenade` appends
to the queue has a strictly positive delay, so that `fireDelayedShot` fires
none of them at once (the broadcast log is the one after the primary shot: one
record when `PZ` is a flag of the host), and the bounce continuation has a
strictly positive lifetime.  That lifetime is the difference `tc - tg` of the
delay of the detonation entry and its own delay: in exact arithmetic, where
the difference is not rounded, its delay plus its lifetime is the delay of the
detonation entry. -/
theorem fireGrenade_delays_positive (m : Libm F) (env : Env F) (d : bz_ShotFiredEventData_V1 F)
    (w : World F) (b : bz_BasePlayerRecord F)
    (hb : env.bz_getPlayerByIndex d.playerID = some b)
    (hlife : 0 < env.bz_getBZDBDouble "_grenadeTriggerTime") :
    ∃ w' added, fireGrenade m env d w = some w' ∧
      w'.delayedShots = w.delayedShots ++ added ∧
      (∀ s ∈ added, 0 < s.delay) ∧
      (fireGrenade.bounces env d.pos (fireGrenade.shotVel m env d b) →
        ∃ pz sw, added = [pz, sw] ∧ pz.flag = some "PZ" ∧ sw.flag = some "SW" ∧
          0 < pz.lifetime ∧ pz.delay + pz.lifetime = sw.delay ∧
          pz.delay = fireGrenade.groundCollisionTimeFl (fun x => x) d.pos
            (fireGrenade.shotVel m env d b) ∧
          pz.lifetime = fireGrenade.bounceLifetimeFl (fun x => x) env d.pos
            (fireGrenade.shotVel m env d b) ∧
          sw.delay = fireGrenade.collisionTimeFl (fun x => x) env d.pos
            (fireGrenade.shotVel m env d b)) ∧
      (¬ fireGrenade.bounces env d.pos (fireGrenade.shotVel m env d b) →
        ∃ sw, added = [sw] ∧ sw.flag = some "SW") ∧
      (∀ pz, env.flagMap "PZ" = some pz →
        ∃ primary, w'.broadcast = w.broadcast ++ [primary] ∧ primary.flagType = pz) ∧
      w'.broadcast = (fireShotV m env (some "PZ")
        (fireGrenade.collisionTime env d.pos (fireGrenade.shotVel m env d b)) d.playerID
        (env.bz_getPlayerTeam d.playerID) (some d.pos) (fireGrenade.shotVel m env d b)
        w).2.broadcast := by
  have hpos := fireGrenade.collisionTime_pos env d.pos (fireGrenade.shotVel m env d b) hlife
  obtain ⟨w', hw, hq⟩ := fireGrenade_delayedShots m env d w b hb
  rw [List.append_assoc] at hq
  refine ⟨w', _, hw, hq, ?_, ?_, ?_, ?_, ?_⟩
  · intro s hs
    by_cases hbn : fireGrenade.bounces env d.pos (fireGrenade.shotVel m env d b)
    · rw [if_pos hbn] at hs
      simp only [List.singleton_append, List.mem_cons, List.mem_singleton,
        List.not_mem_nil, or_false] at hs
      rcases hs with hs | hs
      · rw [hs]; exact hbn.1
      · rw [hs]; exact hpos
    · rw [if_neg hbn] at hs
      simp only [List.nil_append, List.mem_singleton] at hs
      rw [hs]; exact hpos
  · intro hbn
    rw [if_pos hbn, if_pos hbn]
    refine ⟨_, _, rfl, rfl, rfl, ?_, ?_, rfl, rfl, rfl⟩
    · exact sub_pos.mpr hbn.2
    · show fireGrenade.groundCollisionTime d.pos (fireGrenade.shotVel m env d b) +
        (fireGrenade.collisionTime env d.pos (fireGrenade.shotVel m env d b) -
          fireGrenade.groundCollisionTime d.pos (fireGrenade.shotVel m env d b)) =
        fireGrenade.collisionTime env d.pos (fireGrenade.shotVel m env d b)
      ring
  · intro hbn
    rw [if_neg hbn, if_neg hbn]
    exact ⟨_, rfl, rfl⟩
  · intro pz hpz
    obtain ⟨w'', rest, hw'', hbr, hrest⟩ := fireGrenade_broadcast m env d w b pz hb hpz
    have hww : w'' = w' := Option.some.inj (hw''.symm.trans hw)
    rw [hww, hrest hpos] at hbr
    exact ⟨_, hbr, rfl⟩
  · obtain ⟨w'', hw'', hbr⟩ := fireGrenade_broadcast_of_pos m env d w b hb hpos
    have hww : w'' = w' := Option.some.inj (hw''.symm.trans hw)
    rw [hww] at hbr
    exact hbr

/-- C20 amended, witness: without rounding, origin height 10, vertical velocity -25,
trigger time 1 and no wall in reach: the bounce continuation is queued with
delay 0.4 and lifetime 0.6, the shock wave with delay 1, and only the primary
shot is broadcast. -/
theorem fireGrenade_delays_positive_witness :
    ∃ m : Libm ℝ, m.IsReal ∧
      ∃ w' pz sw primary, fireGrenade m (demoEnv 0 (some (demoPlayer ⟨0, 0, -25⟩ 0)))
          ⟨7, ⟨0, 0, 10⟩, ⟨3, 4, 0⟩⟩ ⟨0, [], [], none⟩ = some w' ∧
        w'.delayedShots = [pz, sw] ∧ 0 < pz.delay ∧ 0 < sw.delay ∧ 0 < pz.lifetime ∧
        pz.delay + pz.lifetime = sw.delay ∧ w'.broadcast = [primary] := by
  obtain ⟨m, hm⟩ : ∃ m : Libm ℝ, m.IsReal := ⟨_, Libm.isReal_real⟩
  refine ⟨m, hm, ?_⟩
  have hv := shotVel_demo m hm 0 (some (demoPlayer ⟨0, 0, -25⟩ 0)) ⟨0, 0, 10⟩ (-25) 0 0
  have hc := collisionTime_demo 0 (some (demoPlayer ⟨0, 0, -25⟩ 0)) 10 (-25)
  have hbn : fireGrenade.bounces (demoEnv 0 (some (demoPlayer ⟨0, 0, -25⟩ 0)))
      (⟨0, 0, 10⟩ : Vec3 ℝ) ⟨39, 52, -25⟩ := by
    unfold fireGrenade.bounces
    rw [hc]
    norm_num [fireGrenade.groundCollisionTime]
  obtain ⟨w', added, h1, h2, h3, h4, -, h6, -⟩ :=
    fireGrenade_delays_positive m (demoEnv 0 (some (demoPlayer ⟨0, 0, -25⟩ 0)))
      ⟨7, ⟨0, 0, 10⟩, ⟨3, 4, 0⟩⟩ ⟨0, [], [], none⟩ (demoPlayer ⟨0, 0, -25⟩ 0)
      (by simp [demoEnv]) (by simp [demoEnv])
  rw [hv] at h4
  obtain ⟨pz, sw, ha, -, -, hl, hs, -⟩ := h4 hbn
  obtain ⟨primary, hp, -⟩ := h6 "PZ" (by simp [demoEnv])
  rw [ha] at h2 h3
  exact ⟨w', pz, sw, primary, h1, by simpa using h2, h3 pz (by simp), h3 sw (by simp), hl, hs,
    by simpa using hp⟩

end Grenade
